import Mathlib

/-!
# AUI signal/slot core: a shallow embedding of `ASignal` and its dispatch algorithm

The development embeds `src/aui.core/src/AUI/Common/ASignal.h` (one signal, its slot
vector `mSlots`, `connect`, `clearAllConnections*`, `invokeSignal`, the cross-thread thunk
and the destructor) as state-passing functions on a `World`.  User handlers are small
programs (`Action`) so that they can disconnect, connect, emit, drop owning references
and raise from inside a dispatch.  Every handler invocation and every destruction of a
stored callable is recorded in a ghost trace.
-/

namespace AUI

/-- Identity of an `AObject` (the address stored in `slot::object`). -/
abbrev ObjId := Nat

/-- Identity of an `AThread`. -/
abbrev ThreadId := Nat

mutual
/-- Statements of a handler body (user code run by a slot). -/
inductive Action (V : Type) : Type where
  /-- The call `AObject::disconnect()`. -/
  | disconnect : Action V
  /-- The call `AObject::connect(signal, object, lambda)` on the modelled signal. -/
  | connect (object : ObjId) (f : func_t V) : Action V
  /-- A nested `emit signal(args)` executed by `emitter`. -/
  | emit (emitter : ObjId) (args : List V) : Action V
  /-- Dropping one owning reference to an object (`ptr = nullptr`). -/
  | reset (o : ObjId) : Action V
  /-- A `throw` statement. -/
  | raise : Action V
  /-- Evaluating the signal in a boolean context (`operator bool`), as in
  `if (signal) ...`; the answer is recorded in the trace. -/
  | query : Action V
/-- The `func_t` stored in a slot: an `argument_ignore_helper` around a user lambda.  One
constructor per specialisation of the helper (lambda arity 0, 1, 2, 3); `target_type` is what
`std::function::target_type()` reports for it. -/
inductive func_t (V : Type) : Type where
  | helper0 (target_type : Nat) (l : List (Action V)) : func_t V
  | helper1 (target_type : Nat) (l : V → List (Action V)) : func_t V
  | helper2 (target_type : Nat) (l : V → V → List (Action V)) : func_t V
  | helper3 (target_type : Nat) (l : V → V → V → List (Action V)) : func_t V
end

/-- The value of `func.target_type()`. -/
def func_t.target_type {V : Type} : func_t V → Nat
  | .helper0 t _ => t
  | .helper1 t _ => t
  | .helper2 t _ => t
  | .helper3 t _ => t

/-- Number of parameters of the wrapped lambda. -/
def func_t.arity {V : Type} : func_t V → Nat
  | .helper0 _ _ => 0
  | .helper1 _ _ => 1
  | .helper2 _ _ => 2
  | .helper3 _ _ => 3

/-- The four `argument_ignore_helper::operator()(Args...)`: the lambda is called with the
leading arguments it declares and the others are ignored.  The result is the list of
arguments handed to the lambda together with the body the lambda runs; `none` stands for an
instantiation that does not compile (more parameters than the signal has arguments). -/
def func_t.call {V : Type} : func_t V → List V → Option (List V × List (Action V))
  | .helper0 _ l, _ => some ([], l)
  | .helper1 _ l, a1 :: _ => some ([a1], l a1)
  | .helper2 _ l, a1 :: a2 :: _ => some ([a1, a2], l a1 a2)
  | .helper3 _ l, a1 :: a2 :: a3 :: _ => some ([a1, a2, a3], l a1 a2 a3)
  | _, _ => none

/-- The struct `ASignal::slot`. -/
structure slot (V : Type) where
  object : ObjId
  func : func_t V

/-- The comparison `slot::operator==`: same receiver and same `target_type()`. -/
def slot.beq {V : Type} (a b : slot V) : Bool :=
  a.object == b.object && a.func.target_type == b.func.target_type

/-- Modelled from the spec: the class `AObject` (its header is not among the sources).  An
object has an owning thread and a dispatch policy; `owners` counts the owning references
user code holds (none for a stack-allocated object), `holds` the temporary strong
references taken by the dispatcher, and `linked` says that the modelled signal is in the
object's incoming links. -/
structure AObject where
  alive : Bool
  owners : Nat
  holds : Nat
  thread : ThreadId
  slotsCallsOnlyOnMyThread : Bool
  linked : Bool

/-- The closure enqueued by the cross-thread branch of `invokeSignal`; it captures the weak
receiver reference, a copy of the callable and a copy of the arguments. -/
structure Thunk (V : Type) where
  thread : ThreadId
  receiver : ObjId
  func : func_t V
  args : List V

/-- Ghost trace of a run. -/
inductive Event (V : Type) : Type where
  /-- A lambda of receiver `object` was entered with arguments `received`, while the signal
  mutex was held `lockDepth` times by the running thread. -/
  | call (object : ObjId) (target_type : Nat) (received : List V) (lockDepth : Nat) : Event V
  /-- A callable (the one stored in a slot, or a copy of it held by the signal's code) was
  destroyed. -/
  | drop (object : ObjId) (target_type : Nat) (lockDepth : Nat) : Event V
  /-- The destructor of an object ran. -/
  | destroyed (o : ObjId) : Event V
  /-- User code evaluated `operator bool` of the signal and got `answer`. -/
  | asked (answer : Bool) : Event V
  deriving DecidableEq

/-- State of the modelled program: one signal, the objects, the running thread. -/
structure World (V : Type) where
  objects : ObjId → AObject
  /-- The object the signal is a member of (`none` for a free-standing signal). -/
  owner : Option ObjId
  signalAlive : Bool
  mSlots : List (slot V)
  /-- How many times the running thread holds the recursive mutex `mSlotsLock`. -/
  lockDepth : Nat
  /-- The thread `AThread::current()`. -/
  current : ThreadId
  /-- The flag `AAbstractSignal::isDisconnected()`. -/
  isDisconnected : Bool
  /-- Thunks enqueued on thread message queues, oldest first. -/
  queue : List (Thunk V)
  trace : List (Event V)

/-- Ways a run can end without returning normally. -/
inductive Err (V : Type) : Type where
  /-- A handler raised; the world is the state once the exception has left the operation. -/
  | threw (w : World V) : Err V
  /-- A destroyed object or a destroyed signal was accessed. -/
  | useAfterFree : Err V
  /-- A callable was applied to fewer arguments than its lambda declares. -/
  | illTyped : Err V
  | outOfFuel : Err V

/-- Result of an operation on the world. -/
abbrev Res (V : Type) := Except (Err V) (World V)

variable {V : Type}

/-- Replace the record of one object. -/
def World.setObj (w : World V) (o : ObjId) (a : AObject) : World V :=
  { w with objects := Function.update w.objects o a }

/-- Append an event to the ghost trace. -/
def World.log (w : World V) (e : Event V) : World V :=
  { w with trace := w.trace ++ [e] }

/-- The trace event for the destruction of the callable stored in a slot. -/
def dropEvent (depth : Nat) (s : slot V) : Event V :=
  .drop s.object s.func.target_type depth

/-- Modelled from the spec: `AAbstractSignal::linkSlot` (declared in the absent
`AAbstractSignal.h`), which "registers this Signal in receiver.incomingLinks".  The incoming
links are a set, so registering twice is registering once. -/
def linkSlot (o : ObjId) (w : World V) : Res V :=
  if (w.objects o).alive then .ok (w.setObj o { w.objects o with linked := true })
  else .error .useAfterFree

/-- Modelled from the spec: `AAbstractSignal::unlinkSlot` (declared in the absent
`AAbstractSignal.h`), which removes this signal from the receiver's incoming links. -/
def unlinkSlot (o : ObjId) (w : World V) : Res V :=
  if (w.objects o).alive then .ok (w.setObj o { w.objects o with linked := false })
  else .error .useAfterFree

/-- Modelled from the spec: whether `weakPtrFromObject(o).lock()` yields a strong reference
("WeakHandle.resolve() -> Option<StrongHandle>"): the object is managed by owning
references and at least one is left. -/
def lockable (a : AObject) : Bool :=
  a.alive && decide (0 < a.owners + a.holds)

/-- The method `ASignal::connect(object, lambda)`. -/
def connect (object : ObjId) (f : func_t V) (w : World V) : Res V :=
  if w.signalAlive then linkSlot object { w with mSlots := w.mSlots ++ [⟨object, f⟩] }
  else .error .useAfterFree

/-- The method `ASignal::clearAllConnectionsIf`.  Under the lock `removeIf` visits the slots;
for a matching slot `slotsToRemove << std::move(p.func)` copies the callable (`p` is a
`const slot&`, so nothing is moved out of it) and the slot is removed, which destroys the
callable stored in it while the mutex is held.  Then the lock is released and
`slotsToRemove.clear()` destroys the copies. -/
def clearAllConnectionsIf (predicate : slot V → Bool) (w : World V) : Res V :=
  if w.signalAlive then
    .ok { w with
      mSlots := w.mSlots.filter (fun p => !predicate p)
      trace := w.trace ++ (w.mSlots.filter predicate).map (dropEvent (w.lockDepth + 1))
        ++ (w.mSlots.filter predicate).map (dropEvent w.lockDepth) }
  else .error .useAfterFree

/-- The method `ASignal::clearAllConnections`. -/
def clearAllConnections (w : World V) : Res V :=
  clearAllConnectionsIf (fun _ => true) w

/-- The method `ASignal::clearAllConnectionsWith(object)`. -/
def clearAllConnectionsWith (object : ObjId) (w : World V) : Res V :=
  clearAllConnectionsIf (fun p => p.object == object) w

/-- The loop of `~ASignal`: every slot still stored is unlinked from its receiver. -/
def unlinkAll : List (slot V) → World V → Res V
  | [], w => .ok w
  | s :: rest, w =>
    match unlinkSlot s.object w with
    | .ok w1 => unlinkAll rest w1
    | .error e => .error e

/-- The destructor `~ASignal`, followed by the destruction of the member `mSlots`. -/
def destroySignal (w : World V) : Res V :=
  if w.signalAlive then
    match unlinkAll w.mSlots w with
    | .ok w1 =>
      .ok { w1 with
        signalAlive := false
        mSlots := []
        trace := w1.trace ++ w.mSlots.map (dropEvent w.lockDepth) }
    | .error e => .error e
  else .error .useAfterFree

/-- Modelled from the spec: the teardown of an `AObject` (its source is absent).  The
members go first (the signal, when the object owns it), then "for each entry in
incomingLinks" the signal is asked to drop the slots of the object, and the links are
cleared. -/
def destroy (o : ObjId) (w : World V) : Res V :=
  if (w.objects o).alive then
    match (if w.owner = some o then destroySignal (w.log (.destroyed o))
           else .ok (w.log (.destroyed o))) with
    | .ok w1 =>
      match (if (w1.objects o).linked then clearAllConnectionsWith o w1 else .ok w1) with
      | .ok w2 => .ok (w2.setObj o { w2.objects o with alive := false, linked := false })
      | .error e => .error e
    | .error e => .error e
  else .error .useAfterFree

/-- A temporary strong reference obtained from a successful `lock()`. -/
def acquire (o : ObjId) (w : World V) : World V :=
  w.setObj o { w.objects o with holds := (w.objects o).holds + 1 }

/-- Giving up a temporary strong reference; the object is destroyed when it was the last
owning reference. -/
def release (o : ObjId) (w : World V) : Res V :=
  let a := w.objects o
  let w1 := w.setObj o { a with holds := a.holds - 1 }
  if a.owners + (a.holds - 1) = 0 then destroy o w1 else .ok w1

/-- Giving up the reference held by a `_<AObject>` local that may be null. -/
def releaseOpt : Option ObjId → World V → Res V
  | none, w => .ok w
  | some o, w => release o w

/-- User code dropping one of its owning references (`ptr = nullptr`); a null pointer is
left as it is. -/
def resetRef (o : ObjId) (w : World V) : Res V :=
  let a := w.objects o
  if a.alive && decide (0 < a.owners) then
    let w1 := w.setObj o { a with owners := a.owners - 1 }
    if a.owners - 1 + a.holds = 0 then destroy o w1 else .ok w1
  else .ok w

/-- The conversion `ASignal::operator bool`. -/
def toBool (w : World V) : Bool :=
  !w.mSlots.isEmpty

/-- One statement of a handler; `emitF` is what a nested emission does. -/
def runAction (emitF : ObjId → List V → World V → Res V) : Action V → World V → Res V
  | .disconnect, w => .ok { w with isDisconnected := true }
  | .connect o f, w => connect o f w
  | .emit e args, w => emitF e args w
  | .reset o, w => resetRef o w
  | .raise, w => .error (.threw w)
  | .query, w => .ok (w.log (.asked (toBool w)))

/-- A handler body, statement by statement. -/
def runBody (emitF : ObjId → List V → World V → Res V) : List (Action V) → World V → Res V
  | [], w => .ok w
  | a :: rest, w =>
    match runAction emitF a w with
    | .ok w1 => runBody emitF rest w1
    | .error e => .error e

/-- The call `(std::apply)(func, args)`: the helper trims the arguments, the lambda is
entered (recorded in the trace) and its body runs. -/
def applyFunc (emitF : ObjId → List V → World V → Res V) (s : slot V) (args : List V)
    (w : World V) : Res V :=
  match s.func.call args with
  | none => .error .illTyped
  | some (received, body) =>
    runBody emitF body (w.log (.call s.object s.func.target_type received w.lockDepth))

/-- Leaving the scope of `invokeSignal` (normally or by an exception): the local `slots` is
destroyed with what it still stores, the lock is released, then the holds `receiverPtr` and
`emitterPtr` are given up. -/
def leave (slots : List (slot V)) (receiverPtr emitterPtr : Option ObjId) (w : World V) :
    Res V :=
  if w.signalAlive then
    match releaseOpt receiverPtr
        { w with
          trace := w.trace ++ slots.map (dropEvent w.lockDepth)
          lockDepth := w.lockDepth - 1 } with
    | .ok w1 => releaseOpt emitterPtr w1
    | .error e => .error e
  else .error .useAfterFree

/-- The assignment `receiverPtr = std::move(sharedPtr)` guarded by `receiverWeakPtr.lock()`:
the new receiver is held first, then the one held before is given up. -/
def holdReceiver (o : ObjId) (receiverPtr : Option ObjId) (w : World V) :
    Except (Err V) (Option ObjId × World V) :=
  if lockable (w.objects o) then
    match releaseOpt receiverPtr (acquire o w) with
    | .ok w1 => .ok (some o, w1)
    | .error e => .error e
  else .ok (receiverPtr, w)

/-- The `for` loop of `invokeSignal` over the detached vector `slots`.  `kept` is the part of
the vector before the iterator, the third argument the part from the iterator on. -/
def invokeLoop (emitF : ObjId → List V → World V → Res V) (emitterPtr : Option ObjId)
    (args : List V) :
    List (slot V) → List (slot V) → Option ObjId → World V →
      Except (Err V) (List (slot V) × Option ObjId × World V)
  | kept, [], receiverPtr, w => .ok (kept, receiverPtr, w)
  | kept, s :: rest, receiverPtr, w =>
    if (w.objects s.object).alive then
      if (w.objects s.object).slotsCallsOnlyOnMyThread
          && (w.objects s.object).thread != w.current then
        -- cross-thread call: queue a thunk when the receiver can be locked; `++i`
        if lockable (w.objects s.object) then
          invokeLoop emitF emitterPtr args (kept ++ [s]) rest receiverPtr
            { w with queue := w.queue ++ [⟨(w.objects s.object).thread, s.object, s.func, args⟩] }
        else invokeLoop emitF emitterPtr args (kept ++ [s]) rest receiverPtr w
      else
        match holdReceiver s.object receiverPtr { w with isDisconnected := false } with
        | .error e => .error e
        | .ok (receiverPtr1, w1) =>
          match applyFunc emitF s args w1 with
          | .error (.threw w2) =>
            match leave (kept ++ s :: rest) receiverPtr1 emitterPtr w2 with
            | .ok w3 => .error (.threw w3)
            | .error e => .error e
          | .error e => .error e
          | .ok w2 =>
            if w2.isDisconnected then
              match unlinkSlot s.object w2 with
              | .ok w3 =>
                invokeLoop emitF emitterPtr args kept rest receiverPtr1
                  (w3.log (dropEvent w3.lockDepth s))
              | .error e => .error e
            else invokeLoop emitF emitterPtr args (kept ++ [s]) rest receiverPtr1 w2
    else .error .useAfterFree

/-- The hold `emitterPtr` that `invokeSignal` takes on the emitter `e` in world `w`: the
result of `weakPtrFromObject(emitter).lock()`. -/
def emitterHold (w : World V) (e : ObjId) : Option ObjId :=
  if lockable (w.objects e) then some e else none

/-- The world once `emitterPtr` has been set. -/
def holdEmitter (e : ObjId) (w : World V) : World V :=
  if lockable (w.objects e) then acquire e w else w

/-- The statements `std::unique_lock lock(mSlotsLock); auto slots = std::move(mSlots);`:
the mutex is taken and the live vector is left empty. -/
def detach (w : World V) : World V :=
  { w with lockDepth := w.lockDepth + 1, mSlots := [] }

/-- The merge after the loop, followed by `isDisconnected() = false`. -/
def reconcile (slots : List (slot V)) (w : World V) : World V :=
  { w with
    mSlots := if w.mSlots.isEmpty then slots else slots ++ w.mSlots
    isDisconnected := false }

/-- The body of `ASignal::invokeSignal(emitter, args)`. -/
def invokeSignalWith (emitF : ObjId → List V → World V → Res V) (emitter : ObjId)
    (args : List V) (w : World V) : Res V :=
  if w.signalAlive then
    if w.mSlots.isEmpty then .ok w
    else if (w.objects emitter).alive then
      match invokeLoop emitF (emitterHold w emitter) args [] w.mSlots none
          (detach (holdEmitter emitter w)) with
      | .error e => .error e
      | .ok (slots, receiverPtr, w2) =>
        if w2.signalAlive then
          leave [] receiverPtr (emitterHold w emitter) (reconcile slots w2)
        else .error .useAfterFree
    else .error .useAfterFree
  else .error .useAfterFree

/-- The method `ASignal::invokeSignal`; `fuel` bounds the depth of nested emissions. -/
def invokeSignal : Nat → ObjId → List V → World V → Res V
  | 0 => fun _ _ _ => .error .outOfFuel
  | fuel + 1 => invokeSignalWith (invokeSignal fuel)

/-- The call `AVector::removeFirst(item)` on slots: the first element that compares equal
to `item` is erased. -/
def removeFirst (item : slot V) : List (slot V) → List (slot V)
  | [] => []
  | s :: rest => if s.beq item then rest else s :: removeFirst item rest

/-- The first slot that compares equal to `item`, if any. -/
def findFirst (item : slot V) : List (slot V) → Option (slot V)
  | [] => none
  | s :: rest => if s.beq item then some s else findFirst item rest

/-- The first statements of the queued closure once `receiverWeakPtr.lock()` succeeded: the
receiver is held by the local `receiverPtr` and `isDisconnected()` is set to false. -/
def thunkEnter (t : Thunk V) (w : World V) : World V :=
  { acquire t.receiver w with isDisconnected := false }

/-- The block of the queued closure under `if (AAbstractSignal::isDisconnected())`: under
the lock, the receiver is unlinked and the first slot of the live vector that compares equal
to `{receiver, func}` is erased. -/
def thunkErase (t : Thunk V) (w : World V) : Res V :=
  if w.signalAlive then
    match unlinkSlot t.receiver w with
    | .ok w1 =>
      .ok { w1 with
        mSlots := removeFirst ⟨t.receiver, t.func⟩ w1.mSlots
        trace := w1.trace ++
          ((findFirst ⟨t.receiver, t.func⟩ w1.mSlots).toList.map
            (dropEvent (w1.lockDepth + 1))) }
    | .error e => .error e
  else .error .useAfterFree

/-- The closure queued by the cross-thread branch, run on the receiver thread. -/
def runThunkWith (emitF : ObjId → List V → World V → Res V) (t : Thunk V) (w : World V) :
    Res V :=
  if lockable (w.objects t.receiver) then
    match applyFunc emitF ⟨t.receiver, t.func⟩ t.args (thunkEnter t w) with
    | .error (.threw w1) =>
      match release t.receiver w1 with
      | .ok w2 => .error (.threw w2)
      | .error e => .error e
    | .error e => .error e
    | .ok w1 =>
      if w1.isDisconnected then
        match thunkErase t w1 with
        | .ok w2 => release t.receiver w2
        | .error e => .error e
      else release t.receiver w1
  else .ok w

/-- The world seen by the thread `th` when it runs. -/
def onThread (th : ThreadId) (w : World V) : World V :=
  { w with current := th }

/-- Draining one thunk: it runs with `AThread::current()` being the thread it was queued
on. -/
def runThunk (fuel : Nat) (t : Thunk V) (w : World V) : Res V :=
  match runThunkWith (invokeSignal fuel) t (onThread t.thread w) with
  | .ok w1 => .ok (onThread w.current w1)
  | .error (.threw w1) => .error (.threw (onThread w.current w1))
  | .error e => .error e

/-- The handler invocations of a trace, in order: receiver, `target_type`, arguments
received by the lambda. -/
def calls : List (Event V) → List (ObjId × Nat × List V)
  | [] => []
  | .call o t received _ :: rest => (o, t, received) :: calls rest
  | _ :: rest => calls rest

/-! ## Vocabulary for stating what a dispatch does -/

/-- The statement is a call of `disconnect()`. -/
def Action.isDisconnect : Action V → Bool
  | .disconnect => true
  | _ => false

/-- The slot a statement connects, if it is a `connect`. -/
def Action.connected : Action V → Option (slot V)
  | .connect o f => some ⟨o, f⟩
  | _ => none

/-- The statement drops an owning reference to `e`. -/
def Action.resets (e : ObjId) : Action V → Bool
  | .reset o => o == e
  | _ => false

/-- Handler statements covered by the dispatch lemmas: `disconnect()`, a `connect` to a
receiver that is alive in `w`, and dropping an owning reference to the object `e` that the
running dispatch keeps alive. -/
def Action.tame (w : World V) (e : ObjId) : Action V → Bool
  | .disconnect => true
  | .connect o _ => (w.objects o).alive
  | .reset o => o == e
  | _ => false

/-- The body the lambda of a slot runs when the signal is emitted with `args`. -/
def slot.body (args : List V) (s : slot V) : List (Action V) :=
  match s.func.call args with
  | some (_, b) => b
  | none => []

/-- The arguments the lambda of a slot is handed when the signal is emitted with `args`. -/
def slot.received (args : List V) (s : slot V) : List V :=
  match s.func.call args with
  | some (r, _) => r
  | none => []

/-- The test of the cross-thread branch: the receiver wants its slots called on its own
thread and that thread is not the current one. -/
def isCross (w : World V) (s : slot V) : Bool :=
  (w.objects s.object).slotsCallsOnlyOnMyThread && (w.objects s.object).thread != w.current

/-- A slot covered by the dispatch lemmas: its receiver is alive, and it is either served
by the cross-thread branch or its lambda accepts `args` and runs a tame body. -/
def tameSlot (w : World V) (e : ObjId) (args : List V) (s : slot V) : Bool :=
  (w.objects s.object).alive &&
    (isCross w s || ((s.func.call args).isSome && (s.body args).all (Action.tame w e)))

/-- The slot asks for its own disconnection when it is called with `args`. -/
def disconnects (args : List V) (s : slot V) : Bool :=
  (s.body args).any Action.isDisconnect

/-- The slot stays in the vector: it is served cross-thread or does not disconnect. -/
def survives (w : World V) (args : List V) (s : slot V) : Bool :=
  isCross w s || !disconnects args s

/-- The slots the handler of `s` connects during a same-thread call. -/
def added (w : World V) (args : List V) (s : slot V) : List (slot V) :=
  if isCross w s then [] else (s.body args).filterMap Action.connected

/-- The trace a tame slot leaves: nothing when it is served cross-thread, otherwise the
call and, when it disconnects, the destruction of its callable by `erase`. -/
def slotEvents (w : World V) (args : List V) (s : slot V) : List (Event V) :=
  if isCross w s then []
  else if disconnects args s then
    [.call s.object s.func.target_type (s.received args) (w.lockDepth + 1),
     dropEvent (w.lockDepth + 1) s]
  else [.call s.object s.func.target_type (s.received args) (w.lockDepth + 1)]

/-- The thunk the cross-thread branch queues for a slot. -/
def thunkOf (w : World V) (args : List V) (s : slot V) : Thunk V :=
  ⟨(w.objects s.object).thread, s.object, s.func, args⟩

/-- The thunks a dispatch over `ss` queues: one per cross-thread slot whose receiver can be
locked. -/
def queued (w : World V) (args : List V) (ss : List (slot V)) : List (Thunk V) :=
  (ss.filter (fun s => isCross w s && lockable (w.objects s.object))).map (thunkOf w args)

/-- How many owning references to `e` the same-thread handlers of `ss` drop. -/
def resetCount (w : World V) (e : ObjId) (args : List V) : List (slot V) → Nat
  | [] => 0
  | s :: rest =>
    (if isCross w s then 0 else (s.body args).countP (Action.resets e))
      + resetCount w e args rest

/-- The handler invocation a same-thread slot contributes. -/
def callOf (args : List V) (s : slot V) : ObjId × Nat × List V :=
  (s.object, s.func.target_type, s.received args)

/-- No object without owning references carries a temporary hold. -/
def NoZombie (w : World V) : Prop :=
  ∀ o, (w.objects o).owners = 0 → (w.objects o).holds = 0

/-- The spec invariant on incoming links, in the direction teardown needs: the signal is in
the incoming links of every receiver it holds a slot for. -/
def WellLinked (w : World V) : Prop :=
  ∀ s ∈ w.mSlots, (w.objects s.object).linked = true

/-- The number of holds (0 or 1) that the local strong reference `p` contributes to `o`. -/
def held1 (p : Option ObjId) (o : ObjId) : Nat :=
  if p = some o then 1 else 0

/-- Giving up a temporary strong reference that is not the last owning reference. -/
def unhold (o : ObjId) (w : World V) : World V :=
  w.setObj o { w.objects o with holds := (w.objects o).holds - 1 }

/-- What holds while user code runs inside a dispatch that started in world `w0`, keeps the
object `e` alive through `ep` and currently holds the receiver `rp`. -/
structure Inv (w0 : World V) (e : ObjId) (ep rp : Option ObjId) (w : World V) : Prop where
  signalAlive : w.signalAlive = true
  owner : w.owner = w0.owner
  current : w.current = w0.current
  alive : ∀ o, (w.objects o).alive = (w0.objects o).alive
  thread : ∀ o, (w.objects o).thread = (w0.objects o).thread
  policy : ∀ o, (w.objects o).slotsCallsOnlyOnMyThread = (w0.objects o).slotsCallsOnlyOnMyThread
  owners : ∀ o, o ≠ e → (w.objects o).owners = (w0.objects o).owners
  ownersLe : (w.objects e).owners ≤ (w0.objects e).owners
  holds : ∀ o, (w.objects o).holds = (w0.objects o).holds + held1 ep o + held1 rp o
  held : ∀ r, rp = some r → lockable (w0.objects r) = true
  zombie : NoZombie w0
  eAlive : (w0.objects e).alive = true
  ep_eq : ep = if lockable (w0.objects e) then some e else none

/-- The state `w2` in which a dispatch of tame slots, started in `w` by emitter `e` with
`args`, reaches its last step (giving up `emitterPtr`). -/
structure Dispatched (w : World V) (e : ObjId) (args : List V) (w2 : World V) : Prop where
  signalAlive : w2.signalAlive = true
  owner : w2.owner = w.owner
  current : w2.current = w.current
  lockDepth : w2.lockDepth = w.lockDepth
  flag : w2.isDisconnected = false
  mSlots : w2.mSlots = w.mSlots.filter (survives w args) ++ w.mSlots.flatMap (added w args)
  trace : w2.trace = w.trace ++ w.mSlots.flatMap (slotEvents w args)
  queue : w2.queue = w.queue ++ queued w args w.mSlots
  alive : ∀ o, (w2.objects o).alive = (w.objects o).alive
  thread : ∀ o, (w2.objects o).thread = (w.objects o).thread
  policy : ∀ o, (w2.objects o).slotsCallsOnlyOnMyThread = (w.objects o).slotsCallsOnlyOnMyThread
  owners : ∀ o, o ≠ e → (w2.objects o).owners = (w.objects o).owners
  ownersE : (w2.objects e).owners = (w.objects e).owners - resetCount w e args w.mSlots
  holds : ∀ o, (w2.objects o).holds = (w.objects o).holds + held1 (emitterHold w e) o


/-- The state `w1` in which `invokeSignal`, started in `w` by emitter `e` with `args`,
returns when the slots are tame and no handler drops a reference to the emitter. -/
structure Emitted (w : World V) (e : ObjId) (args : List V) (w1 : World V) : Prop where
  signalAlive : w1.signalAlive = true
  owner : w1.owner = w.owner
  current : w1.current = w.current
  lockDepth : w1.lockDepth = w.lockDepth
  flag : w.mSlots ≠ [] → w1.isDisconnected = false
  mSlots : w1.mSlots = w.mSlots.filter (survives w args) ++ w.mSlots.flatMap (added w args)
  trace : w1.trace = w.trace ++ w.mSlots.flatMap (slotEvents w args)
  queue : w1.queue = w.queue ++ queued w args w.mSlots
  alive : ∀ o, (w1.objects o).alive = (w.objects o).alive
  thread : ∀ o, (w1.objects o).thread = (w.objects o).thread
  policy : ∀ o, (w1.objects o).slotsCallsOnlyOnMyThread = (w.objects o).slotsCallsOnlyOnMyThread
  owners : ∀ o, (w1.objects o).owners = (w.objects o).owners
  holds : ∀ o, (w1.objects o).holds = (w.objects o).holds

/-- A sequence of `connect` calls, in order. -/
def connectAll : List (slot V) → World V → Res V
  | [], w => .ok w
  | s :: rest, w =>
    match connect s.object s.func w with
    | .ok w1 => connectAll rest w1
    | .error e => .error e

/-- The same-thread slots of a vector, in order. -/
def sameThread (w : World V) (ss : List (slot V)) : List (slot V) :=
  ss.filter (fun s => !isCross w s)

/-- What identifies a slot in observations: its receiver and its `target_type`. -/
def slot.key (s : slot V) : ObjId × Nat :=
  (s.object, s.func.target_type)

/-- Two worlds agree on everything a dispatch reads apart from the slot vector, the flag,
the queue, the trace and the incoming links. -/
structure Frame (w w1 : World V) : Prop where
  signalAlive : w1.signalAlive = w.signalAlive
  owner : w1.owner = w.owner
  current : w1.current = w.current
  lockDepth : w1.lockDepth = w.lockDepth
  alive : ∀ o, (w1.objects o).alive = (w.objects o).alive
  thread : ∀ o, (w1.objects o).thread = (w.objects o).thread
  policy : ∀ o, (w1.objects o).slotsCallsOnlyOnMyThread = (w.objects o).slotsCallsOnlyOnMyThread
  owners : ∀ o, (w1.objects o).owners = (w.objects o).owners
  holds : ∀ o, (w1.objects o).holds = (w.objects o).holds

/-! ## Concrete objects and worlds used to instantiate the theorems -/

/-- A heap object owned by one shared pointer, living on thread 0, whose slots are called
on its own thread only (the default policy). -/
def heapObject : AObject :=
  ⟨true, 1, 0, 0, true, false⟩

/-- A stack-allocated object of thread 0: no owning reference, so no weak reference to it
resolves. -/
def stackObject : AObject :=
  ⟨true, 0, 0, 0, true, false⟩

/-- The fixture of the signal/slot tests: object 0 (the master) owns the signal, every
object is a heap object of thread 0, thread 0 runs, nothing is connected. -/
def fixture (V : Type) : World V :=
  ⟨fun _ => heapObject, some 0, true, [], 0, 0, false, [], []⟩

/-- The fixture after the slots `ss` have been connected: every receiver of a slot has the
signal in its incoming links. -/
def fixtureWith (ss : List (slot V)) : World V :=
  ⟨fun o => { heapObject with linked := ss.any (fun s => s.object == o) },
    some 0, true, ss, 0, 0, false, [], []⟩

/-- A one-argument handler of receiver 1 that does not touch the signal. -/
def plainSlot (V : Type) : slot V :=
  ⟨1, .helper1 7 (fun _ => [])⟩

/-- The handler of test `Basic`: one argument, no use of the signal. -/
def acceptMessage : slot String :=
  ⟨1, .helper1 7 (fun _ => [])⟩

/-- The handler of test `BasicNoArgs`: no argument. -/
def acceptMessageNoArgs : slot String :=
  ⟨1, .helper0 8 []⟩


/-- The slot keys of the vector an operation leaves, when it returns normally. -/
def slotsAfter (r : Res V) : Option (List (ObjId × Nat)) :=
  match r with
  | .ok w => some (w.mSlots.map slot.key)
  | .error _ => none

/-- The handler invocations recorded when an operation returns normally. -/
def callsAfter (r : Res V) : Option (List (ObjId × Nat × List V)) :=
  match r with
  | .ok w => some (calls w.trace)
  | .error _ => none

/-- Running a second operation on the world a first one returned. -/
def andThen (r : Res V) (f : World V → Res V) : Res V :=
  match r with
  | .ok w => f w
  | .error e => .error e

/-- A handler of receiver 1 that connects a plain slot, calls `disconnect()` and then emits
the signal again from inside its own invocation. -/
def reemittingSlot : slot Nat :=
  ⟨1, .helper1 7 (fun a => [.connect 1 (.helper1 8 (fun _ => [])), .disconnect, .emit 0 [a]])⟩

/-- The handler of test `ObjectDisconnect1`: it calls `disconnect()` and nothing else. -/
def disconnectingSlot (V : Type) : slot V :=
  ⟨1, .helper1 9 (fun _ => [.disconnect])⟩

/-- The second handler of test `ObjectDisconnect2`: receiver 1, calls `disconnect()`. -/
def selfRemovingSlot (V : Type) : slot V :=
  ⟨1, .helper1 8 (fun _ => [.disconnect])⟩

/-- The handler of test `ObjectNestedConnectWithDisconnect`: it disconnects itself and
connects a plain handler of the same receiver. -/
def replacingSlot (V : Type) : slot V :=
  ⟨1, .helper1 6 (fun _ => [.disconnect, .connect 1 (.helper1 7 (fun _ => []))])⟩

/-- The handler of test `NestedConnection`: on every call it connects one new plain
handler of the same receiver. -/
def growingSlot (V : Type) : slot V :=
  ⟨1, .helper1 5 (fun _ => [.connect 1 (.helper1 7 (fun _ => []))])⟩

/-- A one-argument handler of receiver 2 that does not touch the signal. -/
def otherSlot (V : Type) : slot V :=
  ⟨2, .helper1 8 (fun _ => [])⟩

/-- Whether object `o` is alive in the world an operation returns. -/
def aliveAfter (o : ObjId) (r : Res V) : Option Bool :=
  match r with
  | .ok w => some (w.objects o).alive
  | .error _ => none

/-- An operation ended by touching a destroyed object or the destroyed signal. -/
def usedAfterFree (r : Res V) : Bool :=
  match r with
  | .error .useAfterFree => true
  | _ => false

/-- The handler of test `ObjectDestroySlaveInSignalHandler`: receiver 1 drops the last
owning reference to itself (`slave = nullptr`). -/
def suicidalSlot (V : Type) : slot V :=
  ⟨1, .helper0 7 [.reset 1]⟩

/-- The handler of test `ObjectDestroyMasterInSignalHandler`: receiver 1 drops the last
owning reference to the emitter, object 0 (`master = nullptr`). -/
def masterDroppingSlot (V : Type) : slot V :=
  ⟨1, .helper0 7 [.reset 0]⟩

/-- The fixture with slots `ss` connected, seen from a worker thread (thread 5): the
objects live on thread 0. -/
def workerFixtureWith (ss : List (slot V)) : World V :=
  { fixtureWith ss with current := 5 }

/-- A world run by a worker thread (thread 5) in which receiver 1 is a stack-allocated
object of thread 0 and the other objects are heap objects of thread 0. -/
def stackReceiverWorld (V : Type) : World V :=
  ⟨fun o => if o = 1 then stackObject else heapObject, some 0, true, [], 0, 5, false, [], []⟩

/-- The thunks queued when an operation returns normally: thread, receiver, `target_type`
and arguments of each. -/
def queueAfter (r : Res V) : Option (List (ThreadId × ObjId × Nat × List V)) :=
  match r with
  | .ok w => some (w.queue.map (fun t => (t.thread, t.receiver, t.func.target_type, t.args)))
  | .error _ => none

/-- The world after the teardown of a receiver `R` that does not own the signal and has the
signal in its incoming links whenever it has a slot: the slots of `R` are out of the vector,
their callables destroyed, and `R` is dead and unlinked. -/
def tornDown (R : ObjId) (w : World V) : World V :=
  ({ w with
      mSlots := w.mSlots.filter (fun s => s.object != R)
      trace := (w.trace ++ [.destroyed R])
        ++ (w.mSlots.filter (fun s => s.object == R)).map (dropEvent (w.lockDepth + 1))
        ++ (w.mSlots.filter (fun s => s.object == R)).map (dropEvent w.lockDepth) }
    : World V).setObj R { w.objects R with alive := false, linked := false }

/-! ## The member-function overload of `connect` -/

/-- A pointer to member function `void (Object::*)(FArgs...)`: `signature` stands for its
type (the class `Object` and the parameter list `FArgs...`), `body` for what calling it on
the receiver does, as a callable of its arity. -/
structure MemberFunction (V : Type) where
  signature : Nat
  body : func_t V

/-- The same callable under another `target_type`. -/
def func_t.retype (t : Nat) : func_t V → func_t V
  | .helper0 _ l => .helper0 t l
  | .helper1 _ l => .helper1 t l
  | .helper2 _ l => .helper2 t l
  | .helper3 _ l => .helper3 t l

/-- The type of the closure `[object, memberFunction](FArgs... args)` written inside
`connect(Derived, void (Object::*)(FArgs...))`: one closure type per instantiation of the
template, that is per `Derived` and per member-function type, whatever the member function
pointed to. -/
def memberClosureType (derived signature : Nat) : Nat :=
  Nat.pair derived signature

/-- The overload `ASignal::connect(derived, memberFunction)`: it forwards to the lambda
overload with the closure that calls the member function. -/
def connectMember (derived : Nat) (object : ObjId) (m : MemberFunction V) (w : World V) :
    Res V :=
  connect object (m.body.retype (memberClosureType derived m.signature)) w

/-- The member function `Slave::acceptMessage(const AString&)` of the tests. -/
def acceptMessageMember : MemberFunction Nat :=
  ⟨3, .helper1 0 (fun _ => [])⟩

/-- A second member function of the same class and signature that disconnects. -/
def acceptAndLeaveMember : MemberFunction Nat :=
  ⟨3, .helper1 0 (fun _ => [.disconnect])⟩

/-- Running the `i`-th thunk of the queue (the queue is left as it is). -/
def runQueued (fuel i : Nat) (w : World V) : Res V :=
  match w.queue.get? i with
  | some t => runThunk fuel t w
  | none => .ok w

/-- The slots an operation leaves, each with its key and whether its handler disconnects
when called with `args`. -/
def handlersAfter (args : List V) (r : Res V) : Option (List ((ObjId × Nat) × Bool)) :=
  match r with
  | .ok w => some (w.mSlots.map (fun s => (s.key, disconnects args s)))
  | .error _ => none

/-- The answers `operator bool` gave to user code, in order. -/
def asks : List (Event V) → List Bool
  | [] => []
  | .asked b :: rest => b :: asks rest
  | _ :: rest => asks rest

/-- The answers recorded when an operation returns normally. -/
def asksAfter (r : Res V) : Option (List Bool) :=
  match r with
  | .ok w => some (asks w.trace)
  | .error _ => none

/-- The value of `operator bool` in the world an operation returns. -/
def toBoolAfter (r : Res V) : Option Bool :=
  match r with
  | .ok w => some (toBool w)
  | .error _ => none

/-- A handler of receiver 1 that evaluates the signal in a boolean context. -/
def queryingSlot (V : Type) : slot V :=
  ⟨1, .helper1 7 (fun _ => [.query])⟩

/-- The fixture run by a worker thread (thread 5), nothing connected. -/
def workerFixture (V : Type) : World V :=
  { fixture V with current := 5 }

/-- The table of `slot::operator==` over the slots an operation leaves: row `i`, column `j`
is the comparison of slot `i` with slot `j`. -/
def equalitiesAfter (r : Res V) : Option (List (List Bool)) :=
  match r with
  | .ok w => some (w.mSlots.map (fun a => w.mSlots.map (fun b => slot.beq a b)))
  | .error _ => none

/-- The world with `AAbstractSignal::isDisconnected()` set to `b`; `setFlag true` is the
effect of the call `AObject::disconnect()`. -/
def setFlag (b : Bool) (w : World V) : World V :=
  { w with isDisconnected := b }

/-- The result of the dispatch loop with the flag of its final world cleared. -/
def clearFlag :
    Except (Err V) (List (slot V) × Option ObjId × World V) →
      Except (Err V) (List (slot V) × Option ObjId × World V)
  | .ok (kept, receiverPtr, w) => .ok (kept, receiverPtr, setFlag false w)
  | .error e => .error e

/-- A one-argument handler of receiver 1 that raises an error. -/
def raisingSlot (V : Type) : slot V :=
  ⟨1, .helper1 4 (fun _ => [.raise])⟩

/-! ## View lookup (`AViewContainer.h`) -/

/-- The values of `Visibility` (declared with `AView`, whose header is not among the
sources); the lookups only ask whether a view is `GONE` or `UNREACHABLE`. -/
inductive Visibility where
  | VISIBLE
  | INVISIBLE
  | UNREACHABLE
  | GONE
  deriving DecidableEq

mutual
/-- A view, given by what the lookups read from it: its identity, the values of
`getPosition()`, `getSize()` and `getVisibility()`, the answer of `consumesClick`, whether
the cast to `AViewContainer` succeeds and, when it does, the children `mViews`. -/
inductive AView where
  | mk (id : Nat) (position size : Int × Int) (visibility : Visibility)
      (consumesClick : Int × Int → Bool) (container : Bool) (mViews : AViews)
/-- The vector `mViews` of a container, first child first. -/
inductive AViews where
  | nil
  | cons (view : AView) (rest : AViews)
end

/-- The identity of a view. -/
def AView.id : AView → Nat
  | .mk id _ _ _ _ _ _ => id

/-- The method `AView::getPosition`. -/
def AView.getPosition : AView → Int × Int
  | .mk _ position _ _ _ _ _ => position

/-- The method `AView::getSize`. -/
def AView.getSize : AView → Int × Int
  | .mk _ _ size _ _ _ _ => size

/-- The method `AView::getVisibility`. -/
def AView.getVisibility : AView → Visibility
  | .mk _ _ _ visibility _ _ _ => visibility

/-- The method `AView::consumesClick`. -/
def AView.consumesClick : AView → Int × Int → Bool
  | .mk _ _ _ _ consumesClick _ _ => consumesClick

/-- Whether `_cast<AViewContainer>(view)` yields a container. -/
def AView.container : AView → Bool
  | .mk _ _ _ _ _ container _ => container

/-- The children of a view (read only when it is a container). -/
def AView.mViews : AView → AViews
  | .mk _ _ _ _ _ _ mViews => mViews

/-- The flag `AViewLookupFlags::IGNORE_VISIBILITY`. -/
def IGNORE_VISIBILITY : Nat := 0b1

/-- The flag `AViewLookupFlags::ONLY_ONE_PER_CONTAINER`. -/
def ONLY_ONE_PER_CONTAINER : Nat := 0b10

/-- The test `flags.test(flag)` of `ABitField` for a one-bit flag. -/
def test (flags flag : Nat) : Bool :=
  flags &&& flag != 0

/-- The state of a lookup: the state of the callback and the log of its calls, each with the
view passed and the value returned. -/
abbrev Lookup (σ : Type) : Type := σ × List (Nat × Bool)

/-- A call `callback(view)`: the callback runs on its state, the call is logged. -/
def callCallback {σ : Type} (callback : AView → σ → Bool × σ) (view : AView) (st : Lookup σ) :
    Bool × Lookup σ :=
  ((callback view st.1).1, ((callback view st.1).2, st.2 ++ [(view.id, (callback view st.1).1)]))

/-- How an iteration of the loop of `getViewAtRecursive` ends: the function has returned
`r`, or the loop goes on with the local `possibleOutput`, kept together with what
`process(possibleOutput)` does. -/
inductive Step (σ : Type) where
  | returned (r : Bool)
  | next (possibleOutput : Option (AView × (Lookup σ → Bool × Lookup σ)))

/-- The statements of `getViewAtRecursive` after its loop. -/
def finish {σ : Type} : Step σ × Lookup σ → Bool × Lookup σ
  | (.returned r, st) => (r, st)
  | (.next (some (_, processIt)), st) => processIt st
  | (.next none, st) => (false, st)

/-- The visibility test both lookups make. -/
def reachable (flags : Nat) (view : AView) : Bool :=
  test flags IGNORE_VISIBILITY
    || (view.getVisibility != Visibility.GONE && view.getVisibility != Visibility.UNREACHABLE)

mutual
/-- The local lambda `process` of `getViewAtRecursive`, in the call made with `pos`: the
callback, then the lookup inside the view when it is a container. -/
def process {σ : Type} (callback : AView → σ → Bool × σ) (flags : Nat) :
    AView → Int × Int → Lookup σ → Bool × Lookup σ
  | .mk id position size visibility consumesClick container mViews, pos, st =>
    match callCallback callback
        (.mk id position size visibility consumesClick container mViews) st with
    | (true, st1) => (true, st1)
    | (false, st1) =>
      if container then finish (lookupLoop callback flags mViews (pos - position) st1)
      else (false, st1)
/-- The `for` loop of `getViewAtRecursive` over `mViews` in reverse order. -/
def lookupLoop {σ : Type} (callback : AView → σ → Bool × σ) (flags : Nat) :
    AViews → Int × Int → Lookup σ → Step σ × Lookup σ
  | .nil, _, st => (.next none, st)
  | .cons view rest, pos, st =>
    match lookupLoop callback flags rest pos st with
    | (.returned r, st1) => (.returned r, st1)
    | (.next possibleOutput, st1) =>
      if (pos - view.getPosition).1 < 0 || (pos - view.getPosition).2 < 0
          || (pos - view.getPosition).1 ≥ view.getSize.1
          || (pos - view.getPosition).2 ≥ view.getSize.2 then
        (.next possibleOutput, st1)
      else if !test flags IGNORE_VISIBILITY
          && (view.getVisibility == Visibility.GONE
            || view.getVisibility == Visibility.UNREACHABLE) then
        (.next possibleOutput, st1)
      else if view.consumesClick (pos - view.getPosition) then
        if reachable flags view then
          match process callback flags view pos st1 with
          | (true, st2) => (.returned true, st2)
          | (false, st2) =>
            if test flags ONLY_ONE_PER_CONTAINER then (.returned false, st2)
            else (.next possibleOutput, st2)
        else (.next possibleOutput, st1)
      else
        match possibleOutput with
        | none => (.next (some (view, process callback flags view pos)), st1)
        | some _ => (.next possibleOutput, st1)
end

/-- The method `AViewContainer::getViewAtRecursive(pos, callback, flags)` of the container
`self`. -/
def getViewAtRecursive {σ : Type} (self : AView) (pos : Int × Int)
    (callback : AView → σ → Bool × σ) (flags : Nat) (st : Lookup σ) : Bool × Lookup σ :=
  finish (lookupLoop callback flags self.mViews pos st)

/-- How an iteration of the loop of `visitsViewRecursive` ends: `return true`, `break`, or
the next iteration. -/
inductive Flow where
  | returnedTrue
  | broke
  | next

mutual
/-- The statements of `visitsViewRecursive` on one visible view: the callback, then the
visit inside the view when it is a container. -/
def visitChild {σ : Type} (callback : AView → σ → Bool × σ) (flags : Nat) :
    AView → Lookup σ → Bool × Lookup σ
  | .mk id position size visibility consumesClick container mViews, st =>
    match callCallback callback
        (.mk id position size visibility consumesClick container mViews) st with
    | (true, st1) => (true, st1)
    | (false, st1) =>
      if container then
        match visitLoop callback flags mViews st1 with
        | (.returnedTrue, st2) => (true, st2)
        | (_, st2) => (false, st2)
      else (false, st1)
/-- The `for` loop of `visitsViewRecursive` from `mViews.rbegin()` to `mViews.rend()`. -/
def visitLoop {σ : Type} (callback : AView → σ → Bool × σ) (flags : Nat) :
    AViews → Lookup σ → Flow × Lookup σ
  | .nil, st => (.next, st)
  | .cons view rest, st =>
    match visitLoop callback flags rest st with
    | (.next, st1) =>
      if reachable flags view then
        match visitChild callback flags view st1 with
        | (true, st2) => (.returnedTrue, st2)
        | (false, st2) =>
          if test flags ONLY_ONE_PER_CONTAINER then (.broke, st2) else (.next, st2)
      else (.next, st1)
    | (.returnedTrue, st1) => (.returnedTrue, st1)
    | (.broke, st1) => (.broke, st1)
end

/-- The method `AViewContainer::visitsViewRecursive(callback, flags)` of the container
`self`. -/
def visitsViewRecursive {σ : Type} (self : AView) (callback : AView → σ → Bool × σ)
    (flags : Nat) (st : Lookup σ) : Bool × Lookup σ :=
  match visitLoop callback flags self.mViews st with
  | (.returnedTrue, st1) => (true, st1)
  | (_, st1) => (false, st1)

/-- The first view in reverse child order that satisfies `p`. -/
def AViews.findLast (p : AView → Bool) : AViews → Option AView
  | .nil => none
  | .cons view rest =>
    match AViews.findLast p rest with
    | some v => some v
    | none => if p view then some view else none

/-- The position `pos` of the container lies inside the view. -/
def inBounds (pos : Int × Int) (view : AView) : Bool :=
  decide (0 ≤ (pos - view.getPosition).1) && decide (0 ≤ (pos - view.getPosition).2)
    && decide ((pos - view.getPosition).1 < view.getSize.1)
    && decide ((pos - view.getPosition).2 < view.getSize.2)

/-- The view is under `pos` and passes the visibility test. -/
def eligibleAt (flags : Nat) (pos : Int × Int) (view : AView) : Bool :=
  inBounds pos view && reachable flags view

/-- The view is under `pos`, passes the visibility test and consumes the click. -/
def consumingAt (flags : Nat) (pos : Int × Int) (view : AView) : Bool :=
  eligibleAt flags pos view && view.consumesClick (pos - view.getPosition)

/-- The direct child that `getViewAtRecursive` hands on under `ONLY_ONE_PER_CONTAINER`, as
the amended claim describes it: the first child in reverse order that is under `pos`,
passes the visibility test and consumes the click; when there is none, the first child in
reverse order that is under `pos` and passes the visibility test. -/
def pickAt (flags : Nat) (pos : Int × Int) (views : AViews) : Option AView :=
  match views.findLast (consumingAt flags pos) with
  | some v => some v
  | none => views.findLast (eligibleAt flags pos)

/-- The direct child that `visitsViewRecursive` hands on under `ONLY_ONE_PER_CONTAINER`:
the first child in reverse order that passes the visibility test. -/
def pickVisit (flags : Nat) (views : AViews) : Option AView :=
  views.findLast (reachable flags)

/-- No logged call returned true. -/
def Quiet (l : List (Nat × Bool)) : Prop :=
  ∀ x ∈ l, x.2 = false

/-- The result `res` of a lookup started in `st` only appends calls to the log; when it is
false no appended call returned true, and when it is true the last appended call returned
true and no other did. -/
def Sound {σ : Type} (st : Lookup σ) (res : Bool × Lookup σ) : Prop :=
  ∃ added, res.2.2 = st.2 ++ added ∧ (res.1 = false → Quiet added) ∧
    (res.1 = true → ∃ fs x, added = fs ++ [x] ∧ Quiet fs ∧ x.2 = true)

/-- The invariant of the loop of `getViewAtRecursive`. -/
def SoundStep {σ : Type} (st : Lookup σ) (res : Step σ × Lookup σ) : Prop :=
  match res.1 with
  | .returned r => Sound st (r, res.2)
  | .next possibleOutput =>
    Sound st (false, res.2) ∧
      ∀ v processIt, possibleOutput = some (v, processIt) → ∀ st1, Sound st1 (processIt st1)

/-- A leaf view with identity `id` at (0, 0) of size 10 × 10, visible. -/
def leaf (id : Nat) (consumes : Bool) : AView :=
  .mk id (0, 0) (10, 10) .VISIBLE (fun _ => consumes) false .nil

/-- A container of size 10 × 10 at (0, 0) with the children `views`. -/
def box (id : Nat) (views : AViews) : AView :=
  .mk id (0, 0) (10, 10) .VISIBLE (fun _ => true) true views

/-- A callback without state that returns false on every view. -/
def never : AView → Unit → Bool × Unit :=
  fun _ s => (false, s)

/-- A callback without state that returns true on the view with identity `id` only. -/
def accept (id : Nat) : AView → Unit → Bool × Unit :=
  fun v s => (v.id == id, s)

/-! ## Observations on links and on the mutex -/

/-- Whether the signal is in the incoming links of object `o` in the world an operation
returns. -/
def linkedAfter (o : ObjId) (r : Res V) : Option Bool :=
  match r with
  | .ok w => some (w.objects o).linked
  | .error _ => none

/-- For every handler invocation of a trace, in order, how many times the running thread
held the signal mutex when the handler was entered. -/
def callDepths : List (Event V) → List Nat
  | [] => []
  | .call _ _ _ d :: rest => d :: callDepths rest
  | _ :: rest => callDepths rest

/-- For every destruction of a stored callable in a trace, in order, the receiver and
`target_type` of its slot and how many times the running thread held the signal mutex
then. -/
def dropDepths : List (Event V) → List (ObjId × Nat × Nat)
  | [] => []
  | .drop o t d :: rest => (o, t, d) :: dropDepths rest
  | _ :: rest => dropDepths rest

/-- The mutex depths of the handler invocations recorded when an operation returns. -/
def callDepthsAfter (r : Res V) : Option (List Nat) :=
  match r with
  | .ok w => some (callDepths w.trace)
  | .error _ => none

/-- The destructions of stored callables recorded when an operation returns. -/
def dropDepthsAfter (r : Res V) : Option (List (ObjId × Nat × Nat)) :=
  match r with
  | .ok w => some (dropDepths w.trace)
  | .error _ => none

/-- How many times the running thread holds the mutex in the world an operation returns. -/
def lockDepthAfter (r : Res V) : Option Nat :=
  match r with
  | .ok w => some w.lockDepth
  | .error _ => none

/-- A handler of receiver 2 that connects a plain handler of receiver 1 and then drops the
last owning reference to receiver 1, whose teardown asks the signal to drop its slots. -/
def evictingSlot (V : Type) : slot V :=
  ⟨2, .helper1 3 (fun _ => [.connect 1 (.helper1 7 (fun _ => [])), .reset 1])⟩

/-- The value of the disconnect flag when a handler that runs `b1`, emits the signal again
and runs `b2` returns, `live` being the live vector at the nested emission: a request made
in `b1` is still there only when the nested emission found no slot. -/
def nestedFlag (live : List (slot V)) (b1 b2 : List (Action V)) : Bool :=
  (live.isEmpty && b1.any Action.isDisconnect) || b2.any Action.isDisconnect

/-- A handler of receiver 1 that connects a plain handler of receiver 1 and then emits the
signal again with the argument it received. -/
def nestingSlot : slot Nat :=
  ⟨1, .helper1 7 (fun a => [.connect 1 (.helper1 8 (fun _ => [])), .emit 0 [a]])⟩

/-! ## Stream copy (`AStreams.h`) -/

/-- The state of a run of `copyAll`: the input stream, every byte written to `os` in order,
and one entry per call of `is->read`, with the size asked for and the chunk returned (the
bytes `buf[0..r)` that the call left in the buffer, `r` being its return value). -/
structure CopyState (σ α : Type) where
  is : σ
  os : List α
  reads : List (Nat × List α)

/-- How a run of `copyAll` ends. -/
inductive Outcome (σ α : Type) where
  | returned (st : CopyState σ α)
  | threwEOF (st : CopyState σ α)
  | outOfFuel

/-- The number of values of `size_t`. -/
def SIZE_RANGE : Nat := 2 ^ 64

/-- The function `AStreams::copyAll(is, os, bytes)`; `read` is `IInputStream::read`, `fuel`
bounds the number of iterations of the loop.  The subtraction `bytes -= r` is the one of
`size_t`: it is `bytes - r` when `r ≤ bytes` and wraps around otherwise. -/
def copyAll {σ α : Type} (read : σ → Nat → List α × σ) :
    Nat → Nat → CopyState σ α → Outcome σ α
  | fuel, bytes, st =>
    if bytes > 0 then
      match fuel with
      | 0 => .outOfFuel
      | fuel + 1 =>
        if (read st.is (min bytes 0x1000)).1.length = 0 then
          .threwEOF
            ⟨(read st.is (min bytes 0x1000)).2, st.os,
              st.reads ++ [(min bytes 0x1000, (read st.is (min bytes 0x1000)).1)]⟩
        else
          copyAll read fuel
            ((bytes + SIZE_RANGE - (read st.is (min bytes 0x1000)).1.length) % SIZE_RANGE)
            ⟨(read st.is (min bytes 0x1000)).2,
              st.os ++ (read st.is (min bytes 0x1000)).1,
              st.reads ++ [(min bytes 0x1000, (read st.is (min bytes 0x1000)).1)]⟩
    else .returned st

/-- The chunks of a list of reads, concatenated in order. -/
def chunksOf {α : Type} : List (Nat × List α) → List α
  | [] => []
  | p :: rest => p.2 ++ chunksOf rest

/-- Every read of the list asked for `min(bytes still to copy, 4096)` bytes, `bytes` being
what is still to copy before the first of them. -/
def AskedRight {α : Type} : Nat → List (Nat × List α) → Prop
  | _, [] => True
  | bytes, p :: rest => p.1 = min bytes 0x1000 ∧ AskedRight (bytes - p.2.length) rest

/-- An input stream over a list of bytes that hands out at most `step` bytes per call. -/
def listRead {α : Type} (step : Nat) (s : List α) (k : Nat) : List α × List α :=
  (s.take (min step k), s.drop (min step k))

/-- The calls of `read` made by a run, as recorded in the state it ends in. -/
def Outcome.reads {σ α : Type} : Outcome σ α → List (Nat × List α)
  | .returned st => st.reads
  | .threwEOF st => st.reads
  | .outOfFuel => []

/-- What a run of `copyAll` for `bytes` bytes started in `st` has done when it ends in `st1`
having made the calls `log` of `read`. -/
structure Copied {σ α : Type} (bytes : Nat) (st st1 : CopyState σ α)
    (log : List (Nat × List α)) : Prop where
  reads : st1.reads = st.reads ++ log
  os : st1.os = st.os ++ chunksOf log
  asked : AskedRight bytes log

/-! ## What a handler is given -/

/-- The user lambda wrapped in a callable, called directly with the values `vs`, one per
parameter it declares: the statements it runs.  It is `none` when `vs` is not one value per
parameter. -/
def func_t.lambda : func_t V → List V → Option (List (Action V))
  | .helper0 _ l, [] => some l
  | .helper1 _ l, [a1] => some (l a1)
  | .helper2 _ l, [a1, a2] => some (l a1 a2)
  | .helper3 _ l, [a1, a2, a3] => some (l a1 a2 a3)
  | _, _ => none

/-- The statements the user lambda of a slot runs when it is called with the first values
of `args`, as many as it declares. -/
def slot.onLeading (args : List V) (s : slot V) : List (Action V) :=
  (s.func.lambda (args.take s.func.arity)).getD []

/-- A one-argument handler of receiver 1 that checks the message it is given, as the mock
of test `Basic` does: it raises unless the message is "hello". -/
def expectHello : slot String :=
  ⟨1, .helper1 7 (fun msg => if msg = "hello" then [] else [.raise])⟩

/-- A two-argument handler of receiver 2 that disconnects when it is given "hello" and
"world" in this order, and raises otherwise. -/
def expectHelloWorld : slot String :=
  ⟨2, .helper2 9 (fun a b => if a = "hello" ∧ b = "world" then [.disconnect] else [.raise])⟩

/-- A three-argument handler of receiver 2 that raises unless it is given "hello", "world"
and "again" in this order. -/
def expectThree : slot String :=
  ⟨2, .helper3 6
    (fun a b c => if a = "hello" ∧ b = "world" ∧ c = "again" then [] else [.raise])⟩

/-- A handler of receiver 1 that connects a handler of receiver 1 which disconnects itself,
and then emits the signal again with the argument it received. -/
def nestingDropSlot : slot Nat :=
  ⟨1, .helper1 7 (fun a => [.connect 1 (.helper1 8 (fun _ => [.disconnect])), .emit 0 [a]])⟩

/-- The handler `nestingDropSlot` without its nested emit: it only connects a handler of
receiver 1 that disconnects itself. -/
def connectingDropSlot : slot Nat :=
  ⟨1, .helper1 7 (fun _ => [.connect 1 (.helper1 8 (fun _ => [.disconnect]))])⟩

/-- The handler `reemittingSlot` without its nested emit: it connects a plain handler and
calls `disconnect()`. -/
def connectingLeavingSlot : slot Nat :=
  ⟨1, .helper1 7 (fun _ => [.connect 1 (.helper1 8 (fun _ => [])), .disconnect])⟩

/-! ## Lemmas -/

@[simp] theorem setObj_objects (w : World V) (o : ObjId) (a : AObject) (x : ObjId) :
    (w.setObj o a).objects x = if x = o then a else w.objects x := by
  simp [World.setObj, Function.update_apply]

@[simp] theorem setObj_signalAlive (w : World V) (o : ObjId) (a : AObject) :
    (w.setObj o a).signalAlive = w.signalAlive := rfl
@[simp] theorem setObj_owner (w : World V) (o : ObjId) (a : AObject) :
    (w.setObj o a).owner = w.owner := rfl
@[simp] theorem setObj_current (w : World V) (o : ObjId) (a : AObject) :
    (w.setObj o a).current = w.current := rfl
@[simp] theorem setObj_mSlots (w : World V) (o : ObjId) (a : AObject) :
    (w.setObj o a).mSlots = w.mSlots := rfl
@[simp] theorem setObj_lockDepth (w : World V) (o : ObjId) (a : AObject) :
    (w.setObj o a).lockDepth = w.lockDepth := rfl
@[simp] theorem setObj_isDisconnected (w : World V) (o : ObjId) (a : AObject) :
    (w.setObj o a).isDisconnected = w.isDisconnected := rfl
@[simp] theorem setObj_queue (w : World V) (o : ObjId) (a : AObject) :
    (w.setObj o a).queue = w.queue := rfl
@[simp] theorem setObj_trace (w : World V) (o : ObjId) (a : AObject) :
    (w.setObj o a).trace = w.trace := rfl

@[simp] theorem held1_none (o : ObjId) : held1 none o = 0 := rfl

theorem held1_some (r o : ObjId) : held1 (some r) o = if o = r then 1 else 0 := by
  unfold held1
  by_cases h : o = r
  · subst h; simp
  · have : ¬ (r = o) := fun hc => h hc.symm
    simp [h, this]

@[simp] theorem held1_self (o : ObjId) : held1 (some o) o = 1 := by simp [held1]

theorem held1_ne {r o : ObjId} (h : o ≠ r) : held1 (some r) o = 0 := by
  rw [held1_some, if_neg h]

/-! ### Field-wise effect of taking and giving up a hold -/

@[simp] theorem acquire_alive (o x : ObjId) (w : World V) :
    ((acquire o w).objects x).alive = (w.objects x).alive := by
  by_cases h : x = o <;> simp [acquire, h]
@[simp] theorem acquire_thread (o x : ObjId) (w : World V) :
    ((acquire o w).objects x).thread = (w.objects x).thread := by
  by_cases h : x = o <;> simp [acquire, h]
@[simp] theorem acquire_only (o x : ObjId) (w : World V) :
    ((acquire o w).objects x).slotsCallsOnlyOnMyThread
      = (w.objects x).slotsCallsOnlyOnMyThread := by
  by_cases h : x = o <;> simp [acquire, h]
@[simp] theorem acquire_owners (o x : ObjId) (w : World V) :
    ((acquire o w).objects x).owners = (w.objects x).owners := by
  by_cases h : x = o <;> simp [acquire, h]
@[simp] theorem acquire_linked (o x : ObjId) (w : World V) :
    ((acquire o w).objects x).linked = (w.objects x).linked := by
  by_cases h : x = o <;> simp [acquire, h]
theorem acquire_holds (o x : ObjId) (w : World V) :
    ((acquire o w).objects x).holds = (w.objects x).holds + held1 (some o) x := by
  by_cases h : x = o
  · subst h; simp [acquire]
  · simp [acquire, h, held1_ne h]

@[simp] theorem unhold_alive (o x : ObjId) (w : World V) :
    ((unhold o w).objects x).alive = (w.objects x).alive := by
  by_cases h : x = o <;> simp [unhold, h]
@[simp] theorem unhold_thread (o x : ObjId) (w : World V) :
    ((unhold o w).objects x).thread = (w.objects x).thread := by
  by_cases h : x = o <;> simp [unhold, h]
@[simp] theorem unhold_only (o x : ObjId) (w : World V) :
    ((unhold o w).objects x).slotsCallsOnlyOnMyThread
      = (w.objects x).slotsCallsOnlyOnMyThread := by
  by_cases h : x = o <;> simp [unhold, h]
@[simp] theorem unhold_owners (o x : ObjId) (w : World V) :
    ((unhold o w).objects x).owners = (w.objects x).owners := by
  by_cases h : x = o <;> simp [unhold, h]
@[simp] theorem unhold_linked (o x : ObjId) (w : World V) :
    ((unhold o w).objects x).linked = (w.objects x).linked := by
  by_cases h : x = o <;> simp [unhold, h]
theorem unhold_holds (o x : ObjId) (w : World V) :
    ((unhold o w).objects x).holds = (w.objects x).holds - held1 (some o) x := by
  by_cases h : x = o
  · subst h; simp [unhold]
  · simp [unhold, h, held1_ne h]

/-- Giving up a hold that is not the last owning reference destroys nothing. -/
theorem release_eq_unhold (o : ObjId) (w : World V)
    (h : 0 < (w.objects o).owners + ((w.objects o).holds - 1)) :
    release o w = .ok (unhold o w) := by
  have : ¬ ((w.objects o).owners + ((w.objects o).holds - 1) = 0) := by omega
  simp only [release, unhold]
  rw [if_neg this]

/-- The invariant only reads the life-cycle fields of the world. -/
theorem Inv.of_same {w0 : World V} {e : ObjId} {ep rp : Option ObjId} {w w1 : World V}
    (h : Inv w0 e ep rp w)
    (hs : w1.signalAlive = w.signalAlive) (ho : w1.owner = w.owner)
    (hc : w1.current = w.current)
    (ha : ∀ o, (w1.objects o).alive = (w.objects o).alive)
    (ht : ∀ o, (w1.objects o).thread = (w.objects o).thread)
    (hn : ∀ o, (w1.objects o).slotsCallsOnlyOnMyThread
      = (w.objects o).slotsCallsOnlyOnMyThread)
    (hw : ∀ o, (w1.objects o).owners = (w.objects o).owners)
    (hh : ∀ o, (w1.objects o).holds = (w.objects o).holds) : Inv w0 e ep rp w1 where
  signalAlive := by rw [hs]; exact h.signalAlive
  owner := by rw [ho]; exact h.owner
  current := by rw [hc]; exact h.current
  alive := fun o => by rw [ha]; exact h.alive o
  thread := fun o => by rw [ht]; exact h.thread o
  policy := fun o => by rw [hn]; exact h.policy o
  owners := fun o ho => by rw [hw]; exact h.owners o ho
  ownersLe := by rw [hw]; exact h.ownersLe
  holds := fun o => by rw [hh]; exact h.holds o
  held := h.held
  zombie := h.zombie
  eAlive := h.eAlive
  ep_eq := h.ep_eq

/-- The object kept alive by `ep` carries its hold, and without `ep` it has no owner. -/
theorem Inv.ep_cases {w0 : World V} {e : ObjId} {ep rp : Option ObjId} {w : World V}
    (h : Inv w0 e ep rp w) :
    (ep = some e ∧ lockable (w0.objects e) = true) ∨
      (ep = none ∧ (w0.objects e).owners = 0 ∧ (w0.objects e).holds = 0) := by
  have hep := h.ep_eq
  by_cases hl : lockable (w0.objects e) = true
  · left; rw [hep]; simp [hl]
  · right
    refine ⟨by rw [hep]; simp [hl], ?_⟩
    simp only [lockable, h.eAlive, Bool.true_and, decide_eq_true_eq] at hl
    omega

/-- Under the invariant an object can be locked exactly when it could at the start. -/
theorem Inv.lockable_start {w0 : World V} {e : ObjId} {ep rp : Option ObjId} {w : World V}
    (h : Inv w0 e ep rp w) (o : ObjId) :
    lockable (w.objects o) = lockable (w0.objects o) := by
  have hz := h.zombie o
  have hhold := h.holds o
  have hheld := h.held o
  have hle := h.ownersLe
  have how := h.owners o
  unfold lockable at *
  rw [h.alive o]
  cases hal : (w0.objects o).alive with
  | false => simp
  | true =>
    simp only [Bool.true_and, decide_eq_decide]
    rw [hal] at hheld
    simp only [Bool.true_and, decide_eq_true_eq] at hheld
    by_cases hoe : o = e
    · subst hoe
      rcases h.ep_cases with ⟨hep, hl⟩ | ⟨hep, h1, h2⟩
      · subst hep
        simp only [lockable, hal, Bool.true_and, decide_eq_true_eq] at hl
        simp only [held1_self] at hhold
        omega
      · subst hep
        have : rp ≠ some o := fun hr => by have := hheld hr; omega
        have h3 : held1 rp o = 0 := by simp [held1, this]
        simp only [held1_none, h3] at hhold
        omega
    · have how1 := how hoe
      by_cases hl : 0 < (w0.objects o).owners + (w0.objects o).holds
      · constructor
        · intro _; exact hl
        · intro _
          by_cases hh0 : (w0.objects o).owners = 0
          · have := hz hh0; omega
          · omega
      · have hrp : rp ≠ some o := fun hr => hl (hheld hr)
        have hepo : ep ≠ some o := by
          rcases h.ep_cases with ⟨hep, _⟩ | ⟨hep, _⟩
          · rw [hep]; intro hc; exact hoe (Option.some.inj hc).symm
          · rw [hep]; simp
        have h3 : held1 rp o = 0 := by simp [held1, hrp]
        have h4 : held1 ep o = 0 := by simp [held1, hepo]
        omega


/-- Effect of one tame statement. -/
theorem runAction_tame (emitF : ObjId → List V → World V → Res V) {w0 : World V} {e : ObjId}
    {ep rp : Option ObjId} (a : Action V) (w : World V) (h : Inv w0 e ep rp w)
    (ha : Action.tame w0 e a = true) :
    ∃ w1, runAction emitF a w = .ok w1 ∧ Inv w0 e ep rp w1 ∧
      w1.mSlots = w.mSlots ++ (Action.connected a).toList ∧
      w1.isDisconnected = (w.isDisconnected || Action.isDisconnect a) ∧
      w1.trace = w.trace ∧ w1.queue = w.queue ∧ w1.lockDepth = w.lockDepth ∧
      (w1.objects e).owners = (w.objects e).owners - (if Action.resets e a then 1 else 0) := by
  cases a with
  | disconnect =>
    refine ⟨{ w with isDisconnected := true }, rfl, ?_, ?_, ?_, rfl, rfl, rfl, ?_⟩
    · exact h.of_same rfl rfl rfl (fun _ => rfl) (fun _ => rfl) (fun _ => rfl) (fun _ => rfl)
        (fun _ => rfl)
    · simp [Action.connected]
    · simp [Action.isDisconnect]
    · simp [Action.resets]
  | connect o f =>
    have hal : (w.objects o).alive = true := by
      rw [h.alive o]; simpa [Action.tame] using ha
    refine ⟨({ w with mSlots := w.mSlots ++ [⟨o, f⟩] } : World V).setObj o
      { w.objects o with linked := true }, ?_, ?_, ?_, ?_, rfl, rfl, rfl, ?_⟩
    · simp [runAction, connect, linkSlot, h.signalAlive, hal]
    · refine h.of_same rfl rfl rfl ?_ ?_ ?_ ?_ ?_ <;> intro x <;> by_cases hx : x = o <;>
        simp [hx]
    · simp [Action.connected]
    · simp [Action.isDisconnect]
    · by_cases hx : e = o <;> simp [hx, Action.resets]
  | emit e1 args => simp [Action.tame] at ha
  | raise => simp [Action.tame] at ha
  | query => simp [Action.tame] at ha
  | reset o =>
    have hoe : o = e := by simpa [Action.tame] using ha
    subst hoe
    have hhold := h.holds o
    have hep := h.ep_eq
    have hle := h.ownersLe
    have hea := h.eAlive
    have hal : (w.objects o).alive = true := by rw [h.alive o]; exact hea
    by_cases hpos : 0 < (w.objects o).owners
    · have hepo : ep = some o := by
        rw [hep]
        have : lockable (w0.objects o) = true := by
          simp only [lockable, hea, Bool.true_and, decide_eq_true_eq]; omega
        simp [this]
      have hnd : ¬ ((w.objects o).owners - 1 + (w.objects o).holds = 0) := by
        rw [hhold, hepo, held1_self]; omega
      refine ⟨w.setObj o { w.objects o with owners := (w.objects o).owners - 1 },
        ?_, ?_, ?_, ?_, rfl, rfl, rfl, ?_⟩
      · simp [runAction, resetRef, hal, hpos, hnd]
      · refine
          { signalAlive := h.signalAlive, owner := h.owner, current := h.current,
            alive := ?_, thread := ?_, policy := ?_, owners := ?_, ownersLe := ?_, holds := ?_,
            held := h.held, zombie := h.zombie, eAlive := h.eAlive, ep_eq := h.ep_eq }
        · intro x; by_cases hx : x = o <;> simp [hx, h.alive]
        · intro x; by_cases hx : x = o <;> simp [hx, h.thread]
        · intro x; by_cases hx : x = o <;> simp [hx, h.policy]
        · intro x hx; simp [hx, h.owners x hx]
        · simp; omega
        · intro x; by_cases hx : x = o
          · subst hx; simpa using hhold
          · simp [hx, h.holds x]
      · simp [Action.connected]
      · simp [Action.isDisconnect]
      · simp [Action.resets]
    · refine ⟨w, ?_, h, ?_, ?_, rfl, rfl, rfl, ?_⟩
      · simp [runAction, resetRef, hpos]
      · simp [Action.connected]
      · simp [Action.isDisconnect]
      · simp [Action.resets]; omega

/-- Effect of a tame handler body. -/
theorem runBody_tame (emitF : ObjId → List V → World V → Res V) {w0 : World V} {e : ObjId}
    {ep rp : Option ObjId} (body : List (Action V)) :
    ∀ w : World V, Inv w0 e ep rp w → (∀ a ∈ body, Action.tame w0 e a = true) →
    ∃ w1, runBody emitF body w = .ok w1 ∧ Inv w0 e ep rp w1 ∧
      w1.mSlots = w.mSlots ++ body.filterMap Action.connected ∧
      w1.isDisconnected = (w.isDisconnected || body.any Action.isDisconnect) ∧
      w1.trace = w.trace ∧ w1.queue = w.queue ∧ w1.lockDepth = w.lockDepth ∧
      (w1.objects e).owners = (w.objects e).owners - body.countP (Action.resets e) := by
  induction body with
  | nil =>
    intro w h _
    exact ⟨w, rfl, h, by simp, by simp, rfl, rfl, rfl, by simp⟩
  | cons a rest ih =>
    intro w h ht
    obtain ⟨w1, h1, hinv1, hm1, hd1, ht1, hq1, hl1, ho1⟩ :=
      runAction_tame emitF a w h (ht a (List.mem_cons_self _ _))
    obtain ⟨w2, h2, hinv2, hm2, hd2, ht2, hq2, hl2, ho2⟩ :=
      ih w1 hinv1 (fun b hb => ht b (List.mem_cons_of_mem _ hb))
    refine ⟨w2, ?_, hinv2, ?_, ?_, ?_, ?_, ?_, ?_⟩
    · simp [runBody, h1, h2]
    · rw [hm2, hm1]
      cases hc : Action.connected a <;> simp [List.filterMap_cons, hc]
    · rw [hd2, hd1]; simp [Bool.or_assoc]
    · rw [ht2, ht1]
    · rw [hq2, hq1]
    · rw [hl2, hl1]
    · rw [ho2, ho1, List.countP_cons]
      split_ifs <;> omega


/-- Holding the next receiver never destroys the receiver held before. -/
theorem holdReceiver_tame {w0 : World V} {e : ObjId} {ep rp : Option ObjId} (o : ObjId)
    (w : World V) (h : Inv w0 e ep rp w) :
    ∃ rp1 w1, holdReceiver o rp w = .ok (rp1, w1) ∧ Inv w0 e ep rp1 w1 ∧
      w1.mSlots = w.mSlots ∧ w1.isDisconnected = w.isDisconnected ∧ w1.trace = w.trace ∧
      w1.queue = w.queue ∧ w1.lockDepth = w.lockDepth ∧
      (w1.objects e).owners = (w.objects e).owners := by
  by_cases hl : lockable (w.objects o) = true
  · have hl0 : lockable (w0.objects o) = true := by rw [← h.lockable_start o]; exact hl
    have hheld1 : ∀ r, some o = some r → lockable (w0.objects r) = true := by
      intro r hr; cases hr; exact hl0
    cases hrp : rp with
    | none =>
      subst hrp
      refine ⟨some o, acquire o w, ?_, ?_, rfl, rfl, rfl, rfl, rfl, by simp⟩
      · simp [holdReceiver, hl, releaseOpt]
      · exact
          { signalAlive := h.signalAlive, owner := h.owner, current := h.current,
            alive := fun x => by simp [h.alive]
            thread := fun x => by simp [h.thread]
            policy := fun x => by simp [h.policy]
            owners := fun x hx => by simp [h.owners x hx]
            ownersLe := by simpa using h.ownersLe
            holds := fun x => by
              have := h.holds x
              rw [acquire_holds, this]; simp
            held := hheld1, zombie := h.zombie, eAlive := h.eAlive, ep_eq := h.ep_eq }
    | some r =>
      subst hrp
      have hr0 : lockable (w0.objects r) = true := h.held r rfl
      have hholdr := h.holds r
      have hlr : lockable (w.objects r) = true := by rw [h.lockable_start r]; exact hr0
      have hpos : 0 < ((acquire o w).objects r).owners
          + (((acquire o w).objects r).holds - 1) := by
        simp only [lockable, Bool.and_eq_true, decide_eq_true_eq] at hlr hr0
        rw [acquire_owners, acquire_holds, hholdr, held1_self]
        by_cases hre : r = e
        · subst hre
          rcases h.ep_cases with ⟨hep, _⟩ | ⟨hep, h1, h2⟩
          · rw [hep, held1_self]; omega
          · omega
        · have := h.owners r hre
          have hz := h.zombie r
          by_cases h0 : (w0.objects r).owners = 0
          · have := hz h0; omega
          · omega
      refine ⟨some o, unhold r (acquire o w), ?_, ?_, rfl, rfl, rfl, rfl, rfl, by simp⟩
      · simp only [holdReceiver, hl, if_true, releaseOpt]
        rw [release_eq_unhold r _ hpos]
      · exact
          { signalAlive := h.signalAlive, owner := h.owner, current := h.current,
            alive := fun x => by simp [h.alive]
            thread := fun x => by simp [h.thread]
            policy := fun x => by simp [h.policy]
            owners := fun x hx => by simp [h.owners x hx]
            ownersLe := by simpa using h.ownersLe
            holds := fun x => by
              have := h.holds x
              rw [unhold_holds, acquire_holds, this]; omega
            held := hheld1, zombie := h.zombie, eAlive := h.eAlive, ep_eq := h.ep_eq }
  · refine ⟨rp, w, ?_, h, rfl, rfl, rfl, rfl, rfl, rfl⟩
    simp [holdReceiver, hl]


theorem Inv.isCross_start {w0 : World V} {e : ObjId} {ep rp : Option ObjId} {w : World V}
    (h : Inv w0 e ep rp w) (s : slot V) :
    ((w.objects s.object).slotsCallsOnlyOnMyThread && (w.objects s.object).thread != w.current)
      = isCross w0 s := by
  simp [isCross, h.policy, h.thread, h.current]

theorem queued_cons (w : World V) (args : List V) (s : slot V) (rest : List (slot V)) :
    queued w args (s :: rest)
      = (if isCross w s && lockable (w.objects s.object) then [thunkOf w args s] else [])
        ++ queued w args rest := by
  unfold queued
  rw [List.filter_cons]
  split_ifs <;> simp

/-- The loop of `invokeSignal` over tame slots: it ends normally, keeps the slots that
survive, and leaves the connects, the trace and the queue described by the vocabulary. -/
theorem invokeLoop_tame (emitF : ObjId → List V → World V → Res V) {w0 : World V} {e : ObjId}
    {ep : Option ObjId} (args : List V) (rest : List (slot V)) :
    ∀ (kept : List (slot V)) (rp : Option ObjId) (w : World V),
      Inv w0 e ep rp w → w.lockDepth = w0.lockDepth + 1 →
      (∀ s ∈ rest, tameSlot w0 e args s = true) →
      ∃ rp1 w1, invokeLoop emitF ep args kept rest rp w
          = .ok (kept ++ rest.filter (survives w0 args), rp1, w1) ∧
        Inv w0 e ep rp1 w1 ∧ w1.lockDepth = w.lockDepth ∧
        w1.mSlots = w.mSlots ++ rest.flatMap (added w0 args) ∧
        w1.trace = w.trace ++ rest.flatMap (slotEvents w0 args) ∧
        w1.queue = w.queue ++ queued w0 args rest ∧
        (w1.objects e).owners = (w.objects e).owners - resetCount w0 e args rest := by
  induction rest with
  | nil =>
    intro kept rp w h _ _
    exact ⟨rp, w, by simp [invokeLoop], h, rfl, by simp, by simp, by simp [queued],
      by simp [resetCount]⟩
  | cons s rest ih =>
    intro kept rp w h hd ht
    have hts := ht s (List.mem_cons_self _ _)
    have htr : ∀ s1 ∈ rest, tameSlot w0 e args s1 = true :=
      fun s1 hs1 => ht s1 (List.mem_cons_of_mem _ hs1)
    simp only [tameSlot, Bool.and_eq_true, Bool.or_eq_true] at hts
    obtain ⟨hal0, hcase⟩ := hts
    have hal : (w.objects s.object).alive = true := by rw [h.alive]; exact hal0
    have hcross := h.isCross_start s
    by_cases hc : isCross w0 s = true
    · -- cross-thread branch
      have hsurv : survives w0 args s = true := by simp [survives, hc]
      have hadd : added w0 args s = [] := by simp [added, hc]
      have hev : slotEvents w0 args s = [] := by simp [slotEvents, hc]
      have hrc : resetCount w0 e args (s :: rest) = resetCount w0 e args rest := by
        simp [resetCount, hc]
      by_cases hl : lockable (w.objects s.object) = true
      · have hl0 : lockable (w0.objects s.object) = true := by
          rw [← h.lockable_start]; exact hl
        have hinv : Inv w0 e ep rp
            { w with queue := w.queue ++
              [⟨(w.objects s.object).thread, s.object, s.func, args⟩] } :=
          h.of_same rfl rfl rfl (fun _ => rfl) (fun _ => rfl) (fun _ => rfl) (fun _ => rfl)
            (fun _ => rfl)
        obtain ⟨rp1, w1, h1, hinv1, hd1, hm1, ht1, hq1, ho1⟩ :=
          ih (kept ++ [s]) rp _ hinv hd htr
        refine ⟨rp1, w1, ?_, hinv1, hd1, ?_, ?_, ?_, ?_⟩
        · rw [invokeLoop]
          simp only [hal, if_true, hcross, hc, hl]
          rw [h1]
          simp [List.filter_cons, hsurv]
        · rw [hm1]; simp [List.flatMap_cons, hadd]
        · rw [ht1]; simp [List.flatMap_cons, hev]
        · rw [hq1, queued_cons]
          simp [hc, hl0, thunkOf, h.thread]
        · rw [ho1, hrc]
      · have hl0 : ¬ lockable (w0.objects s.object) = true := by
          rw [← h.lockable_start]; exact hl
        obtain ⟨rp1, w1, h1, hinv1, hd1, hm1, ht1, hq1, ho1⟩ :=
          ih (kept ++ [s]) rp w h hd htr
        refine ⟨rp1, w1, ?_, hinv1, hd1, ?_, ?_, ?_, ?_⟩
        · rw [invokeLoop]
          simp only [hal, if_true, hcross, hc, hl]
          rw [h1]
          simp [List.filter_cons, hsurv]
        · rw [hm1]; simp [List.flatMap_cons, hadd]
        · rw [ht1]; simp [List.flatMap_cons, hev]
        · rw [hq1, queued_cons]
          simp [hc, hl0]
        · rw [ho1, hrc]
    · -- same-thread branch
      have hcf : isCross w0 s = false := by simpa using hc
      rcases hcase with hc1 | hbody
      · exact absurd hc1 hc
      simp only [Bool.and_eq_true, List.all_eq_true] at hbody
      obtain ⟨hsome, hall⟩ := hbody
      obtain ⟨⟨received, body⟩, hcall⟩ := Option.isSome_iff_exists.mp hsome
      have hb : s.body args = body := by simp [slot.body, hcall]
      have hr : s.received args = received := by simp [slot.received, hcall]
      rw [hb] at hall
      have hinv0 : Inv w0 e ep rp { w with isDisconnected := false } :=
        h.of_same rfl rfl rfl (fun _ => rfl) (fun _ => rfl) (fun _ => rfl) (fun _ => rfl)
          (fun _ => rfl)
      obtain ⟨rpa, wa, ha, hinva, hma, hda, hta, hqa, hla, hoa⟩ :=
        holdReceiver_tame s.object _ hinv0
      have hinvb : Inv w0 e ep rpa
          (wa.log (.call s.object s.func.target_type received wa.lockDepth)) :=
        hinva.of_same rfl rfl rfl (fun _ => rfl) (fun _ => rfl) (fun _ => rfl) (fun _ => rfl)
          (fun _ => rfl)
      obtain ⟨wb, hrun, hinvbb, hmb, hdb, htb, hqb, hlb, hob⟩ :=
        runBody_tame emitF body _ hinvb hall
      have happ : applyFunc emitF s args wa = .ok wb := by
        simp only [applyFunc, hcall]; exact hrun
      have hflag : wb.isDisconnected = disconnects args s := by
        rw [hdb]; simp [World.log, hda, disconnects, hb]
      have hrc : resetCount w0 e args (s :: rest)
          = body.countP (Action.resets e) + resetCount w0 e args rest := by
        simp [resetCount, hcf, hb]
      have hadd : added w0 args s = body.filterMap Action.connected := by
        simp [added, hcf, hb]
      have hwbd : wb.lockDepth = w0.lockDepth + 1 := by
        rw [hlb]; simp [World.log, hla, hd]
      by_cases hdis : disconnects args s = true
      · have hsurv : survives w0 args s = false := by simp [survives, hcf, hdis]
        have hev : slotEvents w0 args s =
            [.call s.object s.func.target_type received (w0.lockDepth + 1),
             dropEvent (w0.lockDepth + 1) s] := by
          simp [slotEvents, hcf, hdis, hr]
        have halb : (wb.objects s.object).alive = true := by
          rw [hinvbb.alive]; exact hal0
        have hinvc : Inv w0 e ep rpa
            ((wb.setObj s.object { wb.objects s.object with linked := false }).log
              (dropEvent (wb.setObj s.object
                { wb.objects s.object with linked := false }).lockDepth s)) := by
          refine hinvbb.of_same rfl rfl rfl ?_ ?_ ?_ ?_ ?_ <;> intro x <;>
            by_cases hx : x = s.object <;> simp [World.log, hx]
        obtain ⟨rp1, w1, h1, hinv1, hd1, hm1, ht1, hq1, ho1⟩ :=
          ih kept rpa _ hinvc (by simpa [World.log] using hwbd) htr
        have step : invokeLoop emitF ep args kept (s :: rest) rp w
            = invokeLoop emitF ep args kept rest rpa
              ((wb.setObj s.object { wb.objects s.object with linked := false }).log
                (dropEvent (wb.setObj s.object
                  { wb.objects s.object with linked := false }).lockDepth s)) := by
          rw [invokeLoop]
          simp only [hal, if_true, hcross, hcf, Bool.false_eq_true, if_false, ha, happ, hflag,
            hdis, unlinkSlot, halb]
        refine ⟨rp1, w1, ?_, hinv1, ?_, ?_, ?_, ?_, ?_⟩
        · rw [step, h1]
          simp [List.filter_cons, hsurv]
        · rw [hd1]; simp [World.log, hwbd, hd]
        · rw [hm1]; simp [World.log, hmb, hma, List.flatMap_cons, hadd]
        · rw [ht1]
          simp [World.log, htb, hta, List.flatMap_cons, hev, hla, hd, hwbd]
        · rw [hq1]; simp [World.log, hqb, hqa, queued_cons, hcf]
        · rw [ho1, hrc]
          have : ((((wb.setObj s.object { wb.objects s.object with linked := false }).log
              (dropEvent (wb.setObj s.object
                { wb.objects s.object with linked := false }).lockDepth s)).objects e).owners
              = (wb.objects e).owners) := by
            by_cases hx : e = s.object <;> simp [World.log, hx]
          rw [this, hob]
          simp only [World.log] at hoa ⊢
          rw [hoa]; omega
      · have hdisf : disconnects args s = false := by simpa using hdis
        have hsurv : survives w0 args s = true := by simp [survives, hdisf]
        have hev : slotEvents w0 args s =
            [.call s.object s.func.target_type received (w0.lockDepth + 1)] := by
          simp [slotEvents, hcf, hdisf, hr]
        obtain ⟨rp1, w1, h1, hinv1, hd1, hm1, ht1, hq1, ho1⟩ :=
          ih (kept ++ [s]) rpa wb hinvbb hwbd htr
        refine ⟨rp1, w1, ?_, hinv1, ?_, ?_, ?_, ?_, ?_⟩
        · rw [invokeLoop]
          simp only [hal, if_true, hcross, hcf, Bool.false_eq_true, if_false, ha, happ, hflag,
            hdisf]
          rw [h1]
          simp [List.filter_cons, hsurv]
        · rw [hd1, hwbd, hd]
        · rw [hm1]; simp [World.log, hmb, hma, List.flatMap_cons, hadd]
        · rw [ht1]
          simp [World.log, htb, hta, List.flatMap_cons, hev, hla, hd]
        · rw [hq1]; simp [World.log, hqb, hqa, queued_cons, hcf]
        · rw [ho1, hrc, hob]
          simp only [World.log] at hoa ⊢
          rw [hoa]; omega


/-- Giving up `receiverPtr` at the end of a dispatch destroys nothing. -/
theorem releaseOpt_receiver {w0 : World V} {e : ObjId} {ep rp : Option ObjId} (w : World V)
    (h : Inv w0 e ep rp w) :
    ∃ w1, releaseOpt rp w = .ok w1 ∧ Inv w0 e ep none w1 ∧
      w1.mSlots = w.mSlots ∧ w1.isDisconnected = w.isDisconnected ∧ w1.trace = w.trace ∧
      w1.queue = w.queue ∧ w1.lockDepth = w.lockDepth ∧
      (w1.objects e).owners = (w.objects e).owners := by
  cases hrp : rp with
  | none =>
    subst hrp
    exact ⟨w, rfl, h, rfl, rfl, rfl, rfl, rfl, rfl⟩
  | some r =>
    subst hrp
    have hr0 : lockable (w0.objects r) = true := h.held r rfl
    have hholdr := h.holds r
    have hpos : 0 < (w.objects r).owners + ((w.objects r).holds - 1) := by
      simp only [lockable, Bool.and_eq_true, decide_eq_true_eq] at hr0
      rw [hholdr, held1_self]
      by_cases hre : r = e
      · subst hre
        rcases h.ep_cases with ⟨hep, _⟩ | ⟨hep, h1, h2⟩
        · rw [hep, held1_self]; omega
        · omega
      · have := h.owners r hre
        have hz := h.zombie r
        by_cases h0 : (w0.objects r).owners = 0
        · have := hz h0; omega
        · omega
    refine ⟨unhold r w, ?_, ?_, rfl, rfl, rfl, rfl, rfl, by simp⟩
    · simp only [releaseOpt]
      exact release_eq_unhold r w hpos
    · exact
        { signalAlive := h.signalAlive, owner := h.owner, current := h.current,
          alive := fun x => by simp [h.alive]
          thread := fun x => by simp [h.thread]
          policy := fun x => by simp [h.policy]
          owners := fun x hx => by simp [h.owners x hx]
          ownersLe := by simpa using h.ownersLe
          holds := fun x => by
            have := h.holds x
            rw [unhold_holds, this]; simp
          held := fun r hr => by simp at hr
          zombie := h.zombie, eAlive := h.eAlive, ep_eq := h.ep_eq }

/-- Leaving the scope after a completed loop: only the release of `emitterPtr` remains. -/
theorem leave_tame {w0 : World V} {e : ObjId} {ep rp : Option ObjId} (w : World V)
    (h : Inv w0 e ep rp w) :
    ∃ w1, leave [] rp ep w = releaseOpt ep w1 ∧ Inv w0 e ep none w1 ∧
      w1.mSlots = w.mSlots ∧ w1.isDisconnected = w.isDisconnected ∧ w1.trace = w.trace ∧
      w1.queue = w.queue ∧ w1.lockDepth = w.lockDepth - 1 ∧
      (w1.objects e).owners = (w.objects e).owners := by
  have hinv : Inv w0 e ep rp
      { w with
        trace := w.trace ++ ([] : List (slot V)).map (dropEvent w.lockDepth)
        lockDepth := w.lockDepth - 1 } :=
    h.of_same rfl rfl rfl (fun _ => rfl) (fun _ => rfl) (fun _ => rfl) (fun _ => rfl)
      (fun _ => rfl)
  obtain ⟨w1, h1, hinv1, hm1, hf1, ht1, hq1, hl1, ho1⟩ := releaseOpt_receiver _ hinv
  refine ⟨w1, ?_, hinv1, hm1, hf1, ?_, hq1, hl1, ho1⟩
  · unfold leave
    rw [if_pos h.signalAlive, h1]
  · rw [ht1]; simp

@[simp] theorem detach_objects (w : World V) : (detach w).objects = w.objects := rfl
@[simp] theorem detach_mSlots (w : World V) : (detach w).mSlots = [] := rfl
@[simp] theorem detach_lockDepth (w : World V) : (detach w).lockDepth = w.lockDepth + 1 := rfl
@[simp] theorem detach_trace (w : World V) : (detach w).trace = w.trace := rfl
@[simp] theorem detach_queue (w : World V) : (detach w).queue = w.queue := rfl
@[simp] theorem reconcile_objects (l : List (slot V)) (w : World V) :
    (reconcile l w).objects = w.objects := rfl
@[simp] theorem reconcile_lockDepth (l : List (slot V)) (w : World V) :
    (reconcile l w).lockDepth = w.lockDepth := rfl
@[simp] theorem reconcile_trace (l : List (slot V)) (w : World V) :
    (reconcile l w).trace = w.trace := rfl
@[simp] theorem reconcile_queue (l : List (slot V)) (w : World V) :
    (reconcile l w).queue = w.queue := rfl
@[simp] theorem reconcile_flag (l : List (slot V)) (w : World V) :
    (reconcile l w).isDisconnected = false := rfl

/-- Both arms of the merge put the cleaned snapshot ahead of the live vector. -/
@[simp] theorem reconcile_mSlots (l : List (slot V)) (w : World V) :
    (reconcile l w).mSlots = l ++ w.mSlots := by
  unfold reconcile
  cases hm : w.mSlots with
  | nil => simp [hm]
  | cons a t => simp [hm]

theorem holdEmitter_fields (e : ObjId) (w : World V) :
    (holdEmitter e w).signalAlive = w.signalAlive ∧ (holdEmitter e w).owner = w.owner ∧
    (holdEmitter e w).current = w.current ∧ (holdEmitter e w).lockDepth = w.lockDepth ∧
    (holdEmitter e w).trace = w.trace ∧ (holdEmitter e w).queue = w.queue ∧
    (holdEmitter e w).mSlots = w.mSlots := by
  unfold holdEmitter
  split_ifs <;> simp [acquire]

/-- The world in which the loop starts satisfies the invariant. -/
theorem Inv.start (e : ObjId) (w : World V) (hsig : w.signalAlive = true)
    (hea : (w.objects e).alive = true) (hz : NoZombie w) :
    Inv w e (emitterHold w e) none (detach (holdEmitter e w)) := by
  by_cases hl : lockable (w.objects e) = true
  · have e1 : holdEmitter e w = acquire e w := by simp [holdEmitter, hl]
    rw [e1]
    exact
      { signalAlive := hsig, owner := rfl, current := rfl,
        alive := fun x => by simp
        thread := fun x => by simp
        policy := fun x => by simp
        owners := fun x _ => by simp
        ownersLe := by simp
        holds := fun x => by simp [acquire_holds, emitterHold, hl]
        held := fun r hr => by simp at hr
        zombie := hz, eAlive := hea, ep_eq := rfl }
  · have e1 : holdEmitter e w = w := by simp [holdEmitter, hl]
    rw [e1]
    exact
      { signalAlive := hsig, owner := rfl, current := rfl,
        alive := fun x => rfl
        thread := fun x => rfl
        policy := fun x => rfl
        owners := fun x _ => rfl
        ownersLe := le_refl _
        holds := fun x => by simp [emitterHold, hl]
        held := fun r hr => by simp at hr
        zombie := hz, eAlive := hea, ep_eq := rfl }

/-- The dispatch of tame slots: `invokeSignal` runs the whole loop, reconciles, and its last
step gives up `emitterPtr` in a state described by `Dispatched`. -/
theorem invokeSignal_tame (fuel : Nat) (e : ObjId) (args : List V) (w : World V)
    (hsig : w.signalAlive = true) (hne : w.mSlots ≠ []) (hea : (w.objects e).alive = true)
    (hz : NoZombie w) (ht : ∀ s ∈ w.mSlots, tameSlot w e args s = true) :
    ∃ w2, invokeSignal (fuel + 1) e args w = releaseOpt (emitterHold w e) w2 ∧
      Dispatched w e args w2 := by
  have hemp : w.mSlots.isEmpty = false := by
    cases hm : w.mSlots with
    | nil => exact absurd hm hne
    | cons a l => rfl
  have hinv := Inv.start e w hsig hea hz
  obtain ⟨hf1, hf2, hf3, hf4, hf5, hf6, hf7⟩ := holdEmitter_fields e w
  obtain ⟨rp1, w1, h1, hinv1, hd1, hm1, ht1, hq1, ho1⟩ :=
    invokeLoop_tame (invokeSignal fuel) args w.mSlots [] none _ hinv (by simp [hf4]) ht
  have hinvR : Inv w e (emitterHold w e) rp1
      (reconcile ([] ++ w.mSlots.filter (survives w args)) w1) :=
    hinv1.of_same rfl rfl rfl (fun _ => rfl) (fun _ => rfl) (fun _ => rfl) (fun _ => rfl)
      (fun _ => rfl)
  obtain ⟨w2, h2, hinv2, hm2, hf2a, ht2, hq2, hl2, ho2⟩ := leave_tame _ hinvR
  refine ⟨w2, ?_, ?_⟩
  · have e1 : invokeSignal (fuel + 1) e args w = invokeSignalWith (invokeSignal fuel) e args w :=
      rfl
    rw [e1]
    unfold invokeSignalWith
    rw [if_pos hsig, hemp, if_neg (by simp), if_pos hea, h1]
    simp only []
    rw [if_pos hinv1.signalAlive, h2]
  · exact
      { signalAlive := hinv2.signalAlive, owner := hinv2.owner, current := hinv2.current,
        lockDepth := by rw [hl2]; simp [hd1, hf4]
        flag := by rw [hf2a]; rfl
        mSlots := by rw [hm2, reconcile_mSlots, hm1]; simp
        trace := by rw [ht2]; simp [ht1, hf5]
        queue := by rw [hq2]; simp [hq1, hf6]
        alive := hinv2.alive, thread := hinv2.thread, policy := hinv2.policy,
        owners := hinv2.owners,
        ownersE := by
          rw [ho2, reconcile_objects, ho1, detach_objects]
          unfold holdEmitter; split_ifs <;> simp
        holds := fun o => by have := hinv2.holds o; simpa using this }


theorem calls_append (a b : List (Event V)) : calls (a ++ b) = calls a ++ calls b := by
  induction a with
  | nil => rfl
  | cons x rest ih =>
    cases x <;> simp [calls, ih]

/-- The handler invocations in the trace of a dispatch: one per same-thread slot. -/
theorem calls_slotEvents (w : World V) (args : List V) (ss : List (slot V)) :
    calls (ss.flatMap (slotEvents w args)) = (sameThread w ss).map (callOf args) := by
  induction ss with
  | nil => rfl
  | cons s rest ih =>
    rw [List.flatMap_cons, calls_append, ih]
    unfold sameThread
    rw [List.filter_cons]
    by_cases hc : isCross w s = true
    · simp [slotEvents, hc, calls]
    · have hcf : isCross w s = false := by simpa using hc
      by_cases hd : disconnects args s = true
      · simp [slotEvents, hcf, hd, calls, dropEvent, callOf]
      · simp [slotEvents, hcf, hd, calls, callOf]

theorem resetCount_eq_zero (w : World V) (e : ObjId) (args : List V) (ss : List (slot V))
    (h : ∀ s ∈ ss, isCross w s = false → (s.body args).countP (Action.resets e) = 0) :
    resetCount w e args ss = 0 := by
  induction ss with
  | nil => rfl
  | cons s rest ih =>
    have h1 := h s (List.mem_cons_self _ _)
    have h2 := ih (fun s1 hs1 => h s1 (List.mem_cons_of_mem _ hs1))
    unfold resetCount
    rw [h2]
    by_cases hc : isCross w s = true
    · simp [hc]
    · have hcf : isCross w s = false := by simpa using hc
      simp [hcf, h1 hcf]

/-- On a signal without slots `invokeSignal` returns at once. -/
theorem invokeSignal_empty (fuel : Nat) (e : ObjId) (args : List V) (w : World V)
    (hsig : w.signalAlive = true) (hnil : w.mSlots = []) :
    invokeSignal (fuel + 1) e args w = .ok w := by
  have e1 : invokeSignal (fuel + 1) e args w = invokeSignalWith (invokeSignal fuel) e args w :=
    rfl
  rw [e1]; unfold invokeSignalWith
  simp [hsig, hnil]

/-- The dispatch of tame slots whose handlers keep their references to the emitter:
`invokeSignal` returns normally, in the state described by `Emitted`. -/
theorem invokeSignal_quiet (fuel : Nat) (e : ObjId) (args : List V) (w : World V)
    (hsig : w.signalAlive = true) (hea : (w.objects e).alive = true)
    (hz : NoZombie w) (ht : ∀ s ∈ w.mSlots, tameSlot w e args s = true)
    (hr : resetCount w e args w.mSlots = 0) :
    ∃ w1, invokeSignal (fuel + 1) e args w = .ok w1 ∧ Emitted w e args w1 := by
  by_cases hne : w.mSlots = []
  · refine ⟨w, invokeSignal_empty fuel e args w hsig hne, ?_⟩
    exact
      { signalAlive := hsig, owner := rfl, current := rfl, lockDepth := rfl,
        flag := fun h => absurd hne h
        mSlots := by rw [hne]; rfl
        trace := by rw [hne]; simp
        queue := by rw [hne]; simp [queued]
        alive := fun _ => rfl, thread := fun _ => rfl, policy := fun _ => rfl,
        owners := fun _ => rfl, holds := fun _ => rfl }
  obtain ⟨w2, h2, hd⟩ := invokeSignal_tame fuel e args w hsig hne hea hz ht
  have hoe : (w2.objects e).owners = (w.objects e).owners := by
    rw [hd.ownersE, hr]; rfl
  by_cases hl : lockable (w.objects e) = true
  · have hep : emitterHold w e = some e := by simp [emitterHold, hl]
    have hhe := hd.holds e
    rw [hep, held1_self] at hhe
    have hpos : 0 < (w2.objects e).owners + ((w2.objects e).holds - 1) := by
      simp only [lockable, Bool.and_eq_true, decide_eq_true_eq] at hl
      rw [hoe, hhe]; omega
    refine ⟨unhold e w2, ?_, ?_⟩
    · rw [h2, hep]; exact release_eq_unhold e w2 hpos
    · exact
        { signalAlive := hd.signalAlive, owner := hd.owner, current := hd.current,
          lockDepth := hd.lockDepth, flag := fun _ => hd.flag, mSlots := hd.mSlots,
          trace := hd.trace, queue := hd.queue,
          alive := fun o => by simp [hd.alive]
          thread := fun o => by simp [hd.thread]
          policy := fun o => by simp [hd.policy]
          owners := fun o => by
            by_cases hx : o = e
            · subst hx; simp [hoe]
            · simp [hd.owners o hx]
          holds := fun o => by
            have := hd.holds o
            rw [unhold_holds, this, hep]; omega }
  · have hep : emitterHold w e = none := by simp [emitterHold, hl]
    refine ⟨w2, ?_, ?_⟩
    · rw [h2, hep]; rfl
    · exact
        { signalAlive := hd.signalAlive, owner := hd.owner, current := hd.current,
          lockDepth := hd.lockDepth, flag := fun _ => hd.flag, mSlots := hd.mSlots,
          trace := hd.trace, queue := hd.queue, alive := hd.alive, thread := hd.thread,
          policy := hd.policy,
          owners := fun o => by
            by_cases hx : o = e
            · subst hx; exact hoe
            · exact hd.owners o hx
          holds := fun o => by
            have := hd.holds o
            rw [this, hep]; simp }

/-- The handlers a quiet dispatch invokes: the same-thread slots of the vector, once each,
in order. -/
theorem Emitted.calls_eq {w : World V} {e : ObjId} {args : List V} {w1 : World V}
    (h : Emitted w e args w1) :
    calls w1.trace = calls w.trace ++ (sameThread w w.mSlots).map (callOf args) := by
  rw [h.trace, calls_append, calls_slotEvents]

theorem Emitted.frame {w : World V} {e : ObjId} {args : List V} {w1 : World V}
    (h : Emitted w e args w1) (hsig : w.signalAlive = true) : Frame w w1 where
  signalAlive := by rw [h.signalAlive, hsig]
  owner := h.owner
  current := h.current
  lockDepth := h.lockDepth
  alive := h.alive
  thread := h.thread
  policy := h.policy
  owners := h.owners
  holds := h.holds

theorem Frame.trans {w w1 w2 : World V} (h1 : Frame w w1) (h2 : Frame w1 w2) : Frame w w2 where
  signalAlive := by rw [h2.signalAlive, h1.signalAlive]
  owner := by rw [h2.owner, h1.owner]
  current := by rw [h2.current, h1.current]
  lockDepth := by rw [h2.lockDepth, h1.lockDepth]
  alive := fun o => by rw [h2.alive, h1.alive]
  thread := fun o => by rw [h2.thread, h1.thread]
  policy := fun o => by rw [h2.policy, h1.policy]
  owners := fun o => by rw [h2.owners, h1.owners]
  holds := fun o => by rw [h2.holds, h1.holds]

theorem Frame.noZombie {w w1 : World V} (h : Frame w w1) (hz : NoZombie w) : NoZombie w1 := by
  intro o ho
  rw [h.owners] at ho
  rw [h.holds]
  exact hz o ho

theorem Frame.isCross_eq {w w1 : World V} (h : Frame w w1) : isCross w1 = isCross (V := V) w := by
  funext s
  simp [isCross, h.thread, h.policy, h.current]

theorem Frame.lockable_eq {w w1 : World V} (h : Frame w w1) (o : ObjId) :
    lockable (w1.objects o) = lockable (w.objects o) := by
  simp [lockable, h.alive, h.owners, h.holds]

theorem Frame.tame_eq {w w1 : World V} (h : Frame w w1) (e : ObjId) :
    Action.tame w1 e = Action.tame (V := V) w e := by
  funext a
  cases a <;> simp [Action.tame, h.alive]

theorem Frame.tameSlot_eq {w w1 : World V} (h : Frame w w1) (e : ObjId) (args : List V) :
    tameSlot w1 e args = tameSlot w e args := by
  funext s
  unfold tameSlot
  rw [h.alive, h.isCross_eq, h.tame_eq]

theorem Frame.survives_eq {w w1 : World V} (h : Frame w w1) (args : List V) :
    survives w1 args = survives w args := by
  funext s
  simp [survives, h.isCross_eq]

theorem Frame.added_eq {w w1 : World V} (h : Frame w w1) (args : List V) :
    added w1 args = added w args := by
  funext s
  simp [added, h.isCross_eq]

theorem Frame.sameThread_eq {w w1 : World V} (h : Frame w w1) (ss : List (slot V)) :
    sameThread w1 ss = sameThread w ss := by
  simp [sameThread, h.isCross_eq]

theorem Frame.resetCount_eq {w w1 : World V} (h : Frame w w1) (e : ObjId) (args : List V)
    (ss : List (slot V)) : resetCount w1 e args ss = resetCount w e args ss := by
  induction ss with
  | nil => rfl
  | cons s rest ih => simp [resetCount, ih, h.isCross_eq]

/-- What `argument_ignore_helper` hands to the lambda: the call is defined exactly when the
lambda declares no more parameters than there are arguments, and the lambda then receives
the leading arguments. -/
theorem call_isSome_iff (f : func_t V) (args : List V) :
    (f.call args).isSome = true ↔ f.arity ≤ args.length := by
  cases f with
  | helper0 t l => simp [func_t.call, func_t.arity]
  | helper1 t l => cases args <;> simp [func_t.call, func_t.arity]
  | helper2 t l =>
    rcases args with _ | ⟨a1, _ | ⟨a2, r⟩⟩ <;> simp [func_t.call, func_t.arity]
  | helper3 t l =>
    rcases args with _ | ⟨a1, _ | ⟨a2, _ | ⟨a3, r⟩⟩⟩ <;> simp [func_t.call, func_t.arity]

theorem received_eq_take (s : slot V) (args : List V) (h : s.func.arity ≤ args.length) :
    s.received args = args.take s.func.arity := by
  obtain ⟨o, f⟩ := s
  cases f with
  | helper0 t l => simp [slot.received, func_t.call, func_t.arity]
  | helper1 t l =>
    cases args with
    | nil => simp [func_t.arity] at h
    | cons a r => simp [slot.received, func_t.call, func_t.arity]
  | helper2 t l =>
    rcases args with _ | ⟨a1, _ | ⟨a2, r⟩⟩
    · simp [func_t.arity] at h
    · simp [func_t.arity] at h
    · simp [slot.received, func_t.call, func_t.arity]
  | helper3 t l =>
    rcases args with _ | ⟨a1, _ | ⟨a2, _ | ⟨a3, r⟩⟩⟩
    · simp [func_t.arity] at h
    · simp [func_t.arity] at h
    · simp [func_t.arity] at h
    · simp [slot.received, func_t.call, func_t.arity]

theorem arity_le_three (f : func_t V) : f.arity ≤ 3 := by
  cases f <;> simp [func_t.arity]

/-! ## The claims -/

/-- The helper hands the user lambda the leading arguments: the statements a slot runs when
the signal is emitted with `args` are those of its lambda called with the first values of
`args`, as many as the lambda declares. -/
theorem lambda_take (s : slot V) (args : List V) (h : s.func.arity ≤ args.length) :
    s.func.lambda (args.take s.func.arity) = some (s.body args) := by
  obtain ⟨o, f⟩ := s
  cases f with
  | helper0 t l => simp [slot.body, func_t.call, func_t.arity, func_t.lambda]
  | helper1 t l =>
    cases args with
    | nil => simp [func_t.arity] at h
    | cons a1 r => simp [slot.body, func_t.call, func_t.arity, func_t.lambda]
  | helper2 t l =>
    rcases args with _ | ⟨a1, _ | ⟨a2, r⟩⟩
    · simp [func_t.arity] at h
    · simp [func_t.arity] at h
    · simp [slot.body, func_t.call, func_t.arity, func_t.lambda]
  | helper3 t l =>
    rcases args with _ | ⟨a1, _ | ⟨a2, _ | ⟨a3, r⟩⟩⟩
    · simp [func_t.arity] at h
    · simp [func_t.arity] at h
    · simp [func_t.arity] at h
    · simp [slot.body, func_t.call, func_t.arity, func_t.lambda]

theorem onLeading_eq_body (s : slot V) (args : List V) (h : s.func.arity ≤ args.length) :
    s.onLeading args = s.body args := by
  unfold slot.onLeading
  rw [lambda_take s args h]
  rfl

/-- C2: on a signal emitted with n arguments, a same-thread handler that declares k of them
(k at most 3 by the four helper specialisations, k ≤ n) is invoked once and is called with
exactly the first k emitted values, unchanged; a handler declaring none is still invoked.
The statements every handler runs are those of its lambda called with these k values, and
so are the effects of the emission: the slots that stay are those whose lambda, called with
the first k values, does not disconnect, followed by the slots these calls connect. -/
theorem C2_handler_receives_leading_arguments (fuel : Nat) (e : ObjId) (args : List V)
    (w : World V) (hsig : w.signalAlive = true) (hea : (w.objects e).alive = true)
    (hz : NoZombie w)
    (hrecv : ∀ s ∈ w.mSlots, (w.objects s.object).alive = true ∧ isCross w s = false)
    (harity : ∀ s ∈ w.mSlots, s.func.arity ≤ args.length)
    (hbody : ∀ s ∈ w.mSlots, (s.body args).all (Action.tame w e) = true ∧
      (s.body args).countP (Action.resets e) = 0) :
    (∀ s ∈ w.mSlots, s.func.arity ≤ 3) ∧
    (∀ s ∈ w.mSlots, s.func.lambda (args.take s.func.arity) = some (s.body args)) ∧
    ∃ w1, invokeSignal (fuel + 1) e args w = .ok w1 ∧
      calls w1.trace = calls w.trace
        ++ w.mSlots.map (fun s => (s.object, s.func.target_type, args.take s.func.arity)) ∧
      w1.mSlots = w.mSlots.filter (fun s => !(s.onLeading args).any Action.isDisconnect)
        ++ w.mSlots.flatMap (fun s => (s.onLeading args).filterMap Action.connected) := by
  refine ⟨fun s _ => arity_le_three s.func, fun s hs => lambda_take s args (harity s hs), ?_⟩
  have htame : ∀ s ∈ w.mSlots, tameSlot w e args s = true := by
    intro s hs
    simp only [tameSlot, Bool.and_eq_true, Bool.or_eq_true]
    exact ⟨(hrecv s hs).1, Or.inr ⟨(call_isSome_iff _ _).mpr (harity s hs), (hbody s hs).1⟩⟩
  have hres : resetCount w e args w.mSlots = 0 :=
    resetCount_eq_zero w e args w.mSlots (fun s hs _ => (hbody s hs).2)
  obtain ⟨w1, h1, hem⟩ := invokeSignal_quiet fuel e args w hsig hea hz htame hres
  refine ⟨w1, h1, ?_, ?_⟩
  · have hst : sameThread w w.mSlots = w.mSlots := by
      unfold sameThread
      apply List.filter_eq_self.mpr
      intro s hs
      simp [(hrecv s hs).2]
    rw [hem.calls_eq, hst]
    congr 1
    apply List.map_congr_left
    intro s hs
    simp [callOf, received_eq_take s args (harity s hs)]
  · have hfilter : ∀ ss : List (slot V), (∀ s ∈ ss, s ∈ w.mSlots) →
        ss.filter (survives w args) ++ ss.flatMap (added w args)
          = ss.filter (fun s => !(s.onLeading args).any Action.isDisconnect)
            ++ ss.flatMap (fun s => (s.onLeading args).filterMap Action.connected) := by
      intro ss hss
      congr 1
      · apply List.filter_congr
        intro s hs
        have hm := hss s hs
        simp [survives, disconnects, (hrecv s hm).2, onLeading_eq_body s args (harity s hm)]
      · induction ss with
        | nil => rfl
        | cons s rest ih =>
          have hm := hss s (List.mem_cons_self _ _)
          rw [List.flatMap_cons, List.flatMap_cons,
            ih (fun x hx => hss x (List.mem_cons_of_mem _ hx))]
          simp [added, (hrecv s hm).2, onLeading_eq_body s args (harity s hm)]
    rw [hem.mSlots]
    exact hfilter w.mSlots (fun s hs => hs)

/-- Witness for C2, tests `Basic` and `BasicNoArgs` next to handlers of two and three
arguments that check what they are given: the signal is emitted with "hello", "world",
"again".  The one-argument handler is given "hello", the zero-argument handler is invoked
with nothing, the two-argument handler is given "hello" and "world" (it disconnects, which
it does for these values only) and the three-argument handler all three. -/
theorem C2_witness :
    ∃ w1, invokeSignal (0 + 1) 0 ["hello", "world", "again"]
        (fixtureWith [expectHello, acceptMessageNoArgs, expectHelloWorld, expectThree])
        = .ok w1 ∧
      calls w1.trace = [(1, 7, ["hello"]), (1, 8, []), (2, 9, ["hello", "world"]),
        (2, 6, ["hello", "world", "again"])] ∧
      w1.mSlots.map slot.key = [(1, 7), (1, 8), (2, 6)] := by
  obtain ⟨_, _, w1, h1, hc, hm⟩ := C2_handler_receives_leading_arguments 0 0
    ["hello", "world", "again"]
    (fixtureWith [expectHello, acceptMessageNoArgs, expectHelloWorld, expectThree])
    rfl rfl (fun _ _ => rfl)
    (by
      intro s hs
      simp only [fixtureWith, List.mem_cons, List.mem_singleton, List.not_mem_nil,
        or_false] at hs
      rcases hs with hs | hs | hs | hs <;> subst hs <;> exact ⟨rfl, rfl⟩)
    (by
      intro s hs
      simp only [fixtureWith, List.mem_cons, List.mem_singleton, List.not_mem_nil,
        or_false] at hs
      rcases hs with hs | hs | hs | hs <;> subst hs <;> decide)
    (by
      intro s hs
      simp only [fixtureWith, List.mem_cons, List.mem_singleton, List.not_mem_nil,
        or_false] at hs
      rcases hs with hs | hs | hs | hs <;> subst hs <;> exact ⟨by decide, by decide⟩)
  refine ⟨w1, h1, ?_, ?_⟩
  · rw [hc]; rfl
  · rw [hm]; decide

/-- C3, counterexample to the claim as stated: the handler of the only slot calls
`disconnect()` during its own invocation and then emits the signal again; the nested
emission resets the flag, so after the emission the slot (key `(1, 7)`) is still in the
vector and the next emission invokes its handler a second time. -/
theorem C3_counterexample :
    disconnects [5] reemittingSlot = true ∧
    slotsAfter (andThen (connectAll [reemittingSlot] (fixture Nat)) (invokeSignal 2 0 [5]))
      = some [(1, 7), (1, 8)] ∧
    callsAfter (andThen
        (andThen (connectAll [reemittingSlot] (fixture Nat)) (invokeSignal 2 0 [5]))
        (invokeSignal 2 0 [5]))
      = some [(1, 7, [5]), (1, 8, [5]), (1, 7, [5]), (1, 8, [5]), (1, 8, [5])] := by
  refine ⟨rfl, by decide!, by decide!⟩

/-- C3, amended: when the same-thread handlers only disconnect or connect (none starts a
nested emission or drops the emitter), an emission erases every slot whose handler called
`disconnect()`: the vector afterwards is the slots that did not ask for disconnection, in
order, followed by the slots connected during the emission; and when nothing was connected,
a second emission invokes exactly the same-thread handlers that had not disconnected, so a
self-disconnecting handler is invoked once in total over the two emissions. -/
theorem C3_self_disconnect_erases_slot (fuel : Nat) (e : ObjId) (args : List V) (w : World V)
    (hsig : w.signalAlive = true) (hea : (w.objects e).alive = true) (hz : NoZombie w)
    (ht : ∀ s ∈ w.mSlots, tameSlot w e args s = true)
    (hres : ∀ s ∈ w.mSlots, (s.body args).countP (Action.resets e) = 0) :
    ∃ w1, invokeSignal (fuel + 1) e args w = .ok w1 ∧
      w1.mSlots = w.mSlots.filter (fun s => isCross w s || !disconnects args s)
        ++ w.mSlots.flatMap (added w args) ∧
      ((∀ s ∈ w.mSlots, added w args s = []) →
        ∃ w2, invokeSignal (fuel + 1) e args w1 = .ok w2 ∧
          calls w2.trace = calls w.trace ++ (sameThread w w.mSlots).map (callOf args)
            ++ ((sameThread w w.mSlots).filter (fun s => !disconnects args s)).map
                (callOf args)) := by
  obtain ⟨w1, h1, hem⟩ := invokeSignal_quiet fuel e args w hsig hea hz ht
    (resetCount_eq_zero w e args w.mSlots (fun s hs _ => hres s hs))
  refine ⟨w1, h1, hem.mSlots, ?_⟩
  intro hno
  have hfr := hem.frame hsig
  have hm1 : w1.mSlots = w.mSlots.filter (survives w args) := by
    rw [hem.mSlots, List.flatMap_eq_nil_iff.mpr hno]; simp
  have hsub : ∀ s ∈ w1.mSlots, s ∈ w.mSlots := by
    intro s hs; rw [hm1] at hs; exact (List.mem_filter.mp hs).1
  have ht1 : ∀ s ∈ w1.mSlots, tameSlot w1 e args s = true := by
    intro s hs; rw [hfr.tameSlot_eq]; exact ht s (hsub s hs)
  obtain ⟨w2, h2, hem2⟩ := invokeSignal_quiet fuel e args w1 hem.signalAlive
    (by rw [hfr.alive]; exact hea) (hfr.noZombie hz) ht1
    (resetCount_eq_zero w1 e args w1.mSlots (fun s hs _ => hres s (hsub s hs)))
  refine ⟨w2, h2, ?_⟩
  rw [hem2.calls_eq, hem.calls_eq, hfr.sameThread_eq, hm1]
  congr 2
  unfold sameThread survives
  rw [List.filter_filter, List.filter_filter]
  apply List.filter_congr
  intro s _
  cases isCross w s <;> cases disconnects args s <;> rfl

/-- Witness for C3 (amended), the spec scenario: H1 disconnects itself, H2 is plain; over
two emissions H1 is invoked once and H2 twice, and after the first only H2 is connected. -/
theorem C3_witness :
    ∃ w1 w2, invokeSignal (0 + 1) 0 [5] (fixtureWith [disconnectingSlot Nat, plainSlot Nat])
        = .ok w1 ∧
      w1.mSlots.map slot.key = [(1, 7)] ∧
      invokeSignal (0 + 1) 0 [5] w1 = .ok w2 ∧
      calls w2.trace = [(1, 9, [5]), (1, 7, [5]), (1, 7, [5])] := by
  obtain ⟨w1, h1, hm, hnext⟩ := C3_self_disconnect_erases_slot 0 0 [5]
    (fixtureWith [disconnectingSlot Nat, plainSlot Nat]) rfl rfl (fun _ _ => rfl)
    (by intro s hs; simp [fixtureWith] at hs; rcases hs with hs | hs <;> subst hs <;> rfl)
    (by intro s hs; simp [fixtureWith] at hs; rcases hs with hs | hs <;> subst hs <;> rfl)
  obtain ⟨w2, h2, hc⟩ := hnext
    (by intro s hs; simp [fixtureWith] at hs; rcases hs with hs | hs <;> subst hs <;> rfl)
  exact ⟨w1, w2, h1, by rw [hm]; rfl, h2, by rw [hc]; rfl⟩

theorem added_flatMap (w : World V) (args : List V) (ss : List (slot V)) :
    ss.flatMap (added w args)
      = (sameThread w ss).flatMap (fun s => (s.body args).filterMap Action.connected) := by
  induction ss with
  | nil => rfl
  | cons s rest ih =>
    unfold sameThread at ih ⊢
    rw [List.flatMap_cons, ih, List.filter_cons]
    by_cases hc : isCross w s = true
    · simp [added, hc]
    · simp [added, hc]

/-- C5, counterexample: two emissions that return normally.  In the first the only handler
connects a slot (1, 8) and emits the signal again; the nested emission invokes the new slot,
which disconnects itself, so the vector afterwards is `[(1, 7)]` although a slot was
connected during the emission.  In the second the only handler connects a slot (1, 8),
calls `disconnect()` and emits the signal again; the nested emission resets the flag, so
the slot (1, 7) is still in the vector although it disconnected during the emission. -/
theorem C5_counterexample :
    callsAfter (andThen (connectAll [nestingDropSlot] (fixture Nat)) (invokeSignal 2 0 [5]))
      = some [(1, 7, [5]), (1, 8, [5])] ∧
    slotsAfter (andThen (connectAll [nestingDropSlot] (fixture Nat)) (invokeSignal 2 0 [5]))
      = some [(1, 7)] ∧
    disconnects [5] reemittingSlot = true ∧
    callsAfter (andThen (connectAll [reemittingSlot] (fixture Nat)) (invokeSignal 2 0 [5]))
      = some [(1, 7, [5]), (1, 8, [5])] ∧
    slotsAfter (andThen (connectAll [reemittingSlot] (fixture Nat)) (invokeSignal 2 0 [5]))
      = some [(1, 7), (1, 8)] := by
  refine ⟨by decide!, by decide!, rfl, by decide!, by decide!⟩

/-- C5, amended: after an emission whose same-thread handlers only disconnect or connect
(none emits the signal again, raises or drops a reference to the emitter), which then
returns normally, the slot vector is the slots of the pre-emission vector that did not
disconnect, in their original order, followed by the slots the same-thread handlers
connected during the emission, in the order of the connects; it is exactly the cleaned
snapshot when nothing was connected. -/
theorem C5_vector_after_emission (fuel : Nat) (e : ObjId) (args : List V) (w : World V)
    (hsig : w.signalAlive = true) (hea : (w.objects e).alive = true) (hz : NoZombie w)
    (ht : ∀ s ∈ w.mSlots, tameSlot w e args s = true)
    (hres : ∀ s ∈ w.mSlots, (s.body args).countP (Action.resets e) = 0) :
    ∃ w1, invokeSignal (fuel + 1) e args w = .ok w1 ∧
      w1.mSlots
        = w.mSlots.filter (fun s => isCross w s || !(s.body args).any Action.isDisconnect)
          ++ (sameThread w w.mSlots).flatMap
              (fun s => (s.body args).filterMap Action.connected) ∧
      ((∀ s ∈ sameThread w w.mSlots, (s.body args).filterMap Action.connected = []) →
        w1.mSlots
          = w.mSlots.filter
              (fun s => isCross w s || !(s.body args).any Action.isDisconnect)) := by
  obtain ⟨w1, h1, hem⟩ := invokeSignal_quiet fuel e args w hsig hea hz ht
    (resetCount_eq_zero w e args w.mSlots (fun s hs _ => hres s hs))
  have hm : w1.mSlots
      = w.mSlots.filter (fun s => isCross w s || !(s.body args).any Action.isDisconnect)
        ++ (sameThread w w.mSlots).flatMap
            (fun s => (s.body args).filterMap Action.connected) := by
    rw [hem.mSlots, added_flatMap]; rfl
  refine ⟨w1, h1, hm, ?_⟩
  intro hno
  rw [hm, List.flatMap_eq_nil_iff.mpr hno]; simp

/-- Witness for C5, test `ObjectNestedConnectWithDisconnect` next to a plain handler: the
plain handler survives in place, the replacing handler is gone, and the handler it connected
comes last. -/
theorem C5_witness :
    ∃ w1, invokeSignal (0 + 1) 0 [5] (fixtureWith [replacingSlot Nat, selfRemovingSlot Nat,
        plainSlot Nat]) = .ok w1 ∧
      w1.mSlots.map slot.key = [(1, 7), (1, 7)] ∧
      w1.mSlots.length = 2 := by
  obtain ⟨w1, h1, hm, _⟩ := C5_vector_after_emission 0 0 [5]
    (fixtureWith [replacingSlot Nat, selfRemovingSlot Nat, plainSlot Nat]) rfl rfl
    (fun _ _ => rfl)
    (by intro s hs; simp [fixtureWith] at hs; rcases hs with hs | hs | hs <;> subst hs <;> rfl)
    (by intro s hs; simp [fixtureWith] at hs; rcases hs with hs | hs | hs <;> subst hs <;> rfl)
  exact ⟨w1, h1, by rw [hm]; rfl, by rw [hm]; rfl⟩

theorem calls_map_dropEvent (d : Nat) (l : List (slot V)) :
    calls (l.map (dropEvent d)) = [] := by
  induction l with
  | nil => rfl
  | cons a t ih => simpa [calls, dropEvent] using ih

theorem clearAllConnectionsIf_ok (p : slot V → Bool) (w : World V)
    (hsig : w.signalAlive = true) :
    ∃ w1, clearAllConnectionsIf p w = .ok w1 ∧ w1.mSlots = w.mSlots.filter (fun s => !p s) ∧
      w1.objects = w.objects ∧ w1.signalAlive = true ∧ w1.owner = w.owner ∧
      w1.current = w.current ∧ w1.lockDepth = w.lockDepth ∧
      w1.isDisconnected = w.isDisconnected ∧ w1.queue = w.queue ∧
      calls w1.trace = calls w.trace := by
  refine ⟨{ w with
      mSlots := w.mSlots.filter (fun s => !p s)
      trace := w.trace ++ (w.mSlots.filter p).map (dropEvent (w.lockDepth + 1))
        ++ (w.mSlots.filter p).map (dropEvent w.lockDepth) }, ?_, rfl, rfl, hsig,
    rfl, rfl, rfl, rfl, rfl, ?_⟩
  · unfold clearAllConnectionsIf
    rw [if_pos hsig]
  · show calls (w.trace ++ (w.mSlots.filter p).map (dropEvent (w.lockDepth + 1))
      ++ (w.mSlots.filter p).map (dropEvent w.lockDepth)) = calls w.trace
    rw [calls_append, calls_append, calls_map_dropEvent, calls_map_dropEvent]; simp

/-- The teardown of a receiver that does not own the signal, in a world that satisfies the
incoming-links invariant: the signal is left without any slot of the receiver. -/
theorem destroy_receiver (R : ObjId) (w : World V) (hsig : w.signalAlive = true)
    (hal : (w.objects R).alive = true) (hown : w.owner ≠ some R) (hwl : WellLinked w) :
    destroy R w = .ok (tornDown R w) := by
  by_cases hl : (w.objects R).linked = true
  · have hl1 : ((w.log (.destroyed R)).objects R).linked = true := hl
    have hs1 : (w.log (.destroyed R)).signalAlive = true := hsig
    unfold destroy
    rw [if_pos hal, if_neg hown]
    simp only []
    rw [if_pos hl1]
    unfold clearAllConnectionsWith clearAllConnectionsIf
    rw [if_pos hs1]
    rfl
  · have hnone : ∀ s ∈ w.mSlots, s.object ≠ R := by
      intro s hs hc
      have := hwl s hs
      rw [hc] at this
      exact hl this
    have hl1 : ¬ ((w.log (.destroyed R)).objects R).linked = true := hl
    have hf1 : w.mSlots.filter (fun s => s.object != R) = w.mSlots := by
      apply List.filter_eq_self.mpr
      intro s hs
      simpa [bne] using hnone s hs
    have hf2 : w.mSlots.filter (fun s => s.object == R) = [] := by
      apply List.filter_eq_nil_iff.mpr
      intro s hs
      simpa using hnone s hs
    unfold destroy
    rw [if_pos hal, if_neg hown]
    simp only []
    rw [if_neg hl1]
    unfold tornDown
    rw [hf1, hf2]
    simp [World.log]

/-- The method `clearAllConnectionsWith(R)` leaves the signal with exactly its slots whose
receiver is not `R`, in their previous order; `clearAllConnections` leaves it with no slot;
and in a state where the signal is in the incoming links of every receiver it holds a slot
for, the teardown of a receiver `R` clears the slots of `R`, so that a later emit invokes no
handler bound to `R`. -/
theorem clearing_removes_the_receiver_slots (w : World V) (R : ObjId)
    (hsig : w.signalAlive = true) :
    (∃ w1, clearAllConnectionsWith R w = .ok w1 ∧
      w1.mSlots = w.mSlots.filter (fun s => s.object != R) ∧
      (∀ s ∈ w1.mSlots, s.object ≠ R)) ∧
    (∃ w1, clearAllConnections w = .ok w1 ∧ w1.mSlots = []) ∧
    ((w.objects R).alive = true → w.owner ≠ some R → WellLinked w →
      destroy R w = .ok (tornDown R w) ∧ ((tornDown R w).objects R).alive = false ∧
        (∀ s ∈ (tornDown R w).mSlots, s.object ≠ R) ∧
        ∀ (fuel : Nat) (e : ObjId) (args : List V),
          ((tornDown R w).objects e).alive = true → NoZombie (tornDown R w) →
          (∀ s ∈ (tornDown R w).mSlots, tameSlot (tornDown R w) e args s = true ∧
            (s.body args).countP (Action.resets e) = 0) →
          ∃ w2 invoked, invokeSignal (fuel + 1) e args (tornDown R w) = .ok w2 ∧
            calls w2.trace = calls (tornDown R w).trace ++ invoked ∧
            ∀ c ∈ invoked, c.1 ≠ R) := by
  refine ⟨?_, ?_, ?_⟩
  · obtain ⟨w1, h1, hm1, _⟩ := clearAllConnectionsIf_ok (fun p => p.object == R) w hsig
    refine ⟨w1, h1, ?_, ?_⟩
    · rw [hm1]; apply List.filter_congr; intro s _; simp [bne]
    · intro s hs
      rw [hm1] at hs
      simpa using (List.mem_filter.mp hs).2
  · obtain ⟨w1, h1, hm1, _⟩ := clearAllConnectionsIf_ok (fun _ => true) w hsig
    exact ⟨w1, h1, by rw [hm1]; simp⟩
  · intro hal hown hwl
    have hno : ∀ s ∈ (tornDown R w).mSlots, s.object ≠ R := by
      intro s hs
      have hs1 : s ∈ w.mSlots.filter (fun s => s.object != R) := hs
      simpa [bne] using (List.mem_filter.mp hs1).2
    refine ⟨destroy_receiver R w hsig hal hown hwl, by simp [tornDown], hno, ?_⟩
    intro fuel e args hea hz ht
    obtain ⟨w2, h2, hem⟩ := invokeSignal_quiet fuel e args (tornDown R w) hsig hea hz
      (fun s hs => (ht s hs).1)
      (resetCount_eq_zero _ e args _ (fun s hs _ => (ht s hs).2))
    refine ⟨w2, _, h2, hem.calls_eq, ?_⟩
    intro c hc
    obtain ⟨s, hs, rfl⟩ := List.mem_map.mp hc
    exact hno s (List.mem_filter.mp hs).1

/-- C7, the code at the failing input: receiver 1 has two slots on the signal, and the
handler of the first calls `disconnect()`.  After one emission the second slot is still
stored, and `clearAllConnectionsWith(1)` called then does leave the signal without a slot of
receiver 1.  But the erase of the first slot has unlinked receiver 1, so the teardown of
receiver 1 never calls `clearAllConnectionsWith`: receiver 1 is destroyed, its slot stays in
the vector, and the next emit reaches the handler bound to the destroyed receiver. -/
theorem C7_destroyed_receiver_keeps_a_slot :
    slotsAfter (andThen (connectAll [selfRemovingSlot Nat, plainSlot Nat] (fixture Nat))
        (invokeSignal 1 0 [5])) = some [(1, 7)] ∧
    slotsAfter (andThen (andThen (connectAll [selfRemovingSlot Nat, plainSlot Nat]
        (fixture Nat)) (invokeSignal 1 0 [5])) (clearAllConnectionsWith 1)) = some [] ∧
    aliveAfter 1 (andThen (andThen (connectAll [selfRemovingSlot Nat, plainSlot Nat]
        (fixture Nat)) (invokeSignal 1 0 [5])) (resetRef 1)) = some false ∧
    slotsAfter (andThen (andThen (connectAll [selfRemovingSlot Nat, plainSlot Nat]
        (fixture Nat)) (invokeSignal 1 0 [5])) (resetRef 1)) = some [(1, 7)] ∧
    usedAfterFree (andThen (andThen (andThen (connectAll [selfRemovingSlot Nat, plainSlot Nat]
        (fixture Nat)) (invokeSignal 1 0 [5])) (resetRef 1)) (invokeSignal 1 0 [5])) = true ∧
    callsAfter (andThen (andThen (connectAll [plainSlot Nat, otherSlot Nat] (fixture Nat))
        (resetRef 1)) (invokeSignal 1 0 [5])) = some [(2, 8, [5])] := by
  refine ⟨by decide!, by decide!, by decide!, by decide!, by decide!, by decide!⟩

/-- C8, the code at the failing input: receiver 1 destroys itself in its handler and
receiver 2 is connected after it.  Holding receiver 2 releases receiver 1 in the middle of
the loop, its teardown clears the empty live vector, and the merge puts its slot back: after
the emission receiver 1 is destroyed, its slot `(1, 7)` is still in the vector, and the next
emission touches the destroyed receiver.  With receiver 1 alone (the test) the slot is
removed. -/
theorem C8_destroyed_receiver_slot_survives :
    aliveAfter 1 (andThen (connectAll [suicidalSlot Nat, otherSlot Nat] (fixture Nat))
        (invokeSignal 1 0 [5])) = some false ∧
    slotsAfter (andThen (connectAll [suicidalSlot Nat, otherSlot Nat] (fixture Nat))
        (invokeSignal 1 0 [5])) = some [(1, 7), (2, 8)] ∧
    callsAfter (andThen (connectAll [suicidalSlot Nat, otherSlot Nat] (fixture Nat))
        (invokeSignal 1 0 [5])) = some [(1, 7, []), (2, 8, [5])] ∧
    usedAfterFree (andThen (andThen
        (connectAll [suicidalSlot Nat, otherSlot Nat] (fixture Nat))
        (invokeSignal 1 0 [5])) (invokeSignal 1 0 [5])) = true ∧
    slotsAfter (andThen (connectAll [suicidalSlot Nat] (fixture Nat))
        (invokeSignal 1 0 [5])) = some [] := by
  refine ⟨by decide!, by decide!, by decide!, by decide!, by decide!⟩

/-- C9: when the emitter is owned by shared pointers and handlers drop owning references to
it during an emission (all of them included), `invokeSignal` keeps it through `emitterPtr`:
the last step of `invokeSignal` is the release of that hold, and in the state where only
that release remains the emitter and the signal are alive, every same-thread slot of the
snapshot has been invoked exactly once, in order, and the vector has been reconciled.  When
no other owning reference is left, that last release is the teardown of the emitter. -/
theorem C9_emitter_held_until_invokeSignal_returns (fuel : Nat) (e : ObjId) (args : List V)
    (w : World V) (hsig : w.signalAlive = true) (hne : w.mSlots ≠ [])
    (hea : (w.objects e).alive = true) (hz : NoZombie w)
    (hshared : 0 < (w.objects e).owners)
    (ht : ∀ s ∈ w.mSlots, tameSlot w e args s = true) :
    ∃ w2, invokeSignal (fuel + 1) e args w = release e w2 ∧
      w2.signalAlive = true ∧ (w2.objects e).alive = true ∧
      (w2.objects e).holds = (w.objects e).holds + 1 ∧
      (w2.objects e).owners = (w.objects e).owners - resetCount w e args w.mSlots ∧
      calls w2.trace = calls w.trace ++ (sameThread w w.mSlots).map (callOf args) ∧
      w2.mSlots = w.mSlots.filter (survives w args) ++ w.mSlots.flatMap (added w args) ∧
      ((w.objects e).holds = 0 → (w.objects e).owners ≤ resetCount w e args w.mSlots →
        release e w2 = destroy e (unhold e w2)) := by
  obtain ⟨w2, h2, hd⟩ := invokeSignal_tame fuel e args w hsig hne hea hz ht
  have hl : lockable (w.objects e) = true := by
    simp only [lockable, hea, Bool.true_and, decide_eq_true_eq]; omega
  have hep : emitterHold w e = some e := by simp [emitterHold, hl]
  rw [hep] at h2
  have hh := hd.holds e
  rw [hep, held1_self] at hh
  refine ⟨w2, h2, hd.signalAlive, by rw [hd.alive]; exact hea, hh, hd.ownersE, ?_, hd.mSlots,
    ?_⟩
  · rw [hd.trace, calls_append, calls_slotEvents]
  · intro h0 hle
    have hzero : (w2.objects e).owners + ((w2.objects e).holds - 1) = 0 := by
      rw [hd.ownersE, hh]; omega
    simp only [release, unhold]
    rw [if_pos hzero]

/-- Witness for C9, test `ObjectDestroyMasterInSignalHandler` with a second receiver: the
first handler drops the only owning reference to the emitter; the second handler is still
invoked, and the emitter is destroyed by the final release, with the signal it owns. -/
theorem C9_witness :
    (∃ w2, invokeSignal (0 + 1) 0 [5] (fixtureWith [masterDroppingSlot Nat, otherSlot Nat])
        = release 0 w2 ∧
      w2.signalAlive = true ∧ (w2.objects 0).alive = true ∧
      calls w2.trace = [(1, 7, []), (2, 8, [5])] ∧
      release 0 w2 = destroy 0 (unhold 0 w2)) ∧
    aliveAfter 0 (invokeSignal (0 + 1) 0 [5]
      (fixtureWith [masterDroppingSlot Nat, otherSlot Nat])) = some false := by
  obtain ⟨w2, h2, hs, ha, _, _, hc, _, hrel⟩ :=
    C9_emitter_held_until_invokeSignal_returns 0 0 [5]
      (fixtureWith [masterDroppingSlot Nat, otherSlot Nat]) rfl (by simp [fixtureWith]) rfl
      (fun _ _ => rfl) (by decide)
      (by intro s hs; simp [fixtureWith] at hs; rcases hs with hs | hs <;> subst hs <;> rfl)
  exact ⟨⟨w2, h2, hs, ha, by rw [hc]; rfl, hrel rfl (by decide)⟩, rfl⟩

@[simp] theorem onThread_objects (th : ThreadId) (w : World V) :
    (onThread th w).objects = w.objects := rfl
@[simp] theorem onThread_trace (th : ThreadId) (w : World V) :
    (onThread th w).trace = w.trace := rfl
@[simp] theorem onThread_mSlots (th : ThreadId) (w : World V) :
    (onThread th w).mSlots = w.mSlots := rfl
@[simp] theorem onThread_signalAlive (th : ThreadId) (w : World V) :
    (onThread th w).signalAlive = w.signalAlive := rfl
@[simp] theorem onThread_isDisconnected (th : ThreadId) (w : World V) :
    (onThread th w).isDisconnected = w.isDisconnected := rfl

/-- The state in which the handler of a thunk is entered satisfies the invariant, with the
receiver as the object kept alive. -/
theorem Inv.thunk (t : Thunk V) (w : World V) (hsig : w.signalAlive = true) (hz : NoZombie w)
    (hl : lockable (w.objects t.receiver) = true) :
    Inv w t.receiver (some t.receiver) none (thunkEnter t w) :=
  { signalAlive := hsig, owner := rfl, current := rfl,
    alive := fun x => acquire_alive _ _ _
    thread := fun x => acquire_thread _ _ _
    policy := fun x => acquire_only _ _ _
    owners := fun x _ => acquire_owners _ _ _
    ownersLe := le_of_eq (acquire_owners _ _ _)
    holds := fun x => by
      show ((acquire t.receiver w).objects x).holds = _
      rw [acquire_holds]; simp
    held := fun r hr => by simp at hr
    zombie := hz
    eAlive := by simp only [lockable, Bool.and_eq_true] at hl; exact hl.1
    ep_eq := by rw [if_pos hl] }

/-- Effect of the erase block of a thunk on a live signal and a live receiver. -/
theorem thunkErase_ok (t : Thunk V) (w : World V) (hsig : w.signalAlive = true)
    (hal : (w.objects t.receiver).alive = true) :
    ∃ w1, thunkErase t w = .ok w1 ∧
      w1.mSlots = removeFirst ⟨t.receiver, t.func⟩ w.mSlots ∧
      calls w1.trace = calls w.trace ∧ w1.isDisconnected = w.isDisconnected ∧
      w1.signalAlive = true ∧ w1.queue = w.queue ∧
      (∀ o, (w1.objects o).alive = (w.objects o).alive) ∧
      (∀ o, (w1.objects o).owners = (w.objects o).owners) ∧
      (∀ o, (w1.objects o).holds = (w.objects o).holds) := by
  refine ⟨{ w.setObj t.receiver { w.objects t.receiver with linked := false } with
      mSlots := removeFirst ⟨t.receiver, t.func⟩ w.mSlots
      trace := w.trace ++ ((findFirst ⟨t.receiver, t.func⟩ w.mSlots).toList.map
        (dropEvent (w.lockDepth + 1))) }, ?_, rfl, ?_, rfl, hsig, rfl, ?_, ?_, ?_⟩
  · unfold thunkErase unlinkSlot
    rw [if_pos hsig, if_pos hal]
    rfl
  · show calls (w.trace ++ ((findFirst ⟨t.receiver, t.func⟩ w.mSlots).toList.map
        (dropEvent (w.lockDepth + 1)))) = calls w.trace
    rw [calls_append, calls_map_dropEvent]; simp
  · intro o
    show ((w.setObj t.receiver { w.objects t.receiver with linked := false }).objects o).alive
      = _
    by_cases h : o = t.receiver <;> simp [h]
  · intro o
    show ((w.setObj t.receiver { w.objects t.receiver with linked := false }).objects o).owners
      = _
    by_cases h : o = t.receiver <;> simp [h]
  · intro o
    show ((w.setObj t.receiver { w.objects t.receiver with linked := false }).objects o).holds
      = _
    by_cases h : o = t.receiver <;> simp [h]

/-- Running a queued thunk whose receiver can still be locked and whose handler is tame and
keeps its references to the receiver: the handler is entered exactly once, with the
arguments stored in the thunk, and the thunk returns normally. -/
theorem runThunkWith_tame (emitF : ObjId → List V → World V → Res V) (t : Thunk V)
    (w : World V) (received : List V)
    (body : List (Action V)) (hsig : w.signalAlive = true) (hz : NoZombie w)
    (hl : lockable (w.objects t.receiver) = true)
    (hcall : t.func.call t.args = some (received, body))
    (hall : ∀ a ∈ body, Action.tame w t.receiver a = true)
    (hres : body.countP (Action.resets t.receiver) = 0) :
    ∃ w1, runThunkWith emitF t w = .ok w1 ∧
      calls w1.trace = calls w.trace ++ [(t.receiver, t.func.target_type, received)] ∧
      w1.mSlots = (if body.any Action.isDisconnect
        then removeFirst ⟨t.receiver, t.func⟩ (w.mSlots ++ body.filterMap Action.connected)
        else w.mSlots ++ body.filterMap Action.connected) ∧
      w1.isDisconnected = body.any Action.isDisconnect := by
  have hinv := Inv.thunk t w hsig hz hl
  have hal : (w.objects t.receiver).alive = true := hinv.eAlive
  have hinv1 : Inv w t.receiver (some t.receiver) none
      ((thunkEnter t w).log
        (.call t.receiver t.func.target_type received (thunkEnter t w).lockDepth)) :=
    hinv.of_same rfl rfl rfl (fun _ => rfl) (fun _ => rfl) (fun _ => rfl) (fun _ => rfl)
      (fun _ => rfl)
  obtain ⟨wb, hrun, hinvb, hmb, hdb, htb, hqb, hlb, hob⟩ :=
    runBody_tame emitF body _ hinv1 hall
  have happ : applyFunc emitF ⟨t.receiver, t.func⟩ t.args (thunkEnter t w) = .ok wb := by
    unfold applyFunc
    rw [hcall]
    exact hrun
  have hwbm : wb.mSlots = w.mSlots ++ body.filterMap Action.connected := hmb
  have hwbd : wb.isDisconnected = body.any Action.isDisconnect := by
    rw [hdb]
    show (false || body.any Action.isDisconnect) = _
    simp
  have hown : (wb.objects t.receiver).owners = (w.objects t.receiver).owners := by
    rw [hob, hres]
    show ((acquire t.receiver w).objects t.receiver).owners - 0 = _
    simp
  have hhold : (wb.objects t.receiver).holds = (w.objects t.receiver).holds + 1 := by
    have h1 := hinvb.holds t.receiver
    rw [held1_self, held1_none] at h1
    rw [h1]
  have hlk : 0 < (w.objects t.receiver).owners + (w.objects t.receiver).holds := by
    simp only [lockable, Bool.and_eq_true, decide_eq_true_eq] at hl
    exact hl.2
  have htr : calls wb.trace
      = calls w.trace ++ [(t.receiver, t.func.target_type, received)] := by
    rw [htb]
    show calls ((acquire t.receiver w).trace ++ [_]) = _
    rw [calls_append]
    simp [acquire, calls]
  by_cases hdis : wb.isDisconnected = true
  · obtain ⟨wc, hc, hmc, htc, hdc, _, _, _, hoc, hhc⟩ :=
      thunkErase_ok t wb hinvb.signalAlive (by rw [hinvb.alive]; exact hal)
    have hpos : 0 < (wc.objects t.receiver).owners + ((wc.objects t.receiver).holds - 1) := by
      rw [hoc, hhc, hown, hhold]; omega
    refine ⟨unhold t.receiver wc, ?_, ?_, ?_, ?_⟩
    · unfold runThunkWith
      rw [if_pos hl, happ]
      simp only []
      rw [if_pos hdis, hc]
      exact release_eq_unhold _ _ hpos
    · show calls wc.trace = _
      rw [htc, htr]
    · show wc.mSlots = _
      rw [hmc, hwbm, ← hwbd, hdis]; simp
    · show wc.isDisconnected = _
      rw [hdc, hwbd]
  · have hpos : 0 < (wb.objects t.receiver).owners + ((wb.objects t.receiver).holds - 1) := by
      rw [hown, hhold]; omega
    refine ⟨unhold t.receiver wb, ?_, ?_, ?_, ?_⟩
    · unfold runThunkWith
      rw [if_pos hl, happ]
      simp only []
      rw [if_neg hdis]
      exact release_eq_unhold _ _ hpos
    · show calls wb.trace = _
      exact htr
    · show wb.mSlots = _
      have : body.any Action.isDisconnect = false := by
        rw [← hwbd]; simpa using hdis
      rw [hwbm, this]; simp
    · show wb.isDisconnected = _
      exact hwbd

/-- Running a queued thunk through `runThunk`, see `runThunkWith_tame`. -/
theorem runThunk_tame (fuel : Nat) (t : Thunk V) (w : World V) (received : List V)
    (body : List (Action V)) (hsig : w.signalAlive = true) (hz : NoZombie w)
    (hl : lockable (w.objects t.receiver) = true)
    (hcall : t.func.call t.args = some (received, body))
    (hall : ∀ a ∈ body, Action.tame w t.receiver a = true)
    (hres : body.countP (Action.resets t.receiver) = 0) :
    ∃ w1, runThunk fuel t w = .ok w1 ∧
      calls w1.trace = calls w.trace ++ [(t.receiver, t.func.target_type, received)] := by
  have hall1 : ∀ a ∈ body, Action.tame (onThread t.thread w) t.receiver a = true := by
    intro a ha
    have := hall a ha
    cases a <;> simpa [Action.tame] using this
  obtain ⟨w1, h1, hc1, _, _⟩ := runThunkWith_tame (invokeSignal fuel) t (onThread t.thread w)
    received body hsig hz hl hcall hall1 hres
  refine ⟨onThread w.current w1, ?_, ?_⟩
  · unfold runThunk
    rw [h1]
  · simpa using hc1

/-- C10, counterexample to the claim as stated: receiver 1 is alive, wants its slots called
on its own thread (thread 0) and the emission runs on thread 5, but it is stack-allocated, so
`receiverWeakPtr.lock()` is null: the emission calls no handler and enqueues no thunk; the
slot stays in the vector. -/
theorem C10_counterexample :
    aliveAfter 1 (andThen (connectAll [plainSlot Nat] (stackReceiverWorld Nat))
        (invokeSignal 1 0 [5])) = some true ∧
    isCross (stackReceiverWorld Nat) (plainSlot Nat) = true ∧
    queueAfter (andThen (connectAll [plainSlot Nat] (stackReceiverWorld Nat))
        (invokeSignal 1 0 [5])) = some [] ∧
    callsAfter (andThen (connectAll [plainSlot Nat] (stackReceiverWorld Nat))
        (invokeSignal 1 0 [5])) = some [] ∧
    slotsAfter (andThen (connectAll [plainSlot Nat] (stackReceiverWorld Nat))
        (invokeSignal 1 0 [5])) = some [(1, 7)] := by
  refine ⟨rfl, rfl, rfl, rfl, rfl⟩

/-- C10, amended: for a slot whose receiver wants its slots called on its own thread, lives
on another thread than the emitting one and can be locked through its weak reference (it is
alive and owned by a shared pointer), emit does not call the handler: the handlers it calls
are those of the same-thread slots; it appends to the queue one thunk per such slot, holding
the receiver, the callable and the emitted arguments; the slot stays in the vector; and
running the thunk while the receiver can still be locked enters the handler exactly once
with the emitted arguments. -/
theorem C10_cross_thread_slot_is_queued_not_called (fuel fuel2 : Nat) (e : ObjId)
    (args : List V) (w : World V)
    (hsig : w.signalAlive = true) (hea : (w.objects e).alive = true) (hz : NoZombie w)
    (ht : ∀ s ∈ w.mSlots, tameSlot w e args s = true)
    (hres : ∀ s ∈ w.mSlots, (s.body args).countP (Action.resets e) = 0) :
    ∃ w1, invokeSignal (fuel + 1) e args w = .ok w1 ∧
      calls w1.trace = calls w.trace ++ (sameThread w w.mSlots).map (callOf args) ∧
      w1.queue = w.queue
        ++ (w.mSlots.filter (fun s => isCross w s && lockable (w.objects s.object))).map
            (fun s => ⟨(w.objects s.object).thread, s.object, s.func, args⟩) ∧
      (∀ s ∈ w.mSlots, isCross w s = true → s ∈ w1.mSlots) ∧
      ∀ s ∈ w.mSlots, isCross w s = true → lockable (w.objects s.object) = true →
        (s.func.call args).isSome = true →
        (∀ a ∈ s.body args, Action.tame w s.object a = true) →
        (s.body args).countP (Action.resets s.object) = 0 →
        ∃ w2, runThunk fuel2 ⟨(w.objects s.object).thread, s.object, s.func, args⟩ w1
            = .ok w2 ∧
          calls w2.trace = calls w1.trace ++ [callOf args s] := by
  obtain ⟨w1, h1, hem⟩ := invokeSignal_quiet fuel e args w hsig hea hz ht
    (resetCount_eq_zero w e args w.mSlots (fun s hs _ => hres s hs))
  have hfr := hem.frame hsig
  refine ⟨w1, h1, hem.calls_eq, hem.queue, ?_, ?_⟩
  · intro s hs hc
    rw [hem.mSlots]
    apply List.mem_append_left
    exact List.mem_filter.mpr ⟨hs, by simp [survives, hc]⟩
  · intro s hs hc hl hsome hall hr0
    obtain ⟨⟨received, body⟩, hcall⟩ := Option.isSome_iff_exists.mp hsome
    have hb : s.body args = body := by simp [slot.body, hcall]
    have hrcv : s.received args = received := by simp [slot.received, hcall]
    rw [hb] at hall hr0
    obtain ⟨w2, h2, hc2⟩ := runThunk_tame fuel2
      ⟨(w.objects s.object).thread, s.object, s.func, args⟩ w1 received body hem.signalAlive
      (hfr.noZombie hz) (by rw [hfr.lockable_eq]; exact hl) hcall
      (by intro a ha; rw [hfr.tame_eq]; exact hall a ha) hr0
    exact ⟨w2, h2, by rw [hc2]; simp [callOf, hrcv]⟩

/-- Witness for C10, test `Multithread`: the emission runs on a worker thread; the handler
of the heap receiver 1 is not called by it, one thunk with the emitted arguments is queued
for thread 0, and running the thunk calls the handler once with those arguments. -/
theorem C10_witness :
    ∃ w1 w2, invokeSignal (0 + 1) 0 [5] (workerFixtureWith [plainSlot Nat]) = .ok w1 ∧
      calls w1.trace = [] ∧
      w1.queue.map (fun t => (t.thread, t.receiver, t.func.target_type, t.args))
        = [(0, 1, 7, [5])] ∧
      plainSlot Nat ∈ w1.mSlots ∧
      runThunk 1 ⟨0, 1, (plainSlot Nat).func, [5]⟩ w1 = .ok w2 ∧
      calls w2.trace = [(1, 7, [5])] := by
  obtain ⟨w1, h1, hc, hq, hin, hrun⟩ :=
    C10_cross_thread_slot_is_queued_not_called 0 1 0 [5] (workerFixtureWith [plainSlot Nat])
      rfl rfl (fun _ _ => rfl)
      (by intro s hs; simp [workerFixtureWith, fixtureWith] at hs; subst hs; rfl)
      (by intro s hs; simp [workerFixtureWith, fixtureWith] at hs; subst hs; rfl)
  obtain ⟨w2, h2, hc2⟩ := hrun (plainSlot Nat) (by simp [workerFixtureWith, fixtureWith])
    rfl rfl rfl (by intro a ha; simp [slot.body, plainSlot, func_t.call] at ha) rfl
  refine ⟨w1, w2, h1, by rw [hc]; rfl, by rw [hq]; rfl,
    hin _ (by simp [workerFixtureWith, fixtureWith]) rfl, h2, by rw [hc2, hc]; rfl⟩

theorem onThread_back (th : ThreadId) (w : World V) :
    onThread w.current (onThread th w) = w := by
  cases w; rfl

/-- C11: a queued thunk run when the weak reference to its receiver no longer resolves (in
particular after the receiver has been destroyed) returns normally and leaves the world as
it was: no handler is invoked, the slot vector and the disconnect flag are unchanged. -/
theorem C11_thunk_of_dead_receiver_does_nothing (fuel : Nat) (t : Thunk V) (w : World V)
    (hgone : lockable (w.objects t.receiver) = false) :
    runThunk fuel t w = .ok w ∧
      callsAfter (runThunk fuel t w) = some (calls w.trace) ∧
      slotsAfter (runThunk fuel t w) = some (w.mSlots.map slot.key) := by
  have h : runThunk fuel t w = .ok w := by
    have hg : ¬ lockable ((onThread t.thread w).objects t.receiver) = true := by
      simp [hgone]
    unfold runThunk runThunkWith
    rw [if_neg hg]
    simp only []
    rw [onThread_back]
  rw [h]
  exact ⟨rfl, rfl, rfl⟩

/-- Witness for C11: the thunk queued for receiver 1 is run after receiver 1 has been torn
down. -/
theorem C11_witness :
    runThunk 1 ⟨0, 1, (plainSlot Nat).func, [5]⟩
        (tornDown 1 (workerFixtureWith [plainSlot Nat]))
      = .ok (tornDown 1 (workerFixtureWith [plainSlot Nat])) ∧
    ((tornDown 1 (workerFixtureWith [plainSlot Nat])).objects 1).alive = false :=
  ⟨(C11_thunk_of_dead_receiver_does_nothing 1 ⟨0, 1, (plainSlot Nat).func, [5]⟩
      (tornDown 1 (workerFixtureWith [plainSlot Nat])) rfl).1, rfl⟩

/-- C12, the code at the failing input: receiver 1 has two slots made by the
member-function overload of `connect` from two member functions of one class and one
signature, `acceptMessage` (plain) first and a disconnecting one second; the emission runs
on a worker thread and queues one thunk per slot.  When the thunk of the second slot runs
and its handler calls `disconnect()`, `removeFirst` erases the first slot that compares
equal, which is the plain one: the slot left in the vector is the disconnecting one. -/
theorem C12_thunk_erases_another_slot :
    handlersAfter [5] (andThen (andThen (connectMember 1 1 acceptMessageMember
        (workerFixture Nat)) (connectMember 1 1 acceptAndLeaveMember))
        (invokeSignal 1 0 [5]))
      = some [((1, Nat.pair 1 3), false), ((1, Nat.pair 1 3), true)] ∧
    queueAfter (andThen (andThen (connectMember 1 1 acceptMessageMember
        (workerFixture Nat)) (connectMember 1 1 acceptAndLeaveMember))
        (invokeSignal 1 0 [5]))
      = some [(0, 1, Nat.pair 1 3, [5]), (0, 1, Nat.pair 1 3, [5])] ∧
    handlersAfter [5] (andThen (andThen (andThen (connectMember 1 1 acceptMessageMember
        (workerFixture Nat)) (connectMember 1 1 acceptAndLeaveMember))
        (invokeSignal 1 0 [5])) (runQueued 1 1))
      = some [((1, Nat.pair 1 3), true)] := by
  refine ⟨by decide!, by decide!, by decide!⟩

theorem invokeLoop_flag (emitF : ObjId → List V → World V → Res V) (ep : Option ObjId)
    (args : List V) (b : Bool) (rest : List (slot V)) :
    ∀ (kept : List (slot V)) (rp : Option ObjId) (w : World V),
      clearFlag (invokeLoop emitF ep args kept rest rp (setFlag b w))
        = clearFlag (invokeLoop emitF ep args kept rest rp w) := by
  induction rest with
  | nil => intro kept rp w; rfl
  | cons s rest ih =>
    intro kept rp w
    by_cases ha : (w.objects s.object).alive = true
    · by_cases hc : ((w.objects s.object).slotsCallsOnlyOnMyThread
          && (w.objects s.object).thread != w.current) = true
      · by_cases hl : lockable (w.objects s.object) = true
        · have h1 : invokeLoop emitF ep args kept (s :: rest) rp (setFlag b w)
              = invokeLoop emitF ep args (kept ++ [s]) rest rp
                  (setFlag b { w with queue := w.queue
                    ++ [⟨(w.objects s.object).thread, s.object, s.func, args⟩] }) := by
            rw [invokeLoop]
            simp only [setFlag]
            rw [if_pos ha, if_pos hc, if_pos hl]
          have h2 : invokeLoop emitF ep args kept (s :: rest) rp w
              = invokeLoop emitF ep args (kept ++ [s]) rest rp
                  { w with queue := w.queue
                    ++ [⟨(w.objects s.object).thread, s.object, s.func, args⟩] } := by
            rw [invokeLoop, if_pos ha, if_pos hc, if_pos hl]
          rw [h1, h2]
          exact ih _ _ _
        · have h1 : invokeLoop emitF ep args kept (s :: rest) rp (setFlag b w)
              = invokeLoop emitF ep args (kept ++ [s]) rest rp (setFlag b w) := by
            rw [invokeLoop]
            simp only [setFlag]
            rw [if_pos ha, if_pos hc, if_neg hl]
          have h2 : invokeLoop emitF ep args kept (s :: rest) rp w
              = invokeLoop emitF ep args (kept ++ [s]) rest rp w := by
            rw [invokeLoop, if_pos ha, if_pos hc, if_neg hl]
          rw [h1, h2]
          exact ih _ _ _
      · have h1 : invokeLoop emitF ep args kept (s :: rest) rp (setFlag b w)
            = invokeLoop emitF ep args kept (s :: rest) rp w := by
          rw [invokeLoop, invokeLoop]
          simp only [setFlag]
          rw [if_pos ha, if_neg hc, if_pos ha, if_neg hc]
        rw [h1]
    · have h1 : invokeLoop emitF ep args kept (s :: rest) rp (setFlag b w)
          = .error .useAfterFree := by
        rw [invokeLoop]
        simp only [setFlag]
        rw [if_neg ha]
      have h2 : invokeLoop emitF ep args kept (s :: rest) rp w = .error .useAfterFree := by
        rw [invokeLoop, if_neg ha]
      rw [h1, h2]

theorem holdEmitter_setFlag (e : ObjId) (b : Bool) (w : World V) :
    detach (holdEmitter e (setFlag b w)) = setFlag b (detach (holdEmitter e w)) := by
  unfold holdEmitter
  by_cases hl : lockable (w.objects e) = true
  · rw [if_pos hl, if_pos (by exact hl)]; rfl
  · rw [if_neg hl, if_neg (by exact hl)]; rfl

theorem invokeSignalWith_flag (emitF : ObjId → List V → World V → Res V) (e : ObjId)
    (args : List V) (b : Bool) (w : World V) (hne : w.mSlots ≠ []) :
    invokeSignalWith emitF e args (setFlag b w) = invokeSignalWith emitF e args w := by
  have hemp : w.mSlots.isEmpty = false := by
    cases hm : w.mSlots with
    | nil => exact absurd hm hne
    | cons _ _ => rfl
  have hemp2 : (setFlag b w).mSlots.isEmpty = false := hemp
  have key := invokeLoop_flag emitF (emitterHold w e) args b w.mSlots [] none
    (detach (holdEmitter e w))
  by_cases hsig : w.signalAlive = true
  · by_cases hea : (w.objects e).alive = true
    · have hsig2 : (setFlag b w).signalAlive = true := hsig
      have hea2 : ((setFlag b w).objects e).alive = true := hea
      unfold invokeSignalWith
      rw [if_pos hsig, if_pos hsig2, hemp, hemp2, if_pos hea, if_pos hea2]
      simp only [Bool.false_eq_true, if_false]
      rw [holdEmitter_setFlag]
      have hep : emitterHold (setFlag b w) e = emitterHold w e := rfl
      have hms : (setFlag b w).mSlots = w.mSlots := rfl
      rw [hep, hms]
      cases h1 : invokeLoop emitF (emitterHold w e) args [] w.mSlots none
          (setFlag b (detach (holdEmitter e w))) with
      | error e1 =>
        cases h2 : invokeLoop emitF (emitterHold w e) args [] w.mSlots none
            (detach (holdEmitter e w)) with
        | error e2 =>
          rw [h1, h2] at key
          simp only [clearFlag] at key
          rw [Except.error.injEq] at key
          rw [key]
        | ok r2 =>
          rw [h1, h2] at key
          obtain ⟨k2, p2, w2⟩ := r2
          simp [clearFlag] at key
      | ok r1 =>
        obtain ⟨k1, p1, w1⟩ := r1
        cases h2 : invokeLoop emitF (emitterHold w e) args [] w.mSlots none
            (detach (holdEmitter e w)) with
        | error e2 =>
          rw [h1, h2] at key
          simp [clearFlag] at key
        | ok r2 =>
          obtain ⟨k2, p2, w2⟩ := r2
          rw [h1, h2] at key
          simp only [clearFlag, Except.ok.injEq, Prod.mk.injEq] at key
          obtain ⟨hk, hp, hw⟩ := key
          have hs : (setFlag false w1).signalAlive = (setFlag false w2).signalAlive :=
            congrArg World.signalAlive hw
          have hs : w1.signalAlive = w2.signalAlive := hs
          have hr : reconcile k1 w1 = reconcile k2 w2 := by
            have e1 : reconcile k1 w1 = reconcile k1 (setFlag false w1) := rfl
            have e2 : reconcile k2 w2 = reconcile k2 (setFlag false w2) := rfl
            rw [e1, e2, hk, hw]
          simp only [hs, hr, hp]
    · have hea2 : ¬ ((setFlag b w).objects e).alive = true := hea
      have hsig2 : (setFlag b w).signalAlive = true := hsig
      unfold invokeSignalWith
      rw [if_pos hsig, if_pos hsig2, hemp, hemp2, if_neg hea, if_neg hea2]
      rfl
  · have hsig2 : ¬ (setFlag b w).signalAlive = true := hsig
    unfold invokeSignalWith
    rw [if_neg hsig, if_neg hsig2]

theorem invokeSignal_flag (fuel : Nat) (e : ObjId) (args : List V) (b : Bool) (w : World V) :
    Except.map (setFlag false) (invokeSignal fuel e args (setFlag b w))
      = Except.map (setFlag false) (invokeSignal fuel e args w) ∧
    (w.mSlots = [] ∨ invokeSignal fuel e args (setFlag b w) = invokeSignal fuel e args w) := by
  cases fuel with
  | zero => exact ⟨rfl, Or.inr rfl⟩
  | succ fuel =>
    by_cases hne : w.mSlots = []
    · refine ⟨?_, Or.inl hne⟩
      show Except.map (setFlag false) (invokeSignalWith (invokeSignal fuel) e args (setFlag b w))
        = Except.map (setFlag false) (invokeSignalWith (invokeSignal fuel) e args w)
      have hemp : w.mSlots.isEmpty = true := by rw [hne]; rfl
      have hemp2 : (setFlag b w).mSlots.isEmpty = true := hemp
      unfold invokeSignalWith
      by_cases hsig : w.signalAlive = true
      · have hsig2 : (setFlag b w).signalAlive = true := hsig
        rw [if_pos hsig, if_pos hsig2, if_pos hemp, if_pos hemp2]
        rfl
      · have hsig2 : ¬ (setFlag b w).signalAlive = true := hsig
        rw [if_neg hsig, if_neg hsig2]
    · have h := invokeSignalWith_flag (invokeSignal fuel) e args b w hne
      have h2 : invokeSignal (fuel + 1) e args (setFlag b w)
          = invokeSignal (fuel + 1) e args w := h
      exact ⟨by rw [h2], Or.inr h2⟩

theorem callsAfter_map_setFlag (b : Bool) (r : Res V) :
    callsAfter (Except.map (setFlag b) r) = callsAfter r := by
  cases r <;> rfl

theorem slotsAfter_map_setFlag (b : Bool) (r : Res V) :
    slotsAfter (Except.map (setFlag b) r) = slotsAfter r := by
  cases r <;> rfl

/-- C15: `disconnect()` called outside any handler has no effect on a later emission.
Whatever the handlers do, the emission started with the disconnect flag set to any value
`b` yields what the emission started from the same world yields, the final value of the flag
apart (it can only differ when the signal has no slot, where the emission does nothing): the
same result or error, hence the same handler invocations and the same slot vector. -/
theorem C15_disconnect_outside_a_handler_is_a_no_op (fuel : Nat) (e : ObjId) (args : List V)
    (b : Bool) (w : World V) :
    Except.map (setFlag false) (invokeSignal fuel e args (setFlag b w))
      = Except.map (setFlag false) (invokeSignal fuel e args w) ∧
    (w.mSlots = [] ∨ invokeSignal fuel e args (setFlag b w) = invokeSignal fuel e args w) ∧
    callsAfter (invokeSignal fuel e args (setFlag b w))
      = callsAfter (invokeSignal fuel e args w) ∧
    slotsAfter (invokeSignal fuel e args (setFlag b w))
      = slotsAfter (invokeSignal fuel e args w) := by
  obtain ⟨h1, h2⟩ := invokeSignal_flag fuel e args b w
  refine ⟨h1, h2, ?_, ?_⟩
  · rw [← callsAfter_map_setFlag false, h1, callsAfter_map_setFlag]
  · rw [← slotsAfter_map_setFlag false, h1, slotsAfter_map_setFlag]

theorem runBody_append (emitF : ObjId → List V → World V → Res V) (b1 b2 : List (Action V)) :
    ∀ w w1 : World V, runBody emitF b1 w = .ok w1 →
      runBody emitF (b1 ++ b2) w = runBody emitF b2 w1 := by
  induction b1 with
  | nil =>
    intro w w1 h
    simp only [runBody, Except.ok.injEq] at h
    subst h
    rfl
  | cons a rest ih =>
    intro w w1 h
    rw [List.cons_append, runBody]
    rw [runBody] at h
    cases ha : runAction emitF a w with
    | error err => rw [ha] at h; simp at h
    | ok w2 =>
      rw [ha] at h
      exact ih w2 w1 h

/-- The loop over a vector whose first part is dispatched normally goes on with the rest
from the state the first part leaves. -/
theorem invokeLoop_append (emitF : ObjId → List V → World V → Res V) (ep : Option ObjId)
    (args : List V) (pre tail : List (slot V)) :
    ∀ (kept : List (slot V)) (rp : Option ObjId) (w : World V) (kept1 : List (slot V))
      (rp1 : Option ObjId) (w1 : World V),
      invokeLoop emitF ep args kept pre rp w = .ok (kept1, rp1, w1) →
      invokeLoop emitF ep args kept (pre ++ tail) rp w
        = invokeLoop emitF ep args kept1 tail rp1 w1 := by
  induction pre with
  | nil =>
    intro kept rp w kept1 rp1 w1 h
    simp only [invokeLoop, Except.ok.injEq, Prod.mk.injEq] at h
    obtain ⟨h1, h2, h3⟩ := h
    subst h1 h2 h3
    rfl
  | cons s pre ih =>
    intro kept rp w kept1 rp1 w1 h
    rw [List.cons_append, invokeLoop]
    rw [invokeLoop] at h
    by_cases ha : (w.objects s.object).alive = true
    · rw [if_pos ha] at h ⊢
      by_cases hc : ((w.objects s.object).slotsCallsOnlyOnMyThread
          && (w.objects s.object).thread != w.current) = true
      · rw [if_pos hc] at h ⊢
        by_cases hl : lockable (w.objects s.object) = true
        · rw [if_pos hl] at h ⊢
          exact ih _ _ _ _ _ _ h
        · rw [if_neg hl] at h ⊢
          exact ih _ _ _ _ _ _ h
      · rw [if_neg hc] at h ⊢
        cases hh : holdReceiver s.object rp { w with isDisconnected := false } with
        | error err => rw [hh] at h; simp at h
        | ok p =>
          obtain ⟨rp2, w2⟩ := p
          rw [hh] at h
          simp only [] at h ⊢
          cases hf : applyFunc emitF s args w2 with
          | error err =>
            rw [hf] at h
            cases err with
            | threw wx =>
              simp only [] at h
              cases hlv : leave (kept ++ s :: pre) rp2 ep wx with
              | error e2 => rw [hlv] at h; simp at h
              | ok w3 => rw [hlv] at h; simp at h
            | useAfterFree => simp at h
            | illTyped => simp at h
            | outOfFuel => simp at h
          | ok w3 =>
            rw [hf] at h
            simp only [] at h ⊢
            by_cases hd : w3.isDisconnected = true
            · rw [if_pos hd] at h ⊢
              cases hu : unlinkSlot s.object w3 with
              | error err => rw [hu] at h; simp at h
              | ok w4 =>
                rw [hu] at h
                exact ih _ _ _ _ _ _ h
            · rw [if_neg hd] at h ⊢
              exact ih _ _ _ _ _ _ h
    · rw [if_neg ha] at h
      simp at h

theorem leave_slots {w0 : World V} {e : ObjId} {ep rp : Option ObjId} (slots : List (slot V))
    (w : World V) (h : Inv w0 e ep rp w) :
    ∃ w1, leave slots rp ep w = releaseOpt ep w1 ∧ Inv w0 e ep none w1 ∧
      w1.mSlots = w.mSlots ∧ w1.isDisconnected = w.isDisconnected ∧
      w1.trace = w.trace ++ slots.map (dropEvent w.lockDepth) ∧
      w1.queue = w.queue ∧ w1.lockDepth = w.lockDepth - 1 ∧
      (w1.objects e).owners = (w.objects e).owners := by
  have hinv : Inv w0 e ep rp
      { w with
        trace := w.trace ++ slots.map (dropEvent w.lockDepth)
        lockDepth := w.lockDepth - 1 } :=
    h.of_same rfl rfl rfl (fun _ => rfl) (fun _ => rfl) (fun _ => rfl) (fun _ => rfl)
      (fun _ => rfl)
  obtain ⟨w1, h1, hinv1, hm1, hf1, ht1, hq1, hl1, ho1⟩ := releaseOpt_receiver _ hinv
  refine ⟨w1, ?_, hinv1, hm1, hf1, ht1, hq1, hl1, ho1⟩
  unfold leave
  rw [if_pos h.signalAlive, h1]

/-- The last step of `invokeSignal`, giving up `emitterPtr`, when the handlers have dropped
no owning reference to the emitter: nothing is destroyed, and the objects are as they were
when the emission started. -/
theorem Inv.finish_release {w0 : World V} {e : ObjId} {ep : Option ObjId} {w4 : World V}
    (h : Inv w0 e ep none w4) (hsig : w0.signalAlive = true)
    (hoe : (w4.objects e).owners = (w0.objects e).owners) :
    ∃ w5, releaseOpt ep w4 = .ok w5 ∧ w5.trace = w4.trace ∧ w5.mSlots = w4.mSlots ∧
      w5.lockDepth = w4.lockDepth ∧ w5.isDisconnected = w4.isDisconnected ∧
      w5.queue = w4.queue ∧ w5.signalAlive = true ∧
      (w4.lockDepth = w0.lockDepth → Frame w0 w5) := by
  rcases h.ep_cases with ⟨hep, hl⟩ | ⟨hep, ho0, hh0⟩
  · have hhe := h.holds e
    rw [hep, held1_self, held1_none] at hhe
    have hpos : 0 < (w4.objects e).owners + ((w4.objects e).holds - 1) := by
      simp only [lockable, Bool.and_eq_true, decide_eq_true_eq] at hl
      rw [hoe, hhe]
      omega
    refine ⟨unhold e w4, ?_, rfl, rfl, rfl, rfl, rfl, h.signalAlive, ?_⟩
    · rw [hep]
      exact release_eq_unhold e w4 hpos
    · intro hld
      exact
        { signalAlive := by
            rw [show (unhold e w4).signalAlive = w4.signalAlive from rfl, h.signalAlive, hsig]
          owner := h.owner, current := h.current, lockDepth := hld
          alive := fun o => by simp [h.alive]
          thread := fun o => by simp [h.thread]
          policy := fun o => by simp [h.policy]
          owners := fun o => by
            by_cases hx : o = e
            · subst hx; simp [hoe]
            · simp [h.owners o hx]
          holds := fun o => by
            have := h.holds o
            rw [unhold_holds, this, hep, held1_none]
            omega }
  · refine ⟨w4, by rw [hep]; rfl, rfl, rfl, rfl, rfl, rfl, h.signalAlive, ?_⟩
    intro hld
    exact
      { signalAlive := by rw [h.signalAlive, hsig]
        owner := h.owner, current := h.current, lockDepth := hld
        alive := h.alive, thread := h.thread, policy := h.policy
        owners := fun o => by
          by_cases hx : o = e
          · subst hx; exact hoe
          · exact h.owners o hx
        holds := fun o => by
          have := h.holds o
          rw [this, hep]
          simp }

/-- A dispatch in which the handlers before slot `s` are tame, and the handler of `s` raises
after a tame beginning `b1`: the emission ends with the error, in a world that records the
events of the slots before `s`, the call of `s` and the destruction of the detached vector,
and whose live vector holds the slots connected during the emission. -/
theorem invokeSignal_raise (fuel : Nat) (e : ObjId) (args : List V) (w : World V)
    (pre : List (slot V)) (s : slot V) (post : List (slot V)) (received : List V)
    (b1 b2 : List (Action V))
    (hsig : w.signalAlive = true) (hea : (w.objects e).alive = true) (hz : NoZombie w)
    (hm : w.mSlots = pre ++ s :: post)
    (hpre : ∀ p ∈ pre, tameSlot w e args p = true)
    (hres : resetCount w e args pre = 0)
    (hsa : (w.objects s.object).alive = true) (hsc : isCross w s = false)
    (hcall : s.func.call args = some (received, b1 ++ Action.raise :: b2))
    (hb1 : ∀ a ∈ b1, Action.tame w e a = true)
    (hb1r : b1.countP (Action.resets e) = 0) :
    ∃ w1, invokeSignal (fuel + 1) e args w = .error (.threw w1) ∧
      w1.trace = w.trace ++ pre.flatMap (slotEvents w args)
        ++ [.call s.object s.func.target_type received (w.lockDepth + 1)]
        ++ (pre.filter (survives w args) ++ s :: post).map (dropEvent (w.lockDepth + 1)) ∧
      w1.mSlots = pre.flatMap (added w args) ++ b1.filterMap Action.connected ∧
      w1.lockDepth = w.lockDepth ∧ w1.signalAlive = true ∧ Frame w w1 := by
  have hemp : w.mSlots.isEmpty = false := by rw [hm]; cases pre <;> rfl
  have hinv := Inv.start e w hsig hea hz
  obtain ⟨hf1, hf2, hf3, hf4, hf5, hf6, hf7⟩ := holdEmitter_fields e w
  have hoe0 : ((detach (holdEmitter e w)).objects e).owners = (w.objects e).owners := by
    rw [detach_objects]; unfold holdEmitter; split_ifs <;> simp
  -- the slots before `s`
  obtain ⟨rp1, w1, h1, hinv1, hd1, hm1, ht1, hq1, ho1⟩ :=
    invokeLoop_tame (invokeSignal fuel) args pre [] none _ hinv (by simp [hf4]) hpre
  have happ := invokeLoop_append (invokeSignal fuel) (emitterHold w e) args pre (s :: post)
    [] none _ _ _ _ h1
  -- the slot `s`
  have hal1 : (w1.objects s.object).alive = true := by rw [hinv1.alive]; exact hsa
  have hc1 : ¬ ((w1.objects s.object).slotsCallsOnlyOnMyThread
      && (w1.objects s.object).thread != w1.current) = true := by
    rw [hinv1.isCross_start s, hsc]; simp
  have hinv1f : Inv w e (emitterHold w e) rp1 { w1 with isDisconnected := false } :=
    hinv1.of_same rfl rfl rfl (fun _ => rfl) (fun _ => rfl) (fun _ => rfl) (fun _ => rfl)
      (fun _ => rfl)
  obtain ⟨rp2, w2, h2, hinv2, hm2, _, ht2, hq2, hl2, ho2⟩ := holdReceiver_tame s.object _ hinv1f
  have hinv2l : Inv w e (emitterHold w e) rp2
      (w2.log (.call s.object s.func.target_type received w2.lockDepth)) :=
    hinv2.of_same rfl rfl rfl (fun _ => rfl) (fun _ => rfl) (fun _ => rfl) (fun _ => rfl)
      (fun _ => rfl)
  obtain ⟨w3, h3, hinv3, hm3, _, ht3, hq3, hl3, ho3⟩ :=
    runBody_tame (invokeSignal fuel) b1 _ hinv2l hb1
  have hbody : runBody (invokeSignal fuel) (b1 ++ Action.raise :: b2)
      (w2.log (.call s.object s.func.target_type received w2.lockDepth))
        = .error (.threw w3) := by
    rw [runBody_append _ b1 _ _ _ h3]
    rfl
  have happly : applyFunc (invokeSignal fuel) s args w2 = .error (.threw w3) := by
    unfold applyFunc
    rw [hcall]
    exact hbody
  obtain ⟨w4, h4, hinv4, hm4, _, ht4, hq4, hl4, ho4⟩ :=
    leave_slots ([] ++ pre.filter (survives w args) ++ s :: post) w3 hinv3
  have hoe : (w4.objects e).owners = (w.objects e).owners := by
    rw [ho4, ho3, hb1r]
    show (w2.objects e).owners - 0 = _
    rw [ho2]
    show (w1.objects e).owners - 0 = _
    rw [ho1, hres, hoe0]
    simp
  have hld3 : w3.lockDepth = w.lockDepth + 1 := by
    rw [hl3]
    show w2.lockDepth = _
    rw [hl2]
    show w1.lockDepth = _
    rw [hd1, detach_lockDepth, hf4]
  have htr3 : w3.trace = w.trace ++ pre.flatMap (slotEvents w args)
      ++ [.call s.object s.func.target_type received (w.lockDepth + 1)] := by
    rw [ht3]
    show w2.trace ++ [Event.call s.object s.func.target_type received w2.lockDepth] = _
    rw [ht2, hl2]
    show w1.trace ++ [Event.call s.object s.func.target_type received w1.lockDepth] = _
    rw [ht1, hd1, detach_trace, detach_lockDepth, hf5, hf4]
  have hms3 : w3.mSlots = pre.flatMap (added w args) ++ b1.filterMap Action.connected := by
    rw [hm3]
    show w2.mSlots ++ _ = _
    rw [hm2]
    show w1.mSlots ++ _ = _
    rw [hm1, detach_mSlots, List.nil_append]
  -- the last step: `emitterPtr` is given up
  have hld4 : w4.lockDepth = w.lockDepth := by rw [hl4, hld3]; simp
  obtain ⟨w5, h5, ht5, hm5, hl5, _, _, hs5, hfr5⟩ := hinv4.finish_release hsig hoe
  have hloop : invokeLoop (invokeSignal fuel) (emitterHold w e) args [] (pre ++ s :: post) none
      (detach (holdEmitter e w)) = .error (.threw w5) := by
    rw [happ, invokeLoop, if_pos hal1, if_neg hc1, h2]
    simp only []
    rw [happly]
    simp only []
    rw [h4, h5]
  refine ⟨w5, ?_, ?_, ?_, ?_, hs5, hfr5 hld4⟩
  · show invokeSignalWith (invokeSignal fuel) e args w = _
    unfold invokeSignalWith
    rw [if_pos hsig, hemp, if_neg (by simp), if_pos hea, hm, hloop]
  · rw [ht5, ht4, htr3, hld3]
    simp
  · rw [hm5, hm4, hms3]
  · rw [hl5, hl4, hld3]
    simp

/-- C16: when the handler of a same-thread slot `s` raises (here after statements `b1` that
only disconnect or connect), the emission ends with that error at its caller, and the
handlers it has invoked are those of the same-thread slots before `s`, in order, followed
by the handler of `s`: no slot after `s` in the snapshot is invoked. -/
theorem C16_raising_handler_aborts_the_emission (fuel : Nat) (e : ObjId) (args : List V)
    (w : World V) (pre : List (slot V)) (s : slot V) (post : List (slot V))
    (received : List V) (b1 b2 : List (Action V))
    (hsig : w.signalAlive = true) (hea : (w.objects e).alive = true) (hz : NoZombie w)
    (hm : w.mSlots = pre ++ s :: post)
    (hpre : ∀ p ∈ pre, tameSlot w e args p = true)
    (hres : ∀ p ∈ pre, (p.body args).countP (Action.resets e) = 0)
    (hsa : (w.objects s.object).alive = true) (hsc : isCross w s = false)
    (hcall : s.func.call args = some (received, b1 ++ Action.raise :: b2))
    (hb1 : ∀ a ∈ b1, Action.tame w e a = true)
    (hb1r : b1.countP (Action.resets e) = 0) :
    ∃ w1, invokeSignal (fuel + 1) e args w = .error (.threw w1) ∧
      calls w1.trace = calls w.trace ++ (sameThread w pre).map (callOf args)
        ++ [(s.object, s.func.target_type, received)] := by
  obtain ⟨w1, h1, ht, _, _, _⟩ := invokeSignal_raise fuel e args w pre s post received b1 b2
    hsig hea hz hm hpre (resetCount_eq_zero w e args pre (fun p hp _ => hres p hp))
    hsa hsc hcall hb1 hb1r
  refine ⟨w1, h1, ?_⟩
  rw [ht, calls_append, calls_append, calls_append, calls_slotEvents, calls_map_dropEvent]
  simp [calls]

/-- Witness for C16: of the three slots, the second raises; the emission ends with the
error after the handlers of the first and the second slot, and the third is not invoked. -/
theorem C16_witness :
    ∃ w1, invokeSignal (0 + 1) 0 [5]
        (fixtureWith [plainSlot Nat, raisingSlot Nat, otherSlot Nat]) = .error (.threw w1) ∧
      calls w1.trace = [(1, 7, [5]), (1, 4, [5])] := by
  obtain ⟨w1, h1, h2⟩ :=
    C16_raising_handler_aborts_the_emission 0 0 [5]
      (fixtureWith [plainSlot Nat, raisingSlot Nat, otherSlot Nat])
      [plainSlot Nat] (raisingSlot Nat) [otherSlot Nat] [5] [] []
      rfl rfl (fun _ _ => rfl) rfl
      (by intro p hp; rw [List.mem_singleton.mp hp]; rfl)
      (by intro p hp; rw [List.mem_singleton.mp hp]; rfl)
      rfl rfl rfl (by intro a ha; cases ha) rfl
  exact ⟨w1, h1, by rw [h2]; rfl⟩

/-- C17, the code at the failing input: receiver 1 has one slot whose handler evaluates the
signal in a boolean context.  Before the emission `operator bool` is true; inside the
handler, while the slot vector is detached for the dispatch, it answers false although the
slot is connected; after the emission the slot is still there and it is true again. -/
theorem C17_operator_bool_is_false_inside_a_handler :
    toBoolAfter (connectAll [queryingSlot Nat] (fixture Nat)) = some true ∧
    asksAfter (andThen (connectAll [queryingSlot Nat] (fixture Nat))
        (invokeSignal 1 0 [5])) = some [false] ∧
    slotsAfter (andThen (connectAll [queryingSlot Nat] (fixture Nat))
        (invokeSignal 1 0 [5])) = some [(1, 7)] ∧
    toBoolAfter (andThen (connectAll [queryingSlot Nat] (fixture Nat))
        (invokeSignal 1 0 [5])) = some true := by
  refine ⟨by decide!, by decide!, by decide!, by decide!⟩

theorem Sound.idle {σ : Type} (st : Lookup σ) : Sound st (false, st) :=
  ⟨[], by simp, fun _ x hx => (by cases hx), fun h => (by cases h)⟩

theorem Sound.extend {σ : Type} {st st1 : Lookup σ} {res : Bool × Lookup σ}
    (h1 : Sound st (false, st1)) (h2 : Sound st1 res) : Sound st res := by
  obtain ⟨a1, e1, q1, _⟩ := h1
  obtain ⟨a2, e2, q2, t2⟩ := h2
  refine ⟨a1 ++ a2, by rw [e2, e1, List.append_assoc], ?_, ?_⟩
  · intro hf x hx
    rcases List.mem_append.mp hx with hx | hx
    · exact q1 rfl x hx
    · exact q2 hf x hx
  · intro ht
    obtain ⟨fs, x, hfs, hq, hx⟩ := t2 ht
    refine ⟨a1 ++ fs, x, by rw [hfs, List.append_assoc], ?_, hx⟩
    intro y hy
    rcases List.mem_append.mp hy with hy | hy
    · exact q1 rfl y hy
    · exact hq y hy

theorem callCallback_sound {σ : Type} (callback : AView → σ → Bool × σ) (view : AView)
    (st : Lookup σ) : Sound st (callCallback callback view st) := by
  refine ⟨[(view.id, (callback view st.1).1)], rfl, ?_, ?_⟩
  · intro hf x hx
    rw [List.mem_singleton.mp hx]
    exact hf
  · intro ht
    exact ⟨[], _, rfl, fun x hx => (by cases hx), ht⟩

theorem finish_sound {σ : Type} {st : Lookup σ} (res : Step σ × Lookup σ)
    (h : SoundStep st res) : Sound st (finish res) := by
  obtain ⟨step, st1⟩ := res
  cases step with
  | returned r => exact h
  | next possibleOutput =>
    cases possibleOutput with
    | none => exact h.1
    | some p =>
      obtain ⟨v, processIt⟩ := p
      exact Sound.extend h.1 (h.2 v processIt rfl st1)

mutual
theorem process_sound {σ : Type} (callback : AView → σ → Bool × σ) (flags : Nat) :
    ∀ (view : AView) (pos : Int × Int) (st : Lookup σ),
      Sound st (process callback flags view pos st)
  | .mk id position size visibility consumesClick container mViews, pos, st => by
    have hc := callCallback_sound callback
      (.mk id position size visibility consumesClick container mViews) st
    rw [process]
    cases hcb : callCallback callback
        (.mk id position size visibility consumesClick container mViews) st with
    | mk b st1 =>
      rw [hcb] at hc
      cases b with
      | true => exact hc
      | false =>
        simp only []
        by_cases hct : container = true
        · rw [if_pos hct]
          exact Sound.extend hc
            (finish_sound _ (lookupLoop_sound callback flags mViews (pos - position) st1))
        · rw [if_neg hct]
          exact hc
theorem lookupLoop_sound {σ : Type} (callback : AView → σ → Bool × σ) (flags : Nat) :
    ∀ (views : AViews) (pos : Int × Int) (st : Lookup σ),
      SoundStep st (lookupLoop callback flags views pos st)
  | .nil, pos, st => by
    rw [lookupLoop]
    exact ⟨Sound.idle st, fun v k h => by cases h⟩
  | .cons view rest, pos, st => by
    have ih := lookupLoop_sound callback flags rest pos st
    have hp := fun s => process_sound callback flags view pos s
    rw [lookupLoop]
    cases hl : lookupLoop callback flags rest pos st with
    | mk step st1 =>
      rw [hl] at ih
      cases step with
      | returned r => exact ih
      | next possibleOutput =>
        have hnew : ∀ v k, some (view, process callback flags view pos) = some (v, k) →
            ∀ st2, Sound st2 (k st2) := by
          intro v k hk st2
          simp only [Option.some.injEq, Prod.mk.injEq] at hk
          rw [← hk.2]
          exact hp st2
        have hs := hp st1
        simp only []
        cases hpr : process callback flags view pos st1 with
        | mk b st2 =>
          rw [hpr] at hs
          cases possibleOutput <;> cases b <;> simp only [] <;> split_ifs <;>
            first
              | exact ih
              | exact Sound.extend ih.1 hs
              | exact And.intro (Sound.extend ih.1 hs) ih.2
              | exact And.intro ih.1 hnew
end

theorem getViewAtRecursive_sound {σ : Type} (self : AView) (pos : Int × Int)
    (callback : AView → σ → Bool × σ) (flags : Nat) (st : Lookup σ) :
    Sound st (getViewAtRecursive self pos callback flags st) :=
  finish_sound _ (lookupLoop_sound callback flags self.mViews pos st)

/-- C18: `getViewAtRecursive(pos, callback, flags)` is a total function of the view tree
(it is defined by recursion on the tree, so it returns for every finite tree); run with an
empty log, it returns true exactly when some call of the callback returned true, and a call
that returned true is the last call made. -/
theorem C18_lookup_true_iff_callback_true {σ : Type} (self : AView) (pos : Int × Int)
    (callback : AView → σ → Bool × σ) (flags : Nat) (s : σ) :
    ((getViewAtRecursive self pos callback flags (s, [])).1 = true ↔
        ∃ x ∈ (getViewAtRecursive self pos callback flags (s, [])).2.2, x.2 = true) ∧
    ∀ fs x rest, (getViewAtRecursive self pos callback flags (s, [])).2.2 = fs ++ x :: rest →
      x.2 = true → rest = [] := by
  obtain ⟨added, hlog, hq, ht⟩ := getViewAtRecursive_sound self pos callback flags (s, [])
  simp only [List.nil_append] at hlog
  rw [hlog]
  cases hr : (getViewAtRecursive self pos callback flags (s, [])).1 with
  | false =>
    have hqa := hq hr
    refine ⟨⟨fun h => (by cases h), ?_⟩, ?_⟩
    · rintro ⟨x, hx, hxt⟩
      rw [hqa x hx] at hxt
      cases hxt
    · intro fs x rest hsplit hxt
      have := hqa x (by rw [hsplit]; simp)
      rw [this] at hxt
      cases hxt
  | true =>
    obtain ⟨fs0, x0, hadd, hq0, hx0⟩ := ht hr
    refine ⟨⟨fun _ => ⟨x0, by rw [hadd]; simp, hx0⟩, fun _ => rfl⟩, ?_⟩
    intro fs x rest hsplit hxt
    rw [hadd] at hsplit
    by_contra hne
    obtain ⟨rest1, y, hry⟩ : ∃ rest1 y, rest = rest1 ++ [y] := by
      rcases List.eq_nil_or_concat rest with h | ⟨l, y, h⟩
      · exact absurd h hne
      · exact ⟨l, y, by rw [h]; simp⟩
    rw [hry] at hsplit
    have h2 : fs0 ++ [x0] = (fs ++ x :: rest1) ++ [y] := by rw [hsplit]; simp
    have h3 := List.append_inj_left' h2 rfl
    have hxf := hq0 x (by rw [h3]; simp)
    rw [hxf] at hxt
    cases hxt

/-- The loop of `getViewAtRecursive` under `ONLY_ONE_PER_CONTAINER`: it returns what
`process` says on the last child of the vector that is under `pos`, passes the visibility
test and consumes the click; without such a child it runs no callback and leaves in
`possibleOutput` the last child that is under `pos` and passes the visibility test. -/
theorem lookupLoop_only_one {σ : Type} (callback : AView → σ → Bool × σ) (flags : Nat)
    (h : test flags ONLY_ONE_PER_CONTAINER = true) :
    ∀ (views : AViews) (pos : Int × Int) (st : Lookup σ),
      lookupLoop callback flags views pos st
        = match views.findLast (consumingAt flags pos) with
          | some v =>
            (.returned (process callback flags v pos st).1, (process callback flags v pos st).2)
          | none =>
            (.next ((views.findLast (eligibleAt flags pos)).map
              (fun v => (v, process callback flags v pos))), st)
  | .nil, pos, st => by
    rw [lookupLoop]
    rfl
  | .cons view rest, pos, st => by
    have ih := lookupLoop_only_one callback flags h rest pos st
    rw [lookupLoop, ih]
    simp only [AViews.findLast]
    cases hc : rest.findLast (consumingAt flags pos) with
    | some x => rfl
    | none =>
      simp only []
      by_cases hb : inBounds pos view = true
      · have hb1 : ¬ ((decide ((pos - view.getPosition).1 < 0)
            || decide ((pos - view.getPosition).2 < 0)
            || decide ((pos - view.getPosition).1 ≥ view.getSize.1)
            || decide ((pos - view.getPosition).2 ≥ view.getSize.2)) = true) := by
          simp only [inBounds, Bool.and_eq_true, decide_eq_true_eq] at hb
          simp only [Bool.or_eq_true, decide_eq_true_eq]
          omega
        rw [if_neg hb1]
        by_cases hr : reachable flags view = true
        · have hr1 : ¬ ((!test flags IGNORE_VISIBILITY
              && (view.getVisibility == Visibility.GONE
                || view.getVisibility == Visibility.UNREACHABLE)) = true) := by
            intro hx
            simp only [reachable] at hr
            cases ht : test flags IGNORE_VISIBILITY <;> rw [ht] at hx hr <;>
              cases hv : view.getVisibility <;> rw [hv] at hx hr <;> simp at hx hr
          rw [if_neg hr1]
          by_cases hcc : view.consumesClick (pos - view.getPosition) = true
          · rw [if_pos hcc, if_pos hr]
            have e1 : consumingAt flags pos view = true := by
              simp [consumingAt, eligibleAt, hb, hr, hcc]
            rw [e1]
            simp only [h, if_true]
            cases process callback flags view pos st with
            | mk b st2 => cases b <;> rfl
          · rw [if_neg hcc]
            have e1 : consumingAt flags pos view = false := by
              simp [consumingAt, hcc]
            have e2 : eligibleAt flags pos view = true := by
              simp [eligibleAt, hb, hr]
            rw [e1, e2]
            cases he : rest.findLast (eligibleAt flags pos) <;> rfl
        · have hr1 : (!test flags IGNORE_VISIBILITY
              && (view.getVisibility == Visibility.GONE
                || view.getVisibility == Visibility.UNREACHABLE)) = true := by
            simp only [reachable] at hr
            cases ht : test flags IGNORE_VISIBILITY <;> rw [ht] at hr <;>
              cases hv : view.getVisibility <;> rw [hv] at hr <;> simp at hr ⊢
          rw [if_pos hr1]
          have e1 : consumingAt flags pos view = false := by
            simp [consumingAt, eligibleAt, hr]
          have e2 : eligibleAt flags pos view = false := by
            simp [eligibleAt, hr]
          rw [e1, e2]
          cases he : rest.findLast (eligibleAt flags pos) <;> rfl
      · have hb1 : (decide ((pos - view.getPosition).1 < 0)
            || decide ((pos - view.getPosition).2 < 0)
            || decide ((pos - view.getPosition).1 ≥ view.getSize.1)
            || decide ((pos - view.getPosition).2 ≥ view.getSize.2)) = true := by
          simp only [inBounds, Bool.and_eq_true, decide_eq_true_eq] at hb
          simp only [Bool.or_eq_true, decide_eq_true_eq]
          omega
        rw [if_pos hb1]
        have e1 : consumingAt flags pos view = false := by
          simp [consumingAt, eligibleAt, hb]
        have e2 : eligibleAt flags pos view = false := by
          simp [eligibleAt, hb]
        rw [e1, e2]
        cases he : rest.findLast (eligibleAt flags pos) <;> rfl

/-- The loop of `visitsViewRecursive` under `ONLY_ONE_PER_CONTAINER`: it visits the last
child of the vector that passes the visibility test and no other. -/
theorem visitLoop_only_one {σ : Type} (callback : AView → σ → Bool × σ) (flags : Nat)
    (h : test flags ONLY_ONE_PER_CONTAINER = true) :
    ∀ (views : AViews) (st : Lookup σ),
      visitLoop callback flags views st
        = match views.findLast (reachable flags) with
          | some v =>
            (if (visitChild callback flags v st).1 then Flow.returnedTrue else Flow.broke,
              (visitChild callback flags v st).2)
          | none => (.next, st)
  | .nil, st => by
    rw [visitLoop]
    rfl
  | .cons view rest, st => by
    have ih := visitLoop_only_one callback flags h rest st
    rw [visitLoop, ih]
    simp only [AViews.findLast]
    cases hc : rest.findLast (reachable flags) with
    | some x =>
      simp only []
      cases (visitChild callback flags x st).1 <;> rfl
    | none =>
      simp only []
      by_cases hr : reachable flags view = true
      · rw [if_pos hr, if_pos hr]
        simp only [h, if_true]
        cases visitChild callback flags view st with
        | mk b st2 => cases b <;> rfl
      · rw [if_neg hr, if_neg hr]

/-- C19, counterexample: with `ONLY_ONE_PER_CONTAINER` and a callback that always returns
false.  In the first container the first child in reverse order that is under the position
and visible is view 2, which does not consume the click, yet the callback is handed view 1
(which consumes it) and not view 2.  In the second container no child consumes the click,
yet the callback is handed view 2. -/
theorem C19_counterexample :
    ((AViews.cons (leaf 1 true) (.cons (leaf 2 false) .nil)).findLast
        (eligibleAt ONLY_ONE_PER_CONTAINER (5, 5))).map AView.id = some 2 ∧
    (getViewAtRecursive (box 0 (.cons (leaf 1 true) (.cons (leaf 2 false) .nil))) (5, 5)
        never ONLY_ONE_PER_CONTAINER ((), [])).2.2 = [(1, false)] ∧
    ((AViews.cons (leaf 2 false) .nil).findLast
        (consumingAt ONLY_ONE_PER_CONTAINER (5, 5))).map AView.id = none ∧
    (getViewAtRecursive (box 0 (.cons (leaf 2 false) .nil)) (5, 5)
        never ONLY_ONE_PER_CONTAINER ((), [])).2.2 = [(2, false)] := by
  refine ⟨by decide, by decide, by decide, by decide⟩

/-- C19, amended: with `ONLY_ONE_PER_CONTAINER` set, each lookup in a container hands at
most one direct child on (to the callback and, when the callback returns false and the
child is a container, to the lookup inside it) and returns what that gives.  For
`visitsViewRecursive` it is the first child in reverse order that passes the visibility
test.  For `getViewAtRecursive` it is the first child in reverse order that is under the
position, passes the visibility test and consumes the click; when no child does, it is the
first child in reverse order that is under the position and passes the visibility test.
Without such a child the lookup returns false and calls nothing. -/
theorem C19_only_one_child_per_container {σ : Type} (self : AView) (pos : Int × Int)
    (callback : AView → σ → Bool × σ) (flags : Nat) (st : Lookup σ)
    (h : test flags ONLY_ONE_PER_CONTAINER = true) :
    getViewAtRecursive self pos callback flags st
      = (match pickAt flags pos self.mViews with
        | some v => process callback flags v pos st
        | none => (false, st)) ∧
    visitsViewRecursive self callback flags st
      = (match pickVisit flags self.mViews with
        | some v => visitChild callback flags v st
        | none => (false, st)) := by
  constructor
  · unfold getViewAtRecursive pickAt
    rw [lookupLoop_only_one callback flags h]
    cases hc : self.mViews.findLast (consumingAt flags pos) with
    | some v => rfl
    | none =>
      simp only []
      cases he : self.mViews.findLast (eligibleAt flags pos) <;> rfl
  · unfold visitsViewRecursive pickVisit
    rw [visitLoop_only_one callback flags h]
    cases hc : self.mViews.findLast (reachable flags) with
    | some v =>
      simp only []
      cases hv : visitChild callback flags v st with
      | mk b st2 => cases b <;> rfl
    | none => rfl

/-- Witness for C19: a container with a consuming child 1, a container child 3 (holding the
consuming leaf 4) and a non-consuming child 2, in this order; with the flag, the lookup at
(5, 5) hands on child 3 and, inside it, child 4; the visit hands on child 2 only. -/
theorem C19_witness :
    (getViewAtRecursive
        (box 0 (.cons (leaf 1 true) (.cons (box 3 (.cons (leaf 4 true) .nil))
          (.cons (leaf 2 false) .nil))))
        (5, 5) never ONLY_ONE_PER_CONTAINER ((), [])
      = (match pickAt ONLY_ONE_PER_CONTAINER (5, 5)
            (box 0 (.cons (leaf 1 true) (.cons (box 3 (.cons (leaf 4 true) .nil))
              (.cons (leaf 2 false) .nil)))).mViews with
        | some v => process never ONLY_ONE_PER_CONTAINER v (5, 5) ((), [])
        | none => (false, ((), []))) ∧
      visitsViewRecursive
        (box 0 (.cons (leaf 1 true) (.cons (box 3 (.cons (leaf 4 true) .nil))
          (.cons (leaf 2 false) .nil))))
        never ONLY_ONE_PER_CONTAINER ((), [])
      = (match pickVisit ONLY_ONE_PER_CONTAINER
            (box 0 (.cons (leaf 1 true) (.cons (box 3 (.cons (leaf 4 true) .nil))
              (.cons (leaf 2 false) .nil)))).mViews with
        | some v => visitChild never ONLY_ONE_PER_CONTAINER v ((), [])
        | none => (false, ((), [])))) ∧
    (getViewAtRecursive
        (box 0 (.cons (leaf 1 true) (.cons (box 3 (.cons (leaf 4 true) .nil))
          (.cons (leaf 2 false) .nil))))
        (5, 5) never ONLY_ONE_PER_CONTAINER ((), [])).2.2 = [(3, false), (4, false)] ∧
    (visitsViewRecursive
        (box 0 (.cons (leaf 1 true) (.cons (box 3 (.cons (leaf 4 true) .nil))
          (.cons (leaf 2 false) .nil))))
        never ONLY_ONE_PER_CONTAINER ((), [])).2.2 = [(2, false)] :=
  ⟨C19_only_one_child_per_container _ (5, 5) never ONLY_ONE_PER_CONTAINER ((), [])
      (by decide), by decide, by decide⟩

/-- C20, the code at the failing input: receiver 1 is connected through the member-function
overload of `connect` to two different member functions of one class and one signature (the
first leaves the signal alone, the second disconnects).  Both slots wrap their member
function in a closure of the same type, so `slot::operator==` finds them equal. -/
theorem C20_distinct_member_functions_compare_equal :
    handlersAfter [5] (andThen (connectMember 1 1 acceptMessageMember (fixture Nat))
        (connectMember 1 1 acceptAndLeaveMember))
      = some [((1, Nat.pair 1 3), false), ((1, Nat.pair 1 3), true)] ∧
    equalitiesAfter (andThen (connectMember 1 1 acceptMessageMember (fixture Nat))
        (connectMember 1 1 acceptAndLeaveMember))
      = some [[true, true], [true, true]] := by
  refine ⟨by decide!, by decide!⟩

/-- C21, the code at the failing inputs.  Receiver 1 has two slots on the signal and the
handler of the first calls `disconnect()`: after the emission the second slot is still
stored, but `unlinkSlot` has taken the signal out of the incoming links of receiver 1; when
receiver 1 is destroyed afterwards its teardown does not reach the signal, the slot stays
and the next emission uses the destroyed receiver.  And after `clearAllConnections()`,
which never calls `unlinkSlot`, the signal holds no slot of receiver 1 but is still in its
incoming links. -/
theorem C21_link_and_slots_disagree :
    slotsAfter (andThen (connectAll [selfRemovingSlot Nat, plainSlot Nat] (fixture Nat))
        (invokeSignal 1 0 [5])) = some [(1, 7)] ∧
    linkedAfter 1 (andThen (connectAll [selfRemovingSlot Nat, plainSlot Nat] (fixture Nat))
        (invokeSignal 1 0 [5])) = some false ∧
    slotsAfter (andThen (andThen (connectAll [selfRemovingSlot Nat, plainSlot Nat]
        (fixture Nat)) (invokeSignal 1 0 [5])) (resetRef 1)) = some [(1, 7)] ∧
    aliveAfter 1 (andThen (andThen (connectAll [selfRemovingSlot Nat, plainSlot Nat]
        (fixture Nat)) (invokeSignal 1 0 [5])) (resetRef 1)) = some false ∧
    usedAfterFree (andThen (andThen (andThen (connectAll [selfRemovingSlot Nat, plainSlot Nat]
        (fixture Nat)) (invokeSignal 1 0 [5])) (resetRef 1)) (invokeSignal 1 0 [5])) = true ∧
    slotsAfter (andThen (connectAll [plainSlot Nat] (fixture Nat)) clearAllConnections)
      = some [] ∧
    linkedAfter 1 (andThen (connectAll [plainSlot Nat] (fixture Nat)) clearAllConnections)
      = some true := by
  refine ⟨by decide!, by decide!, by decide!, by decide!, by decide!, by decide!, by decide!⟩

/-- C22, the code at the failing input: one same-thread slot, one emission started while the
thread does not hold the mutex.  The handler is entered while the thread holds the mutex
once (the `unique_lock` taken before the vector is detached is released only when
`invokeSignal` returns); after the emission the thread holds it no more. -/
theorem C22_handler_runs_with_the_mutex_held :
    lockDepthAfter (connectAll [plainSlot Nat] (fixture Nat)) = some 0 ∧
    callsAfter (andThen (connectAll [plainSlot Nat] (fixture Nat)) (invokeSignal 1 0 [5]))
      = some [(1, 7, [5])] ∧
    callDepthsAfter (andThen (connectAll [plainSlot Nat] (fixture Nat))
        (invokeSignal 1 0 [5])) = some [1] ∧
    lockDepthAfter (andThen (connectAll [plainSlot Nat] (fixture Nat))
        (invokeSignal 1 0 [5])) = some 0 := by
  refine ⟨by decide!, by decide!, by decide!, by decide!⟩

/-- C23, the code at the failing inputs.  `clearAllConnectionsWith(1)` called outside any
emission, by a thread that does not hold the mutex: the callable stored in the removed slot
is destroyed while the mutex is held (inside `removeIf`, because `std::move(p.func)` on the
`const slot&` copies it), and only the copy is destroyed after `lock.unlock()`.  A slot whose
handler calls `disconnect()` is erased by the emission and its callable is destroyed while
the thread holds the mutex.  And when the teardown of receiver 1 calls
`clearAllConnectionsWith` from inside a handler of receiver 2, the stored callable is
destroyed with the mutex held twice and its copy with the mutex still held once. -/
theorem C23_callable_destroyed_with_the_mutex_held :
    lockDepthAfter (connectAll [plainSlot Nat] (fixture Nat)) = some 0 ∧
    slotsAfter (andThen (connectAll [plainSlot Nat] (fixture Nat))
        (clearAllConnectionsWith 1)) = some [] ∧
    dropDepthsAfter (andThen (connectAll [plainSlot Nat] (fixture Nat))
        (clearAllConnectionsWith 1)) = some [(1, 7, 1), (1, 7, 0)] ∧
    slotsAfter (andThen (connectAll [selfRemovingSlot Nat] (fixture Nat))
        (invokeSignal 1 0 [5])) = some [] ∧
    dropDepthsAfter (andThen (connectAll [selfRemovingSlot Nat] (fixture Nat))
        (invokeSignal 1 0 [5])) = some [(1, 8, 1)] ∧
    slotsAfter (andThen (connectAll [evictingSlot Nat] (fixture Nat))
        (invokeSignal 1 0 [5])) = some [(2, 3)] ∧
    dropDepthsAfter (andThen (connectAll [evictingSlot Nat] (fixture Nat))
        (invokeSignal 1 0 [5])) = some [(1, 7, 2), (1, 7, 1)] := by
  refine ⟨by decide!, by decide!, by decide!, by decide!, by decide!, by decide!, by decide!⟩

/-- C24: when the handler of a same-thread slot `s` raises (after statements `b1` that only
disconnect or connect, the slots before `s` doing no more than that either), the error
reaches the caller with the slot vector holding exactly the slots connected during the
emission, by the handlers before `s` and by `b1`: no slot of the detached snapshot is left,
and a later emission invokes the same-thread handlers of those new slots and nothing
else. -/
theorem C24_snapshot_is_lost_when_a_handler_raises (fuel fuel2 : Nat) (e : ObjId)
    (args args2 : List V) (w : World V) (pre : List (slot V)) (s : slot V)
    (post : List (slot V)) (received : List V) (b1 b2 : List (Action V))
    (hsig : w.signalAlive = true) (hea : (w.objects e).alive = true) (hz : NoZombie w)
    (hm : w.mSlots = pre ++ s :: post)
    (hpre : ∀ p ∈ pre, tameSlot w e args p = true)
    (hres : ∀ p ∈ pre, (p.body args).countP (Action.resets e) = 0)
    (hsa : (w.objects s.object).alive = true) (hsc : isCross w s = false)
    (hcall : s.func.call args = some (received, b1 ++ Action.raise :: b2))
    (hb1 : ∀ a ∈ b1, Action.tame w e a = true)
    (hb1r : b1.countP (Action.resets e) = 0)
    (hnew : ∀ p ∈ pre.flatMap (added w args) ++ b1.filterMap Action.connected,
      tameSlot w e args2 p = true ∧ (p.body args2).countP (Action.resets e) = 0) :
    ∃ w1, invokeSignal (fuel + 1) e args w = .error (.threw w1) ∧
      w1.mSlots = pre.flatMap (added w args) ++ b1.filterMap Action.connected ∧
      ∃ w2, invokeSignal (fuel2 + 1) e args2 w1 = .ok w2 ∧
        calls w2.trace = calls w1.trace
          ++ (sameThread w (pre.flatMap (added w args)
              ++ b1.filterMap Action.connected)).map (callOf args2) := by
  obtain ⟨w1, h1, _, hm1, _, hs1, hfr⟩ :=
    invokeSignal_raise fuel e args w pre s post received b1 b2
      hsig hea hz hm hpre (resetCount_eq_zero w e args pre (fun p hp _ => hres p hp))
      hsa hsc hcall hb1 hb1r
  refine ⟨w1, h1, hm1, ?_⟩
  obtain ⟨w2, h2, hem⟩ := invokeSignal_quiet fuel2 e args2 w1 hs1
    (by rw [hfr.alive]; exact hea) (hfr.noZombie hz)
    (by intro p hp; rw [hfr.tameSlot_eq]; rw [hm1] at hp; exact (hnew p hp).1)
    (resetCount_eq_zero w1 e args2 w1.mSlots
      (fun p hp _ => by rw [hm1] at hp; exact (hnew p hp).2))
  refine ⟨w2, h2, ?_⟩
  rw [hem.calls_eq, hfr.sameThread_eq, hm1]

/-- Witness for C24: the first slot connects a plain handler of receiver 1, the second
raises, the third is never reached; the error leaves only the new slot in the vector, and
the next emission invokes that slot alone. -/
theorem C24_witness :
    ∃ w1, invokeSignal (0 + 1) 0 [5]
        (fixtureWith [growingSlot Nat, raisingSlot Nat, otherSlot Nat]) = .error (.threw w1) ∧
      w1.mSlots.map slot.key = [(1, 7)] ∧
      ∃ w2, invokeSignal (0 + 1) 0 [6] w1 = .ok w2 ∧
        calls w2.trace = calls w1.trace ++ [(1, 7, [6])] := by
  obtain ⟨w1, h1, h2, w2, h3, h4⟩ :=
    C24_snapshot_is_lost_when_a_handler_raises 0 0 0 [5] [6]
      (fixtureWith [growingSlot Nat, raisingSlot Nat, otherSlot Nat])
      [growingSlot Nat] (raisingSlot Nat) [otherSlot Nat] [5] [] []
      rfl rfl (fun _ _ => rfl) rfl
      (by intro p hp; rw [List.mem_singleton.mp hp]; rfl)
      (by intro p hp; rw [List.mem_singleton.mp hp]; rfl)
      rfl rfl rfl (by intro a ha; cases ha) rfl
      (by
        intro p hp
        have hp1 : p = ⟨1, .helper1 7 (fun _ => [])⟩ := by
          simpa [added, isCross, fixtureWith, heapObject, growingSlot, slot.body, func_t.call,
            Action.connected] using hp
        rw [hp1]
        exact ⟨rfl, rfl⟩)
  refine ⟨w1, h1, by rw [h2]; rfl, w2, h3, ?_⟩
  rw [h4]
  rfl

theorem Inv.noZombie_mid {w0 : World V} {e : ObjId} {ep rp : Option ObjId} {w : World V}
    (h : Inv w0 e ep rp w) (hoe : (w.objects e).owners = (w0.objects e).owners) :
    NoZombie w := by
  intro o ho
  have ho0 : (w0.objects o).owners = 0 := by
    by_cases hx : o = e
    · subst hx; rw [← hoe]; exact ho
    · rw [← h.owners o hx]; exact ho
  have hh0 := h.zombie o ho0
  have hnl : lockable (w0.objects o) = false := by simp [lockable, ho0, hh0]
  have hep : held1 ep o = 0 := by
    rcases h.ep_cases with ⟨hep, hl⟩ | ⟨hep, _, _⟩
    · rw [hep]
      by_cases hx : o = e
      · subst hx; rw [hl] at hnl; cases hnl
      · exact held1_ne hx
    · rw [hep]; rfl
  have hrp : held1 rp o = 0 := by
    cases hr : rp with
    | none => rfl
    | some r =>
      by_cases hx : o = r
      · subst hx
        have := h.held o hr
        rw [this] at hnl; cases hnl
      · exact held1_ne hx
  rw [h.holds o, hh0, hep, hrp]

theorem Inv.isCross_fun {w0 : World V} {e : ObjId} {ep rp : Option ObjId} {w : World V}
    (h : Inv w0 e ep rp w) : isCross w = isCross w0 := by
  funext s
  exact h.isCross_start s

theorem Inv.tameSlot_fun {w0 : World V} {e : ObjId} {ep rp : Option ObjId} {w : World V}
    (h : Inv w0 e ep rp w) (args : List V) : tameSlot w e args = tameSlot w0 e args := by
  funext s
  have ht : Action.tame w e = Action.tame (V := V) w0 e := by
    funext a
    cases a <;> simp [Action.tame, h.alive]
  unfold tameSlot
  rw [h.alive, h.isCross_fun, ht]

theorem Inv.after_emitted {w0 : World V} {e : ObjId} {ep rp : Option ObjId} {w w1 : World V}
    {args : List V} (h : Inv w0 e ep rp w) (hem : Emitted w e args w1) :
    Inv w0 e ep rp w1 :=
  h.of_same (by rw [hem.signalAlive, h.signalAlive]) hem.owner hem.current hem.alive
    hem.thread hem.policy hem.owners hem.holds

/-- The flag with which the handler `b1; emit; b2` returns when the live vector holds
`live` at the nested emission: a request made by `b1` survives only a nested emission that
finds no slot. -/
theorem nested_flag_eq (live : List (slot V)) (b1 b2 : List (Action V)) :
    nestedFlag live b1 b2 = ((live.isEmpty && b1.any Action.isDisconnect)
      || b2.any Action.isDisconnect) := rfl

/-- One step of the loop on a same-thread slot whose handler runs tame statements `b1`,
emits the signal again with `args2` and runs tame statements `b2`, when the handlers of the
slots connected so far are tame on `args2`. -/
theorem invokeLoop_nested_step (fuel : Nat) {w0 : World V} {e : ObjId} {ep : Option ObjId}
    (args args2 : List V) (s : slot V) (rest : List (slot V)) (received : List V)
    (b1 b2 : List (Action V)) (kept : List (slot V)) (rp : Option ObjId) (w : World V)
    (h : Inv w0 e ep rp w) (hd : w.lockDepth = w0.lockDepth + 1)
    (hoe : (w.objects e).owners = (w0.objects e).owners)
    (hsa : (w0.objects s.object).alive = true) (hsc : isCross w0 s = false)
    (hcall : s.func.call args = some (received, b1 ++ Action.emit e args2 :: b2))
    (hb1 : ∀ a ∈ b1, Action.tame w0 e a = true) (hb1r : b1.countP (Action.resets e) = 0)
    (hb2 : ∀ a ∈ b2, Action.tame w0 e a = true) (hb2r : b2.countP (Action.resets e) = 0)
    (hlive : ∀ p ∈ w.mSlots ++ b1.filterMap Action.connected,
      tameSlot w0 e args2 p = true ∧ (p.body args2).countP (Action.resets e) = 0) :
    ∃ rp1 w1, invokeLoop (invokeSignal (fuel + 1)) ep args kept (s :: rest) rp w
        = invokeLoop (invokeSignal (fuel + 1)) ep args
            (kept ++ if nestedFlag (w.mSlots ++ b1.filterMap Action.connected) b1 b2
              then [] else [s]) rest rp1 w1 ∧
      Inv w0 e ep rp1 w1 ∧ w1.lockDepth = w0.lockDepth + 1 ∧
      (w1.objects e).owners = (w0.objects e).owners ∧
      w1.mSlots = (w.mSlots ++ b1.filterMap Action.connected).filter (survives w0 args2)
        ++ (w.mSlots ++ b1.filterMap Action.connected).flatMap (added w0 args2)
        ++ b2.filterMap Action.connected ∧
      calls w1.trace = calls w.trace ++ [(s.object, s.func.target_type, received)]
        ++ (sameThread w0 (w.mSlots ++ b1.filterMap Action.connected)).map (callOf args2) := by
  have hal : (w.objects s.object).alive = true := by rw [h.alive]; exact hsa
  have hcross : ¬ ((w.objects s.object).slotsCallsOnlyOnMyThread
      && (w.objects s.object).thread != w.current) = true := by
    rw [h.isCross_start s, hsc]; simp
  have hinv0 : Inv w0 e ep rp { w with isDisconnected := false } :=
    h.of_same rfl rfl rfl (fun _ => rfl) (fun _ => rfl) (fun _ => rfl) (fun _ => rfl)
      (fun _ => rfl)
  obtain ⟨rpa, wa, ha, hinva, hma, hda, hta, hqa, hla, hoa⟩ :=
    holdReceiver_tame s.object _ hinv0
  have hinvb : Inv w0 e ep rpa
      (wa.log (.call s.object s.func.target_type received wa.lockDepth)) :=
    hinva.of_same rfl rfl rfl (fun _ => rfl) (fun _ => rfl) (fun _ => rfl) (fun _ => rfl)
      (fun _ => rfl)
  -- the statements before the nested emission
  obtain ⟨wb, hrunb, hinvbb, hmb, hdb, htb, hqb, hlb, hob⟩ :=
    runBody_tame (invokeSignal (fuel + 1)) b1 _ hinvb hb1
  have hmb1 : wb.mSlots = w.mSlots ++ b1.filterMap Action.connected := by
    rw [hmb]
    show wa.mSlots ++ _ = _
    rw [hma]
  have hob1 : (wb.objects e).owners = (w0.objects e).owners := by
    rw [hob, hb1r]
    show (wa.objects e).owners - 0 = _
    rw [hoa]
    show (w.objects e).owners - 0 = _
    rw [hoe]
    simp
  have hdb1 : wb.isDisconnected = b1.any Action.isDisconnect := by
    rw [hdb]
    show (wa.isDisconnected || _) = _
    rw [hda]
    rfl
  have htb1 : wb.trace = w.trace ++ [.call s.object s.func.target_type received wa.lockDepth] := by
    rw [htb]
    show wa.trace ++ _ = _
    rw [hta]
  have hlb1 : wb.lockDepth = w0.lockDepth + 1 := by
    rw [hlb]
    show wa.lockDepth = _
    rw [hla]
    exact hd
  -- the nested emission
  obtain ⟨wc, hrunc, hemc⟩ := invokeSignal_quiet fuel e args2 wb hinvbb.signalAlive
    (by rw [hinvbb.alive]; exact hinvbb.eAlive) (hinvbb.noZombie_mid hob1)
    (by intro p hp; rw [hinvbb.tameSlot_fun]; rw [hmb1] at hp; exact (hlive p hp).1)
    (resetCount_eq_zero wb e args2 wb.mSlots
      (fun p hp _ => by rw [hmb1] at hp; exact (hlive p hp).2))
  have hinvc : Inv w0 e ep rpa wc := hinvbb.after_emitted hemc
  have hsv : survives wb args2 = survives w0 args2 := by
    funext p
    simp [survives, hinvbb.isCross_fun]
  have had : added wb args2 = added w0 args2 := by
    funext p
    simp [added, hinvbb.isCross_fun]
  have hmc : wc.mSlots
      = (w.mSlots ++ b1.filterMap Action.connected).filter (survives w0 args2)
        ++ (w.mSlots ++ b1.filterMap Action.connected).flatMap (added w0 args2) := by
    rw [hemc.mSlots, hmb1, hsv, had]
  have hdc : wc.isDisconnected
      = ((w.mSlots ++ b1.filterMap Action.connected).isEmpty
          && b1.any Action.isDisconnect) := by
    by_cases hne : wb.mSlots = []
    · have hwc : invokeSignal (fuel + 1) e args2 wb = .ok wb :=
        invokeSignal_empty fuel e args2 wb hinvbb.signalAlive hne
      rw [hwc] at hrunc
      cases hrunc
      rw [hdb1, ← hmb1, hne]
      rfl
    · rw [hemc.flag hne, ← hmb1]
      cases hm : wb.mSlots with
      | nil => exact absurd hm hne
      | cons _ _ => rfl
  -- the statements after it
  obtain ⟨wd, hrund, hinvd, hmd, hdd, htd, hqd, hld, hod⟩ :=
    runBody_tame (invokeSignal (fuel + 1)) b2 wc hinvc hb2
  have hbody : runBody (invokeSignal (fuel + 1)) (b1 ++ Action.emit e args2 :: b2)
      (wa.log (.call s.object s.func.target_type received wa.lockDepth)) = .ok wd := by
    rw [runBody_append _ b1 _ _ _ hrunb, runBody]
    show (match invokeSignal (fuel + 1) e args2 wb with
      | .ok w1 => runBody (invokeSignal (fuel + 1)) b2 w1
      | .error err => .error err) = _
    rw [hrunc]
    exact hrund
  have happ : applyFunc (invokeSignal (fuel + 1)) s args wa = .ok wd := by
    unfold applyFunc
    rw [hcall]
    exact hbody
  have hflag : wd.isDisconnected
      = nestedFlag (w.mSlots ++ b1.filterMap Action.connected) b1 b2 := by
    rw [hdd, hdc, nested_flag_eq]
  have hmd1 : wd.mSlots
      = (w.mSlots ++ b1.filterMap Action.connected).filter (survives w0 args2)
        ++ (w.mSlots ++ b1.filterMap Action.connected).flatMap (added w0 args2)
        ++ b2.filterMap Action.connected := by
    rw [hmd, hmc]
  have hod1 : (wd.objects e).owners = (w0.objects e).owners := by
    rw [hod, hb2r, hemc.owners, hob1]
    simp
  have hld1 : wd.lockDepth = w0.lockDepth + 1 := by
    rw [hld, hemc.lockDepth, hlb1]
  have hcalls : calls wd.trace = calls w.trace ++ [(s.object, s.func.target_type, received)]
      ++ (sameThread w0 (w.mSlots ++ b1.filterMap Action.connected)).map (callOf args2) := by
    rw [htd, hemc.calls_eq, htb1, calls_append, hmb1]
    have : sameThread wb (w.mSlots ++ b1.filterMap Action.connected)
        = sameThread w0 (w.mSlots ++ b1.filterMap Action.connected) := by
      simp [sameThread, hinvbb.isCross_fun]
    rw [this]
    rfl
  by_cases hfl : nestedFlag (w.mSlots ++ b1.filterMap Action.connected) b1 b2 = true
  · have hald : (wd.objects s.object).alive = true := by rw [hinvd.alive]; exact hsa
    have hinve : Inv w0 e ep rpa
        ((wd.setObj s.object { wd.objects s.object with linked := false }).log
          (dropEvent (wd.setObj s.object
            { wd.objects s.object with linked := false }).lockDepth s)) := by
      refine hinvd.of_same rfl rfl rfl ?_ ?_ ?_ ?_ ?_ <;> intro x <;>
        by_cases hx : x = s.object <;> simp [World.log, hx]
    refine ⟨rpa, _, ?_, hinve, ?_, ?_, ?_, ?_⟩
    · rw [invokeLoop, if_pos hal, if_neg hcross, ha]
      simp only []
      rw [happ]
      simp only []
      rw [if_pos (by rw [hflag]; exact hfl), hfl]
      simp only [unlinkSlot, hald, if_true, List.append_nil]
    · simpa [World.log] using hld1
    · by_cases hx : e = s.object
      · rw [← hx]
        simpa [World.log] using hod1
      · simpa [World.log, hx] using hod1
    · simpa [World.log] using hmd1
    · simp only [World.log, setObj_trace, calls_append, hcalls]
      simp [calls, dropEvent]
  · refine ⟨rpa, wd, ?_, hinvd, hld1, hod1, hmd1, hcalls⟩
    rw [invokeLoop, if_pos hal, if_neg hcross, ha]
    simp only []
    rw [happ]
    simp only []
    rw [if_neg (by rw [hflag]; exact hfl)]
    simp [hfl]

/-- An emission in which the handler of the same-thread slot `s` runs tame statements `b1`,
emits the signal again with `args2` and then runs tame statements `b2`, the other handlers
being tame, those of the slots connected before the nested emission being tame on
`args2`. -/
theorem invokeSignal_nested (fuel : Nat) (e : ObjId) (args args2 : List V) (w : World V)
    (pre : List (slot V)) (s : slot V) (post : List (slot V)) (received : List V)
    (b1 b2 : List (Action V))
    (hsig : w.signalAlive = true) (hea : (w.objects e).alive = true) (hz : NoZombie w)
    (hm : w.mSlots = pre ++ s :: post)
    (hpre : ∀ p ∈ pre, tameSlot w e args p = true)
    (hpost : ∀ p ∈ post, tameSlot w e args p = true)
    (hrpre : resetCount w e args pre = 0) (hrpost : resetCount w e args post = 0)
    (hsa : (w.objects s.object).alive = true) (hsc : isCross w s = false)
    (hcall : s.func.call args = some (received, b1 ++ Action.emit e args2 :: b2))
    (hb1 : ∀ a ∈ b1, Action.tame w e a = true) (hb1r : b1.countP (Action.resets e) = 0)
    (hb2 : ∀ a ∈ b2, Action.tame w e a = true) (hb2r : b2.countP (Action.resets e) = 0)
    (hlive : ∀ p ∈ pre.flatMap (added w args) ++ b1.filterMap Action.connected,
      tameSlot w e args2 p = true ∧ (p.body args2).countP (Action.resets e) = 0) :
    ∃ w1, invokeSignal (fuel + 2) e args w = .ok w1 ∧
      calls w1.trace = calls w.trace ++ (sameThread w pre).map (callOf args)
        ++ [(s.object, s.func.target_type, received)]
        ++ (sameThread w (pre.flatMap (added w args)
            ++ b1.filterMap Action.connected)).map (callOf args2)
        ++ (sameThread w post).map (callOf args) ∧
      w1.mSlots = pre.filter (survives w args)
        ++ (if nestedFlag (pre.flatMap (added w args) ++ b1.filterMap Action.connected) b1 b2
            then [] else [s])
        ++ post.filter (survives w args)
        ++ ((pre.flatMap (added w args) ++ b1.filterMap Action.connected).filter
              (survives w args2)
            ++ (pre.flatMap (added w args) ++ b1.filterMap Action.connected).flatMap
              (added w args2)
            ++ b2.filterMap Action.connected ++ post.flatMap (added w args)) ∧
      w1.isDisconnected = false ∧ Frame w w1 := by
  have hemp : w.mSlots.isEmpty = false := by rw [hm]; cases pre <;> rfl
  have hinv := Inv.start e w hsig hea hz
  obtain ⟨hf1, hf2, hf3, hf4, hf5, hf6, hf7⟩ := holdEmitter_fields e w
  have hoe0 : ((detach (holdEmitter e w)).objects e).owners = (w.objects e).owners := by
    rw [detach_objects]; unfold holdEmitter; split_ifs <;> simp
  -- the slots before `s`
  obtain ⟨rp1, w1, h1, hinv1, hd1, hm1, ht1, _, ho1⟩ :=
    invokeLoop_tame (invokeSignal (fuel + 1)) args pre [] none _ hinv (by simp [hf4]) hpre
  have happ := invokeLoop_append (invokeSignal (fuel + 1)) (emitterHold w e) args pre
    (s :: post) [] none _ _ _ _ h1
  have hld1 : w1.lockDepth = w.lockDepth + 1 := by rw [hd1, detach_lockDepth, hf4]
  have hoe1 : (w1.objects e).owners = (w.objects e).owners := by
    rw [ho1, hrpre, hoe0]; simp
  have hms1 : w1.mSlots = pre.flatMap (added w args) := by
    rw [hm1, detach_mSlots, List.nil_append]
  have hc1 : calls w1.trace = calls w.trace ++ (sameThread w pre).map (callOf args) := by
    rw [ht1, detach_trace, hf5, calls_append, calls_slotEvents]
  -- the slot `s`
  obtain ⟨rp2, w2, h2, hinv2, hld2, hoe2, hms2, hc2⟩ :=
    invokeLoop_nested_step fuel args args2 s post received b1 b2
      ([] ++ pre.filter (survives w args)) rp1 w1 hinv1 hld1 hoe1 hsa hsc hcall hb1 hb1r hb2
      hb2r (by rw [hms1]; exact hlive)
  rw [hms1] at h2 hms2 hc2
  -- the slots after `s`
  obtain ⟨rp3, w3, h3, hinv3, hd3, hm3, ht3, _, ho3⟩ :=
    invokeLoop_tame (invokeSignal (fuel + 1)) args post
      ([] ++ pre.filter (survives w args)
        ++ if nestedFlag (pre.flatMap (added w args) ++ b1.filterMap Action.connected) b1 b2
          then [] else [s]) rp2 w2 hinv2 hld2 hpost
  have hloop := happ.trans (h2.trans h3)
  have hoe3 : (w3.objects e).owners = (w.objects e).owners := by
    rw [ho3, hrpost, hoe2]; simp
  -- the merge and the exit
  have hinvR : Inv w e (emitterHold w e) rp3
      (reconcile ([] ++ pre.filter (survives w args)
        ++ (if nestedFlag (pre.flatMap (added w args) ++ b1.filterMap Action.connected) b1 b2
          then [] else [s]) ++ post.filter (survives w args)) w3) :=
    hinv3.of_same rfl rfl rfl (fun _ => rfl) (fun _ => rfl) (fun _ => rfl) (fun _ => rfl)
      (fun _ => rfl)
  obtain ⟨w4, h4, hinv4, hm4, hfl4, ht4, _, hl4, ho4⟩ := leave_tame _ hinvR
  have hoe4 : (w4.objects e).owners = (w.objects e).owners := by
    rw [ho4, reconcile_objects, hoe3]
  have hld4 : w4.lockDepth = w.lockDepth := by
    rw [hl4, reconcile_lockDepth, hd3, hld2]; simp
  obtain ⟨w5, h5, ht5, hm5, _, hfl5, _, _, hfr5⟩ := hinv4.finish_release hsig hoe4
  refine ⟨w5, ?_, ?_, ?_, ?_, hfr5 hld4⟩
  · show invokeSignalWith (invokeSignal (fuel + 1)) e args w = _
    unfold invokeSignalWith
    rw [if_pos hsig, hemp, if_neg (by simp), if_pos hea, hm, hloop]
    simp only []
    rw [if_pos hinv3.signalAlive, h4, h5]
  · rw [ht5, ht4, reconcile_trace, ht3, calls_append, calls_slotEvents, hc2, hc1]
  · rw [hm5, hm4, reconcile_mSlots, hm3, hms2]
    simp
  · rw [hfl5, hfl4, reconcile_flag]

/-- C25, counterexample: the nested emit does change the final slot sequence.  A handler
that connects a slot (1, 8) which disconnects itself leaves `[(1, 7), (1, 8)]`; the same
handler followed by a nested emit leaves `[(1, 7)]`, because the nested emission invokes the
new slot and erases it.  A handler that connects a plain slot (1, 8) and calls
`disconnect()` leaves `[(1, 8)]`; the same handler followed by a nested emit leaves
`[(1, 7), (1, 8)]`, because the nested emission resets the disconnect flag. -/
theorem C25_counterexample :
    slotsAfter (andThen (connectAll [connectingDropSlot] (fixture Nat))
        (invokeSignal 2 0 [5])) = some [(1, 7), (1, 8)] ∧
    callsAfter (andThen (connectAll [nestingDropSlot] (fixture Nat)) (invokeSignal 2 0 [5]))
      = some [(1, 7, [5]), (1, 8, [5])] ∧
    slotsAfter (andThen (connectAll [nestingDropSlot] (fixture Nat)) (invokeSignal 2 0 [5]))
      = some [(1, 7)] ∧
    slotsAfter (andThen (connectAll [connectingLeavingSlot] (fixture Nat))
        (invokeSignal 2 0 [5])) = some [(1, 8)] ∧
    slotsAfter (andThen (connectAll [reemittingSlot] (fixture Nat)) (invokeSignal 2 0 [5]))
      = some [(1, 7), (1, 8)] := by
  refine ⟨by decide!, by decide!, by decide!, by decide!, by decide!⟩

/-- C25, amended: the same-thread slot `s` of an emission runs a handler that, after
statements `b1` that only disconnect or connect, emits the signal again with `args2` (all
other handlers, those of the slots connected so far included, only disconnect or connect).
The emission returns normally.  The nested emission invokes exactly the same-thread slots
connected so far during the outer emission, by the handlers before `s` and by `b1` (nothing
when there are none), and no slot of the snapshot.  The outer emission then goes on with
the slots after `s`, and the vector it leaves is the snapshot without the slots that
disconnected, in its order, followed by the live vector: the slots connected so far as the
nested emission left them (those that did not disconnect in it, then the slots it
connected), then the slots connected afterwards.  The slot `s` itself stays or goes by the
value of the disconnect flag when its handler returns, which the nested emission has reset
when it found a slot. -/
theorem C25_nested_emit_sees_only_new_slots (fuel : Nat) (e : ObjId) (args args2 : List V)
    (w : World V) (pre : List (slot V)) (s : slot V) (post : List (slot V))
    (received : List V) (b1 b2 : List (Action V))
    (hsig : w.signalAlive = true) (hea : (w.objects e).alive = true) (hz : NoZombie w)
    (hm : w.mSlots = pre ++ s :: post)
    (hpre : ∀ p ∈ pre, tameSlot w e args p = true)
    (hpost : ∀ p ∈ post, tameSlot w e args p = true)
    (hrpre : ∀ p ∈ pre, (p.body args).countP (Action.resets e) = 0)
    (hrpost : ∀ p ∈ post, (p.body args).countP (Action.resets e) = 0)
    (hsa : (w.objects s.object).alive = true) (hsc : isCross w s = false)
    (hcall : s.func.call args = some (received, b1 ++ Action.emit e args2 :: b2))
    (hb1 : ∀ a ∈ b1, Action.tame w e a = true) (hb1r : b1.countP (Action.resets e) = 0)
    (hb2 : ∀ a ∈ b2, Action.tame w e a = true) (hb2r : b2.countP (Action.resets e) = 0)
    (hlive : ∀ p ∈ pre.flatMap (added w args) ++ b1.filterMap Action.connected,
      tameSlot w e args2 p = true ∧ (p.body args2).countP (Action.resets e) = 0) :
    ∃ w1, invokeSignal (fuel + 2) e args w = .ok w1 ∧
      calls w1.trace = calls w.trace ++ (sameThread w pre).map (callOf args)
        ++ [(s.object, s.func.target_type, received)]
        ++ (sameThread w (pre.flatMap (added w args)
            ++ b1.filterMap Action.connected)).map (callOf args2)
        ++ (sameThread w post).map (callOf args) ∧
      w1.mSlots = pre.filter (survives w args)
        ++ (if nestedFlag (pre.flatMap (added w args) ++ b1.filterMap Action.connected) b1 b2
            then [] else [s])
        ++ post.filter (survives w args)
        ++ ((pre.flatMap (added w args) ++ b1.filterMap Action.connected).filter
              (survives w args2)
            ++ (pre.flatMap (added w args) ++ b1.filterMap Action.connected).flatMap
              (added w args2)
            ++ b2.filterMap Action.connected ++ post.flatMap (added w args)) := by
  obtain ⟨w1, h1, h2, h3, _⟩ :=
    invokeSignal_nested fuel e args args2 w pre s post received b1 b2 hsig hea hz hm hpre hpost
      (resetCount_eq_zero w e args pre (fun p hp _ => hrpre p hp))
      (resetCount_eq_zero w e args post (fun p hp _ => hrpost p hp))
      hsa hsc hcall hb1 hb1r hb2 hb2r hlive
  exact ⟨w1, h1, h2, h3⟩

/-- Witness for C25: the first slot connects a handler (1, 8) that disconnects itself and
emits again, the second is a plain slot of receiver 2.  The nested emission invokes the new
handler only and erases it; the outer emission then invokes the second slot, and leaves the
two snapshot slots in their order. -/
theorem C25_witness :
    ∃ w1, invokeSignal (0 + 2) 0 [5] (fixtureWith [nestingDropSlot, otherSlot Nat]) = .ok w1 ∧
      calls w1.trace = [(1, 7, [5]), (1, 8, [5]), (2, 8, [5])] ∧
      w1.mSlots.map slot.key = [(1, 7), (2, 8)] := by
  obtain ⟨w1, h1, h2, h3⟩ :=
    C25_nested_emit_sees_only_new_slots 0 0 [5] [5]
      (fixtureWith [nestingDropSlot, otherSlot Nat])
      [] nestingDropSlot [otherSlot Nat] [5]
      [.connect 1 (.helper1 8 (fun _ => [.disconnect]))] []
      rfl rfl (fun _ _ => rfl) rfl
      (by intro p hp; cases hp)
      (by intro p hp; rw [List.mem_singleton.mp hp]; rfl)
      (by intro p hp; cases hp)
      (by intro p hp; rw [List.mem_singleton.mp hp]; rfl)
      rfl rfl rfl
      (by intro a ha; rw [List.mem_singleton.mp ha]; rfl) rfl
      (by intro a ha; cases ha) rfl
      (by
        intro p hp
        have hp1 : p = ⟨1, .helper1 8 (fun _ => [.disconnect])⟩ := by
          simpa [Action.connected] using hp
        rw [hp1]
        exact ⟨rfl, rfl⟩)
  refine ⟨w1, h1, ?_, ?_⟩
  · rw [h2]; rfl
  · rw [h3]; rfl

/-- The nested emission when the new slot leaves the signal alone: the slot is still
connected after the emission, behind the snapshot. -/
theorem nested_emit_keeps_an_inert_slot :
    ∃ w1, invokeSignal (0 + 2) 0 [5] (fixtureWith [nestingSlot, otherSlot Nat]) = .ok w1 ∧
      calls w1.trace = [(1, 7, [5]), (1, 8, [5]), (2, 8, [5])] ∧
      w1.mSlots.map slot.key = [(1, 7), (2, 8), (1, 8)] := by
  obtain ⟨w1, h1, h2, h3, _⟩ :=
    invokeSignal_nested 0 0 [5] [5] (fixtureWith [nestingSlot, otherSlot Nat])
      [] nestingSlot [otherSlot Nat] [5] [.connect 1 (.helper1 8 (fun _ => []))] []
      rfl rfl (fun _ _ => rfl) rfl
      (by intro p hp; cases hp)
      (by intro p hp; rw [List.mem_singleton.mp hp]; rfl)
      rfl rfl rfl rfl rfl
      (by intro a ha; rw [List.mem_singleton.mp ha]; rfl) rfl
      (by intro a ha; cases ha) rfl
      (by
        intro p hp
        have hp1 : p = ⟨1, .helper1 8 (fun _ => [])⟩ := by
          simpa [Action.connected] using hp
        rw [hp1]
        exact ⟨rfl, rfl⟩)
  refine ⟨w1, h1, ?_, ?_⟩
  · rw [h2]; rfl
  · rw [h3]; rfl

theorem clearAllConnectionsIf_flag (p : slot V → Bool) (w w1 : World V)
    (h : clearAllConnectionsIf p w = .ok w1) : w1.isDisconnected = w.isDisconnected := by
  unfold clearAllConnectionsIf at h
  by_cases hs : w.signalAlive = true
  · rw [if_pos hs] at h
    cases h
    rfl
  · rw [if_neg hs] at h
    cases h

theorem unlinkSlot_flag (o : ObjId) (w w1 : World V) (h : unlinkSlot o w = .ok w1) :
    w1.isDisconnected = w.isDisconnected := by
  unfold unlinkSlot at h
  by_cases ha : (w.objects o).alive = true
  · rw [if_pos ha] at h
    cases h
    rfl
  · rw [if_neg ha] at h
    cases h

theorem unlinkAll_flag (ss : List (slot V)) :
    ∀ w w1 : World V, unlinkAll ss w = .ok w1 → w1.isDisconnected = w.isDisconnected := by
  induction ss with
  | nil =>
    intro w w1 h
    simp only [unlinkAll, Except.ok.injEq] at h
    rw [h]
  | cons s rest ih =>
    intro w w1 h
    rw [unlinkAll] at h
    cases hu : unlinkSlot s.object w with
    | error err => rw [hu] at h; simp at h
    | ok w2 =>
      rw [hu] at h
      rw [ih w2 w1 h, unlinkSlot_flag _ _ _ hu]

theorem destroySignal_flag (w w1 : World V) (h : destroySignal w = .ok w1) :
    w1.isDisconnected = w.isDisconnected := by
  unfold destroySignal at h
  by_cases hs : w.signalAlive = true
  · rw [if_pos hs] at h
    cases hu : unlinkAll w.mSlots w with
    | error err => rw [hu] at h; simp at h
    | ok w2 =>
      rw [hu] at h
      simp only [Except.ok.injEq] at h
      rw [← h]
      exact unlinkAll_flag w.mSlots w w2 hu
  · rw [if_neg hs] at h
    cases h

theorem destroy_flag (o : ObjId) (w w1 : World V) (h : destroy o w = .ok w1) :
    w1.isDisconnected = w.isDisconnected := by
  unfold destroy at h
  by_cases ha : (w.objects o).alive = true
  · rw [if_pos ha] at h
    cases h1 : (if w.owner = some o then destroySignal (w.log (.destroyed o))
        else .ok (w.log (.destroyed o))) with
    | error err => rw [h1] at h; simp at h
    | ok wa =>
      rw [h1] at h
      simp only [] at h
      have hfa : wa.isDisconnected = w.isDisconnected := by
        by_cases hown : w.owner = some o
        · rw [if_pos hown] at h1
          have hx := destroySignal_flag _ _ h1
          exact hx
        · rw [if_neg hown] at h1
          cases h1
          rfl
      cases h2 : (if (wa.objects o).linked then clearAllConnectionsWith o wa else .ok wa) with
      | error err => rw [h2] at h; simp at h
      | ok wb =>
        rw [h2] at h
        simp only [Except.ok.injEq] at h
        have hfb : wb.isDisconnected = wa.isDisconnected := by
          by_cases hl : (wa.objects o).linked = true
          · rw [if_pos hl] at h2
            exact clearAllConnectionsIf_flag _ _ _ h2
          · rw [if_neg hl] at h2
            cases h2
            rfl
        rw [← h]
        show wb.isDisconnected = _
        rw [hfb, hfa]
  · rw [if_neg ha] at h
    cases h

theorem release_flag (o : ObjId) (w w1 : World V) (h : release o w = .ok w1) :
    w1.isDisconnected = w.isDisconnected := by
  unfold release at h
  simp only [] at h
  by_cases hz : (w.objects o).owners + ((w.objects o).holds - 1) = 0
  · rw [if_pos hz] at h
    have hx := destroy_flag _ _ _ h
    exact hx
  · rw [if_neg hz] at h
    cases h
    rfl

theorem releaseOpt_flag (p : Option ObjId) (w w1 : World V) (h : releaseOpt p w = .ok w1) :
    w1.isDisconnected = w.isDisconnected := by
  cases p with
  | none => cases h; rfl
  | some o => exact release_flag o w w1 h

theorem leave_flag (slots : List (slot V)) (rp ep : Option ObjId) (w w1 : World V)
    (h : leave slots rp ep w = .ok w1) : w1.isDisconnected = w.isDisconnected := by
  unfold leave at h
  by_cases hs : w.signalAlive = true
  · rw [if_pos hs] at h
    cases h1 : releaseOpt rp { w with
        trace := w.trace ++ slots.map (dropEvent w.lockDepth)
        lockDepth := w.lockDepth - 1 } with
    | error err => rw [h1] at h; simp at h
    | ok wa =>
      rw [h1] at h
      rw [releaseOpt_flag _ _ _ h, releaseOpt_flag _ _ _ h1]
  · rw [if_neg hs] at h
    cases h

/-- Whatever the handlers do, an `invokeSignal` that returns normally on a signal with a
slot returns with the flag false, and on a signal without slots returns the world it was
given. -/
theorem invokeSignal_ok_flag (fuel : Nat) (e : ObjId) (args : List V) (w w1 : World V)
    (h : invokeSignal fuel e args w = .ok w1) :
    (w.mSlots ≠ [] → w1.isDisconnected = false) ∧ (w.mSlots = [] → w1 = w) := by
  cases fuel with
  | zero => cases h
  | succ fuel =>
    have h0 : invokeSignalWith (invokeSignal fuel) e args w = .ok w1 := h
    unfold invokeSignalWith at h0
    by_cases hs : w.signalAlive = true
    · rw [if_pos hs] at h0
      by_cases hemp : w.mSlots.isEmpty = true
      · rw [if_pos hemp] at h0
        cases h0
        exact ⟨fun hne => absurd (List.isEmpty_iff.mp hemp) hne, fun _ => rfl⟩
      · rw [if_neg hemp] at h0
        refine ⟨fun _ => ?_, fun hnil => absurd (by rw [hnil]; rfl) hemp⟩
        by_cases hea : (w.objects e).alive = true
        · rw [if_pos hea] at h0
          cases hl : invokeLoop (invokeSignal fuel) (emitterHold w e) args [] w.mSlots none
              (detach (holdEmitter e w)) with
          | error err => rw [hl] at h0; simp at h0
          | ok r =>
            obtain ⟨slots, rp, w2⟩ := r
            rw [hl] at h0
            simp only [] at h0
            by_cases hs2 : w2.signalAlive = true
            · rw [if_pos hs2] at h0
              rw [leave_flag _ _ _ _ _ h0]
              rfl
            · rw [if_neg hs2] at h0
              cases h0
        · rw [if_neg hea] at h0
          cases h0
    · rw [if_neg hs] at h0
      cases h0

/-- C26: whatever the handlers do, an `invokeSignal` that returns normally returns with the
disconnect flag false when the signal has a slot, and returns the world it was given, flag
included, when it has none.  Consequently, in an emission where the handler of the
same-thread slot `s` runs statements `b1` (which may call `disconnect()`), then emits the
signal again while the live vector holds a slot, and does not call `disconnect()`
afterwards, the emission returns normally with the flag false and `s` still in the
vector: a request made in `b1` is discarded. -/
theorem C26_emission_returns_with_flag_false (fuel : Nat) (e : ObjId) (args args2 : List V)
    (w : World V) (pre : List (slot V)) (s : slot V) (post : List (slot V))
    (received : List V) (b1 b2 : List (Action V))
    (hsig : w.signalAlive = true) (hea : (w.objects e).alive = true) (hz : NoZombie w)
    (hm : w.mSlots = pre ++ s :: post)
    (hpre : ∀ p ∈ pre, tameSlot w e args p = true)
    (hpost : ∀ p ∈ post, tameSlot w e args p = true)
    (hrpre : ∀ p ∈ pre, (p.body args).countP (Action.resets e) = 0)
    (hrpost : ∀ p ∈ post, (p.body args).countP (Action.resets e) = 0)
    (hsa : (w.objects s.object).alive = true) (hsc : isCross w s = false)
    (hcall : s.func.call args = some (received, b1 ++ Action.emit e args2 :: b2))
    (hb1 : ∀ a ∈ b1, Action.tame w e a = true) (hb1r : b1.countP (Action.resets e) = 0)
    (hb2 : ∀ a ∈ b2, Action.tame w e a = true) (hb2r : b2.countP (Action.resets e) = 0)
    (hlive : ∀ p ∈ pre.flatMap (added w args) ++ b1.filterMap Action.connected,
      tameSlot w e args2 p = true ∧ p.body args2 = [])
    (hne : pre.flatMap (added w args) ++ b1.filterMap Action.connected ≠ [])
    (hb2d : b2.any Action.isDisconnect = false) :
    (∀ (fuel0 : Nat) (e0 : ObjId) (args0 : List V) (w0 w1 : World V),
      invokeSignal fuel0 e0 args0 w0 = .ok w1 →
        (w0.mSlots ≠ [] → w1.isDisconnected = false) ∧ (w0.mSlots = [] → w1 = w0)) ∧
    ∃ w1, invokeSignal (fuel + 2) e args w = .ok w1 ∧ w1.isDisconnected = false ∧
      s ∈ w1.mSlots := by
  refine ⟨fun fuel0 e0 args0 w0 w1 h => invokeSignal_ok_flag fuel0 e0 args0 w0 w1 h, ?_⟩
  obtain ⟨w1, h1, _, h3, h4, _⟩ :=
    invokeSignal_nested fuel e args args2 w pre s post received b1 b2 hsig hea hz hm hpre hpost
      (resetCount_eq_zero w e args pre (fun p hp _ => hrpre p hp))
      (resetCount_eq_zero w e args post (fun p hp _ => hrpost p hp))
      hsa hsc hcall hb1 hb1r hb2 hb2r
      (fun p hp => ⟨(hlive p hp).1, by rw [(hlive p hp).2]; rfl⟩)
  refine ⟨w1, h1, h4, ?_⟩
  have hfl : nestedFlag (pre.flatMap (added w args) ++ b1.filterMap Action.connected) b1 b2
      = false := by
    have hemp : (pre.flatMap (added w args) ++ b1.filterMap Action.connected).isEmpty
        = false := by
      cases hl : pre.flatMap (added w args) ++ b1.filterMap Action.connected with
      | nil => exact absurd hl hne
      | cons _ _ => rfl
    simp [nestedFlag, hemp, hb2d]
  rw [h3, hfl]
  simp

/-- Witness for C26: the only slot connects a plain handler, calls `disconnect()` and emits
the signal again; the emission returns with the flag false and the slot still connected. -/
theorem C26_witness :
    ∃ w1, invokeSignal (0 + 2) 0 [5] (fixtureWith [reemittingSlot]) = .ok w1 ∧
      w1.isDisconnected = false ∧ reemittingSlot ∈ w1.mSlots :=
  (C26_emission_returns_with_flag_false 0 0 [5] [5] (fixtureWith [reemittingSlot])
      [] reemittingSlot [] [5] [.connect 1 (.helper1 8 (fun _ => [])), .disconnect] []
      rfl rfl (fun _ _ => rfl) rfl
      (by intro p hp; cases hp) (by intro p hp; cases hp)
      (by intro p hp; cases hp) (by intro p hp; cases hp)
      rfl rfl rfl
      (by
        intro a ha
        rcases List.mem_cons.mp ha with ha | ha
        · rw [ha]; rfl
        · rw [List.mem_singleton.mp ha]; rfl)
      rfl (by intro a ha; cases ha) rfl
      (by
        intro p hp
        have hp1 : p = ⟨1, .helper1 8 (fun _ => [])⟩ := by
          simpa [Action.connected] using hp
        rw [hp1]
        exact ⟨rfl, rfl⟩)
      (by simp [Action.connected]) rfl).2

theorem chunksOf_append {α : Type} (a b : List (Nat × List α)) :
    chunksOf (a ++ b) = chunksOf a ++ chunksOf b := by
  induction a with
  | nil => rfl
  | cons p rest ih => simp [chunksOf, ih]

/-- With a stream that never returns more than it is asked for and fuel for one iteration
per byte, `copyAll` ends: either it returns, having copied exactly `bytes` bytes in non-empty
chunks, or it throws at a read that returned nothing, after non-empty chunks of fewer than
`bytes` bytes in all. -/
theorem copyAll_spec {σ α : Type} (read : σ → Nat → List α × σ)
    (hread : ∀ s k, (read s k).1.length ≤ k) :
    ∀ (fuel bytes : Nat) (st : CopyState σ α), bytes ≤ fuel → bytes < SIZE_RANGE →
      ∃ st1 log, Copied bytes st st1 log ∧
        ((copyAll read fuel bytes st = .returned st1 ∧ (chunksOf log).length = bytes ∧
            ∀ p ∈ log, p.2 ≠ []) ∨
          (copyAll read fuel bytes st = .threwEOF st1 ∧
            ∃ pre k, log = pre ++ [(k, [])] ∧ (∀ p ∈ pre, p.2 ≠ []) ∧
              (chunksOf pre).length < bytes)) := by
  intro fuel
  induction fuel with
  | zero =>
    intro bytes st hf _
    have hb : bytes = 0 := by omega
    subst hb
    refine ⟨st, [], ⟨by simp, by simp [chunksOf], trivial⟩, Or.inl ⟨?_, rfl, ?_⟩⟩
    · rw [copyAll]; simp
    · intro p hp; cases hp
  | succ fuel ih =>
    intro bytes st hf hlt
    by_cases hb : bytes > 0
    · rw [copyAll, if_pos hb]
      have hk := hread st.is (min bytes 0x1000)
      by_cases hr : (read st.is (min bytes 0x1000)).1.length = 0
      · rw [if_pos hr]
        have hnil : (read st.is (min bytes 0x1000)).1 = [] := List.length_eq_zero.mp hr
        refine ⟨_, [(min bytes 0x1000, (read st.is (min bytes 0x1000)).1)],
          ⟨rfl, ?_, ?_⟩, Or.inr ⟨rfl, [], min bytes 0x1000, ?_, ?_, ?_⟩⟩
        · simp [chunksOf, hnil]
        · exact ⟨rfl, trivial⟩
        · rw [hnil]; rfl
        · intro p hp; cases hp
        · simpa [chunksOf] using hb
      · rw [if_neg hr]
        have hle : (read st.is (min bytes 0x1000)).1.length ≤ bytes :=
          le_trans hk (Nat.min_le_left _ _)
        have hnew : (bytes + SIZE_RANGE - (read st.is (min bytes 0x1000)).1.length)
            % SIZE_RANGE = bytes - (read st.is (min bytes 0x1000)).1.length := by
          have e1 : bytes + SIZE_RANGE - (read st.is (min bytes 0x1000)).1.length
              = (bytes - (read st.is (min bytes 0x1000)).1.length) + SIZE_RANGE := by omega
          rw [e1, Nat.add_mod_right]
          exact Nat.mod_eq_of_lt (by omega)
        rw [hnew]
        obtain ⟨st1, log, hc, hcase⟩ :=
          ih (bytes - (read st.is (min bytes 0x1000)).1.length)
            ⟨(read st.is (min bytes 0x1000)).2,
              st.os ++ (read st.is (min bytes 0x1000)).1,
              st.reads ++ [(min bytes 0x1000, (read st.is (min bytes 0x1000)).1)]⟩
            (by omega) (by omega)
        have hne : (read st.is (min bytes 0x1000)).1 ≠ [] :=
          fun h => hr (by rw [h]; rfl)
        refine ⟨st1, (min bytes 0x1000, (read st.is (min bytes 0x1000)).1) :: log,
          ⟨?_, ?_, ?_⟩, ?_⟩
        · rw [hc.reads]; simp
        · rw [hc.os]; simp [chunksOf]
        · exact ⟨rfl, hc.asked⟩
        · rcases hcase with ⟨h1, h2, h3⟩ | ⟨h1, pre, k, h2, h3, h4⟩
          · refine Or.inl ⟨h1, ?_, ?_⟩
            · simp only [chunksOf, List.length_append, h2]; omega
            · intro p hp
              rcases List.mem_cons.mp hp with hp | hp
              · rw [hp]; exact hne
              · exact h3 p hp
          · refine Or.inr ⟨h1, (min bytes 0x1000, (read st.is (min bytes 0x1000)).1) :: pre,
              k, by rw [h2]; rfl, ?_, ?_⟩
            · intro p hp
              rcases List.mem_cons.mp hp with hp | hp
              · rw [hp]; exact hne
              · exact h3 p hp
            · simp only [chunksOf, List.length_append]; omega
    · have hb0 : bytes = 0 := by omega
      subst hb0
      refine ⟨st, [], ⟨by simp, by simp [chunksOf], trivial⟩, Or.inl ⟨?_, rfl, ?_⟩⟩
      · rw [copyAll]; simp
      · intro p hp; cases hp

theorem listRead_le {α : Type} (step : Nat) (s : List α) (k : Nat) :
    (listRead step s k).1.length ≤ k := by
  simp only [listRead, List.length_take]
  omega

/-- C27: for an input stream whose `read(buf, k)` returns between 0 and `k` bytes and a
count `n` of type `size_t`, `copyAll(is, os, n)` ends (one unit of fuel per byte suffices),
and when it returns normally it has written exactly `n` bytes to `os`, the concatenation in
order of the chunks its reads returned, and every read asked for
`min(bytes still to copy, 4096)` bytes. -/
theorem C27_copyAll_copies_exactly_n_bytes {σ α : Type} (read : σ → Nat → List α × σ)
    (hread : ∀ s k, (read s k).1.length ≤ k) (fuel n : Nat) (is : σ)
    (hfuel : n ≤ fuel) (hn : n < SIZE_RANGE) :
    copyAll read fuel n ⟨is, [], []⟩ ≠ .outOfFuel ∧
    ∀ st1, copyAll read fuel n ⟨is, [], []⟩ = .returned st1 →
      st1.os = chunksOf st1.reads ∧ st1.os.length = n ∧ AskedRight n st1.reads := by
  obtain ⟨st2, log, hc, hcase⟩ := copyAll_spec read hread fuel n ⟨is, [], []⟩ hfuel hn
  have hreads : st2.reads = log := by rw [hc.reads]; rfl
  have hos : st2.os = chunksOf log := by rw [hc.os]; rfl
  rcases hcase with ⟨h1, h2, _⟩ | ⟨h1, _⟩
  · rw [h1]
    refine ⟨fun h => (by cases h), ?_⟩
    intro st1 he
    cases he
    exact ⟨by rw [hos, hreads], by rw [hos, h2], by rw [hreads]; exact hc.asked⟩
  · rw [h1]
    exact ⟨fun h => (by cases h), fun st1 he => (by cases he)⟩

/-- Witness for C27: seven bytes are available in chunks of at most two; copying five of
them returns with these five written, after reads that asked for 5, 3 and 1 bytes. -/
theorem C27_witness :
    (copyAll (listRead 2) 5 5 ⟨[1, 2, 3, 4, 5, 6, 7], [], []⟩ ≠ .outOfFuel ∧
      ∀ st1, copyAll (listRead 2) 5 5 ⟨[1, 2, 3, 4, 5, 6, 7], [], []⟩ = .returned st1 →
        st1.os = chunksOf st1.reads ∧ st1.os.length = 5 ∧ AskedRight 5 st1.reads) ∧
    ∃ st1, copyAll (listRead 2) 5 5 ⟨[1, 2, 3, 4, 5, 6, 7], [], []⟩ = .returned st1 ∧
      st1.os = [1, 2, 3, 4, 5] ∧ st1.reads = [(5, [1, 2]), (3, [3, 4]), (1, [5])] ∧
      st1.is = [6, 7] :=
  ⟨C27_copyAll_copies_exactly_n_bytes (listRead 2) (listRead_le 2) 5 5 [1, 2, 3, 4, 5, 6, 7]
    (by decide) (by decide), ⟨_, rfl, rfl, rfl, rfl⟩⟩

/-- C28: for an input stream whose `read(buf, k)` returns between 0 and `k` bytes,
`copyAll(is, os, n)` throws `AEOFException` exactly when one of its reads returned 0 bytes
(every read is made while fewer than `n` bytes have been copied); when it throws, `os` holds
the chunks of the reads before the failing one, fewer than `n` bytes, and the failing read is
the last one; with `n = 0` it returns at once, whatever the fuel, with no read and no
write. -/
theorem C28_copyAll_throws_iff_a_read_returns_nothing {σ α : Type}
    (read : σ → Nat → List α × σ) (hread : ∀ s k, (read s k).1.length ≤ k) (fuel n : Nat)
    (is : σ) (hfuel : n ≤ fuel) (hn : n < SIZE_RANGE) :
    ((∃ st1, copyAll read fuel n ⟨is, [], []⟩ = .threwEOF st1) ↔
      ∃ p ∈ (copyAll read fuel n ⟨is, [], []⟩).reads, p.2 = []) ∧
    (∀ st1, copyAll read fuel n ⟨is, [], []⟩ = .threwEOF st1 →
      ∃ pre k, st1.reads = pre ++ [(k, [])] ∧ st1.os = chunksOf pre ∧
        st1.os.length < n ∧ ∀ p ∈ pre, p.2 ≠ []) ∧
    ∀ (fuel0 : Nat) (st : CopyState σ α), copyAll read fuel0 0 st = .returned st := by
  obtain ⟨st2, log, hc, hcase⟩ := copyAll_spec read hread fuel n ⟨is, [], []⟩ hfuel hn
  have hreads : st2.reads = log := by rw [hc.reads]; rfl
  have hos : st2.os = chunksOf log := by rw [hc.os]; rfl
  refine ⟨?_, ?_, ?_⟩
  · rcases hcase with ⟨h1, _, h3⟩ | ⟨h1, pre, k, h2, _, _⟩
    · rw [h1]
      constructor
      · rintro ⟨st1, he⟩; cases he
      · rintro ⟨p, hp, hnil⟩
        exact absurd hnil (h3 p (by rw [← hreads]; exact hp))
    · rw [h1]
      refine ⟨fun _ => ⟨(k, []), ?_, rfl⟩, fun _ => ⟨st2, rfl⟩⟩
      show (k, []) ∈ st2.reads
      rw [hreads, h2]
      simp
  · intro st1 he
    rcases hcase with ⟨h1, _⟩ | ⟨h1, pre, k, h2, h3, h4⟩
    · rw [h1] at he; cases he
    · rw [h1] at he
      cases he
      refine ⟨pre, k, by rw [hreads, h2], ?_, ?_, h3⟩
      · rw [hos, h2, chunksOf_append]; simp [chunksOf]
      · rw [hos, h2, chunksOf_append]; simpa [chunksOf] using h4
  · intro fuel0 st
    cases fuel0 <;> simp [copyAll]

/-- Witness for C28: three bytes are available in chunks of at most two; copying five
throws at the third read, with the three bytes written. -/
theorem C28_witness :
    ((∃ st1, copyAll (listRead 2) 5 5 ⟨[1, 2, 3], [], []⟩ = .threwEOF st1) ↔
      ∃ p ∈ (copyAll (listRead 2) 5 5 ⟨[1, 2, 3], [], []⟩).reads, p.2 = []) ∧
    (∃ st1, copyAll (listRead 2) 5 5 ⟨[1, 2, 3], [], []⟩ = .threwEOF st1 ∧
      st1.os = [1, 2, 3] ∧ st1.reads = [(5, [1, 2]), (3, [3]), (2, [])]) :=
  ⟨(C28_copyAll_throws_iff_a_read_returns_nothing (listRead 2) (listRead_le 2) 5 5 [1, 2, 3]
      (by decide) (by decide)).1, ⟨_, rfl, rfl, rfl⟩⟩

end AUI
